import Mathlib

/-!
Verification development for the mlx4 poll-mode driver's descriptor ring
engine (`lib/librte_pmd_mlx4/mlx4.c`).  The C code is shallowly embedded:
each C function of interest becomes an executable Lean definition over an
explicit state record; hardware (libibverbs) and the buffer allocator are
oracles passed as parameters.  Machine integers are modelled as `Nat`, with
an explicit `% 2^32` exactly where the C unsigned arithmetic can wrap
(the `elts_used` decrement in `txq_complete` and the `elts_cur` rollback
in `mlx4_tx_burst`).  Buffers (`struct rte_mbuf`) are identified by a
numeric id; `rte_pktmbuf_free*` calls are modelled by appending the freed
ids to a ghost `freed` log.  Compile-time configuration follows `mlx4.h`:
`MLX4_PMD_SGE_WR_N = 4`, `MLX4_PMD_TX_MP_CACHE = 8`,
`MLX4_PMD_MAX_INLINE = 0` (so the inline branch is compiled out) and
`MLX4_PMD_SOFT_COUNTERS` enabled.
-/

set_option autoImplicit false
set_option maxRecDepth 8192

namespace Mlx4

/-- `2^32`, the modulus of the C `unsigned int` / `uint32_t` arithmetic. -/
def two32 : Nat := 4294967296

/-- `(uint32_t)-1`, the sentinel "invalid lkey" returned by `txq_mp2mr`. -/
def lkeyInvalid : Nat := two32 - 1

/-- Decrement of a C `unsigned int`: wraps to `2^32 - 1` on underflow. -/
def dec32 (x : Nat) : Nat := (x + (two32 - 1)) % two32

/-- Pointwise update of a slot-indexed function (one array store in C). -/
def upd {α : Type} (f : Nat → α) (i : Nat) (v : α) : Nat → α :=
  fun j => if j = i then v else f j

theorem upd_same {α : Type} (f : Nat → α) (i : Nat) (v : α) : upd f i v i = v := by
  simp [upd]

theorem upd_other {α : Type} (f : Nat → α) (i j : Nat) (v : α) (h : j ≠ i) :
    upd f i v j = f j := by
  simp [upd, h]

/-- One segment of a packet: an `rte_mbuf`.  `id` is the buffer handle
identity (the pointer in C), `pool` its mempool, `data_len` / `pkt_len`
the mbuf length fields. -/
structure Seg where
  id : Nat
  pool : Nat
  data_len : Nat
  pkt_len : Nat
deriving DecidableEq, Repr

/-- A packet handed to `mlx4_tx_burst`: the mbuf chain through `buf->next`. -/
abbrev Pkt := List Seg

/-- One `txq->mp2mr[]` entry: `(mp, mp_size, mr, lkey)`. -/
structure MrEntry where
  mp : Nat
  mp_size : Nat
  mr : Nat
  lkey : Nat
deriving DecidableEq, Repr

/-- Result of the `ibv_reg_mr` oracle: the new MR identity and its lkey. -/
structure MrReg where
  mr : Nat
  lkey : Nat
deriving DecidableEq, Repr

/-- One `struct ibv_wc` as consumed by `txq_complete`: the completed
WR id and whether `wc->status == IBV_WC_SUCCESS`. -/
structure Wc where
  wr_id : Nat
  success : Bool
deriving DecidableEq, Repr

/-- Outcome of an `ibv_poll_cq` call: an error (`wcs_n < 0`) or a list of
completions (`wcs_n = length`). -/
inductive PollRes where
  | err : PollRes
  | ok : List Wc → PollRes
deriving DecidableEq, Repr

/-- Outcome of `mlx4_post_send`: success, or failure with `bad_wr`
identifying the first rejected WR (by its slot index). -/
inductive PostRes where
  | ok : PostRes
  | fail : Nat → PostRes
deriving DecidableEq, Repr

/-- The TX queue state (`struct txq` plus ghost instrumentation).
`bufs i` is slot `i`'s `elt_buf->bufs[]` array (length 4, `none` = NULL);
`comp i` is the slot's `elt_buf->comp` link (as a slot index);
`next i` the slot's `wr.next` link; `sg i` the slot's `wr.num_sge`;
`sig i` the `IBV_SEND_SIGNALED` bit of `wr.send_flags`.
Ghost fields: `freed` logs every `rte_pktmbuf_free*` call (buffer ids, in
order), `regLog` every `ibv_reg_mr` call (pool ids), `deregLog` every
`ibv_dereg_mr` call (MR ids), `posted` every `mlx4_post_send` call (the
chain of slot indices handed to hardware). -/
structure TxState where
  elts_n : Nat
  elts_cur : Nat
  elts_used : Nat
  elts_free : Nat
  elts_comp : Nat
  bufs : Nat → List (Option Seg)
  comp : Nat → Option Nat
  next : Nat → Option Nat
  sg : Nat → Nat
  sig : Nat → Bool
  lost_comp : Option Nat
  mp2mr : List MrEntry
  freed : List Nat
  regLog : List Nat
  deregLog : List Nat
  posted : List (List Nat)
  opackets : Nat
  obytes : Nat
  odropped : Nat

/-- A fresh (all-NULL, length-4) `bufs[]` array, as left by `rte_calloc`. -/
def emptyElt : List (Option Seg) := [none, none, none, none]

/-- `txq_alloc_elts` (success path): a freshly configured TX ring.
Each WR gets `wr_id = i`, `next = NULL`, `num_sge = elemof(sges) = 4` and
`send_flags = IBV_SEND_SIGNALED`; the counters are set to
`elts_cur = elts_used = elts_comp = 0`, `elts_free = elts_n`.  (On calloc
failure the C function frees both arrays and returns ENOMEM without
creating any queue state.) -/
def txq_alloc_elts (elts_n : Nat) : TxState where
  elts_n := elts_n
  elts_cur := 0
  elts_used := 0
  elts_free := elts_n
  elts_comp := 0
  bufs := fun _ => emptyElt
  comp := fun _ => none
  next := fun _ => none
  sg := fun _ => 4
  sig := fun _ => true
  lost_comp := none
  mp2mr := []
  freed := []
  regLog := []
  deregLog := []
  posted := []
  opackets := 0
  obytes := 0
  odropped := 0

/-- Ids of every non-NULL entry of a `bufs[]` array (any position), as
scanned by `txq_free_elts`. -/
def bufIdsAll (l : List (Option Seg)) : List Nat :=
  l.filterMap (fun o => o.map Seg.id)

/-- Ids of the leading non-NULL entries of a `bufs[]` array, as freed by
the inner do/while loop of `txq_complete` (which stops at the first NULL
slot; the code asserts the first entry is non-NULL). -/
def bufIdsPrefix (l : List (Option Seg)) : List Nat :=
  (l.takeWhile Option.isSome).filterMap (fun o => o.map Seg.id)

/-- A `bufs[]` array after `txq_complete` NULLed its leading non-NULL
entries (the entries beyond the first NULL are left untouched). -/
def clearPrefix (l : List (Option Seg)) : List (Option Seg) :=
  List.replicate (l.takeWhile Option.isSome).length none
    ++ l.drop (l.takeWhile Option.isSome).length

/-- `txq_free_elts`: frees every non-NULL buffer of every element (double
loop over `elts_n` elements and 4 positions), then releases the element
arrays and resets `elts_n`.  The counters are not touched by the C code. -/
def txq_free_elts (s : TxState) : TxState :=
  { s with
    elts_n := 0
    bufs := fun _ => emptyElt
    freed := s.freed ++ ((List.range s.elts_n).map (fun i => bufIdsAll (s.bufs i))).flatten }

/-- Walk a `comp`-style linked list of slot indices, bounded by fuel.
Returns the visited slots in order; the list is complete iff the chain
reaches NULL within the fuel (see `chainEndsB`). -/
def optChain (cmp : Nat → Option Nat) : Nat → Option Nat → List Nat
  | _, none => []
  | 0, some e => [e]
  | fuel + 1, some e => e :: optChain cmp fuel (cmp e)

/-- `true` iff the linked list starting at the given head reaches NULL
within `fuel` steps (i.e. the corresponding C loop terminates). -/
def chainEndsB (cmp : Nat → Option Nat) : Nat → Option Nat → Bool
  | _, none => true
  | 0, some _ => false
  | fuel + 1, some e => chainEndsB cmp fuel (cmp e)

/-- Free one element's batch buffers inside `txq_complete`: every leading
non-NULL `bufs[]` entry is NULLed and freed, then `--elts_used` (C
`unsigned int`, hence `dec32`) and `++elts_free`. -/
def freeEltStep (s : TxState) (e : Nat) : TxState :=
  { s with
    freed := s.freed ++ bufIdsPrefix (s.bufs e)
    bufs := upd s.bufs e (clearPrefix (s.bufs e))
    elts_used := dec32 s.elts_used
    elts_free := s.elts_free + 1 }

/-- The lost-completion drain loop of `txq_complete`
(`while (txq->lost_comp != NULL)`): pop the head element, free its
buffers, adjust the counters, follow its `comp` link.  Fuel-bounded; the
C loop terminates exactly when the chain reaches NULL. -/
def drainLost : Nat → TxState → TxState
  | 0, s => s
  | fuel + 1, s =>
    match s.lost_comp with
    | none => s
    | some e => drainLost fuel { freeEltStep s e with lost_comp := s.comp e }

/-- The per-completion batch walk of `txq_complete` (the outer do/while):
free the element's buffers, then follow `elt_buf->comp` until NULL.
Fuel-bounded. -/
def freeBatch : Nat → TxState → Nat → TxState
  | 0, s, e => freeEltStep s e
  | fuel + 1, s, e =>
    let s1 := freeEltStep s e
    match s.comp e with
    | none => s1
    | some e2 => freeBatch fuel s1 e2

/-- Processing of one completion inside `txq_complete`'s `for` loop: an
error status sets the return value to -1 and bumps `odropped`; the whole
batch chain of the completion's WR is freed either way, and `elts_comp`
is decremented once per completion event (the `ibv_poll_cq` request size
of `elts_comp` keeps the decrement from underflowing). -/
def odropBump (s : TxState) : TxState := { s with odropped := s.odropped + 1 }

def wcStep (p : Int × TxState) (wc : Wc) : Int × TxState :=
  let ret : Int := if wc.success then p.1 else -1
  let s2 := if wc.success then p.2 else odropBump p.2
  let s3 := freeBatch s2.elts_n s2 wc.wr_id
  (ret, { s3 with elts_comp := s3.elts_comp - 1 })

/-- `txq_complete`: no-op returning 0 when `elts_comp == 0`; polls the CQ
asking for at most `elts_comp` completions; returns -1 on a poll error and
0 when the poll is empty, in both cases without touching the state.
Otherwise it first drains the whole Lost-Completion List, then for each
received completion frees the whole batch chain of that completion's WR. -/
def txq_complete (s : TxState) (poll : Nat → PollRes) : Int × TxState :=
  if s.elts_comp = 0 then (0, s)
  else
    match poll s.elts_comp with
    | .err => (-1, s)
    | .ok wcs =>
      if wcs = [] then (0, s)
      else wcs.foldl wcStep ((0 : Int), drainLost s.elts_n s)

/-- `txq_mp2mr`: linear scan of the (prefix-filled) `mp2mr[]` table; a hit
returns the cached lkey without any registration.  On a miss the pool's
full size is registered through the `reg` oracle (`ibv_reg_mr`); a
registration failure returns `(uint32_t)-1`.  When the table is full the
code then executes `--i; ibv_dereg_mr(mp2mr[i].mr)` — deregistering the
entry at index 7, the newest — and `memmove`s entries 1..7 down to 0..6
before storing the new entry at index 7. -/
def txq_mp2mr (s : TxState) (mp : Nat) (reg : Nat → Option MrReg)
    (mp_total_size : Nat → Nat) : Nat × TxState :=
  match s.mp2mr.find? (fun e => e.mp = mp) with
  | some e => (e.lkey, s)
  | none =>
    let mp_size := mp_total_size mp
    match reg mp with
    | none => (lkeyInvalid, { s with regLog := s.regLog ++ [mp] })
    | some r =>
      let entry : MrEntry := ⟨mp, mp_size, r.mr, r.lkey⟩
      let s1 := { s with regLog := s.regLog ++ [mp] }
      if s1.mp2mr.length = 8 then
        (r.lkey,
          { s1 with
            deregLog := s1.deregLog ++ [((s1.mp2mr.getLast?).map MrEntry.mr).getD 0]
            mp2mr := s1.mp2mr.drop 1 ++ [entry] })
      else
        (r.lkey, { s1 with mp2mr := s1.mp2mr ++ [entry] })

/-- Local loop state of `mlx4_tx_burst`: the queue state plus the local
`elts_cur`, the `head.next` target, the `wr_next` cursor (`none` while
it still points at `&head.next`, `some t` once it points at slot `t`'s
`wr.next`), the `elt_prev` batch link and the `dropped` counter. -/
structure LoopSt where
  s : TxState
  cur : Nat
  headSlot : Option Nat
  wrNext : Option Nat
  elt_prev : Option Nat
  dropped : Nat

/-- The SGE registration loop of `mlx4_tx_burst` (`for (buf = pkts[i]; ...)`).
Processes the mbuf chain while `buf != NULL && seg_n != 4`; resolves each
segment's pool through `txq_mp2mr` (stopping with a drop on the sentinel
lkey), skips empty non-first segments, and stores each registered segment
into `elt_buf->bufs[seg_n]`.  Returns the updated state, the final
`seg_n`, `sent_size`, and whether the packet must be dropped (loop left
with `buf != NULL`). -/
def segLoop (reg : Nat → Option MrReg) (mp_total_size : Nat → Nat) (cur : Nat) :
    List Seg → Bool → Nat → Nat → TxState → TxState × Nat × Nat × Bool
  | [], _, seg_n, sent, s => (s, seg_n, sent, false)
  | b :: rest, first, seg_n, sent, s =>
    if seg_n = 4 then (s, seg_n, sent, true)
    else
      let r := txq_mp2mr s b.pool reg mp_total_size
      if r.1 = lkeyInvalid then (r.2, seg_n, sent, true)
      else if b.data_len = 0 ∧ first = false then
        segLoop reg mp_total_size cur rest false seg_n sent r.2
      else
        segLoop reg mp_total_size cur rest false (seg_n + 1) (sent + b.data_len)
          { r.2 with bufs := upd r.2.bufs cur ((r.2.bufs cur).set seg_n (some b)) }

/-- One iteration of the packet loop of `mlx4_tx_burst`: link the current
slot's WR into the chain, clear its SIGNALED flag, set its `comp` link to
the previous element, run the SGE loop, account `obytes`, then either
drop the packet (free the whole mbuf chain, `num_sge := 0`, cursor not
advanced) or finalize `num_sge` and advance the cursor modulo `elts_n`.
`opackets` is incremented for every packet, dropped or not. -/
def txStep (reg : Nat → Option MrReg) (mp_total_size : Nat → Nat) (n : Nat)
    (L : LoopSt) (p : Pkt) : LoopSt :=
  let cur := L.cur
  let linked : Option Nat × TxState :=
    match L.wrNext with
    | none => (some cur, L.s)
    | some t => (L.headSlot, { L.s with next := upd L.s.next t (some cur) })
  let s0 := { linked.2 with
    sig := upd linked.2.sig cur false
    comp := upd linked.2.comp cur L.elt_prev }
  let r := segLoop reg mp_total_size cur p true 0 0 s0
  let s1 := { r.1 with obytes := r.1.obytes + r.2.2.1 }
  if r.2.2.2 then
    { s := { s1 with
        freed := s1.freed ++ p.map Seg.id
        sg := upd s1.sg cur 0
        opackets := s1.opackets + 1 }
      cur := cur
      headSlot := linked.1
      wrNext := some cur
      elt_prev := some cur
      dropped := L.dropped + 1 }
  else
    { s := { s1 with
        sg := upd s1.sg cur r.2.1
        opackets := s1.opackets + 1 }
      cur := if cur + 1 = n then 0 else cur + 1
      headSlot := linked.1
      wrNext := some cur
      elt_prev := some cur
      dropped := L.dropped }

/-- The rollback walk of the `mlx4_post_send` failure path
(`for (i = 0; elt_buf->comp != NULL; ++i)`): starting from the rejected
element, follow the `comp` links back to the chain head, counting the
steps and the elements whose `wr.num_sge == 0` (recomputed `i` and
`dropped`), and return the final element reached.  Fuel-bounded. -/
def rewindWalk (cmp : Nat → Option Nat) (sg : Nat → Nat) :
    Nat → Nat → Nat × Nat × Nat
  | 0, e => (0, 0, e)
  | fuel + 1, e =>
    match cmp e with
    | none => (0, 0, e)
    | some e2 =>
      let r := rewindWalk cmp sg fuel e2
      (r.1 + 1, r.2.1 + (if sg e = 0 then 1 else 0), r.2.2)

/-- `pkt_len` of `bufs[0]` of a slot, as read by the soft-counters
correction loop of the failure path (the code asserts `bufs[0] != NULL`). -/
def headPktLen (l : List (Option Seg)) : Nat :=
  (((l.head?).bind id).map Seg.pkt_len).getD 0

/-- `mlx4_tx_burst`.  Calls `txq_complete` first (via the `poll` oracle),
returns 0 for an empty burst or a full ring, processes
`max = min(elts_free, pkts_n)` packets through `txStep`, takes the
all-dropped shortcut, otherwise NULL-terminates the WR chain, sets
`IBV_SEND_SIGNALED` on the last WR and posts the chain (the `post`
oracle).  On success: `++elts_comp`, counters updated by `max - dropped`,
cursor stored.  On failure at `bad_wr`: recompute the accepted count and
dropped count by `rewindWalk`, roll back the cursor with C `unsigned`
arithmetic (`elts_cur -= (max - i - dropped); elts_cur %= elts_n`), merge
the accepted elements into the Lost-Completion List, correct the soft
counters for every unsent WR, and return the recomputed `i`. -/
def mlx4_tx_burst (s0 : TxState) (pkts : List Pkt) (poll : Nat → PollRes)
    (post : List Nat → PostRes) (reg : Nat → Option MrReg)
    (mp_total_size : Nat → Nat) : Nat × TxState :=
  let s := (txq_complete s0 poll).2
  if pkts = [] then (0, s)
  else if s.elts_free = 0 then (0, s)
  else
    let max := min s.elts_free pkts.length
    let L := (pkts.take max).foldl (txStep reg mp_total_size s.elts_n)
      ⟨s, s.elts_cur, none, none, none, 0⟩
    if L.dropped = max then (0, L.s)
    else
      match L.wrNext with
      | none => (0, L.s)
      | some t =>
        let s1 := { L.s with
          next := upd L.s.next t none
          sig := upd L.s.sig t true }
        let chain := optChain s1.next s1.elts_n L.headSlot
        let s2 := { s1 with posted := s1.posted ++ [chain] }
        match post chain with
        | .ok =>
          (max,
            { s2 with
              elts_comp := s2.elts_comp + 1
              elts_used := s2.elts_used + (max - L.dropped)
              elts_free := s2.elts_free - (max - L.dropped)
              elts_cur := L.cur
              odropped := s2.odropped + L.dropped })
        | .fail bad =>
          let w := rewindWalk s2.comp s2.sg s2.elts_n bad
          let i2 := w.1
          let dropped2 := w.2.1
          let first := w.2.2
          let d := max - i2 - dropped2
          let cur2 := ((L.cur + two32 - d) % two32) % s2.elts_n
          let s3 :=
            if (s2.comp bad).isSome then
              let sa := { s2 with comp := upd s2.comp first s2.lost_comp }
              { sa with lost_comp := sa.comp bad }
            else s2
          let tail := bad :: optChain s3.next s3.elts_n (s3.next bad)
          let s4 := { s3 with
            opackets := s3.opackets - tail.length
            obytes := s3.obytes - (tail.map (fun e => headPktLen (s3.bufs e))).sum }
          (i2,
            { s4 with
              elts_used := s4.elts_used + (i2 - dropped2)
              elts_free := s4.elts_free - (i2 - dropped2)
              elts_cur := cur2
              odropped := s4.odropped + dropped2 })

/-- The buffers currently sitting in the Lost-Completion List: for each
element of the chain, the leading non-NULL entries of its `bufs[]` array
(exactly what the drain loop of `txq_complete` frees). -/
def lostChainBufs (s : TxState) : List Nat :=
  ((optChain s.comp s.elts_n s.lost_comp).map (fun e => bufIdsPrefix (s.bufs e))).flatten

/- Concrete oracles and packets used by the evaluation traces below. -/

/-- Registration oracle: every pool registers, pool `p` getting MR id
`100 + p` and lkey `200 + p`. -/
def regOracle : Nat → Option MrReg := fun p => some ⟨100 + p, 200 + p⟩

/-- Pool size oracle (`mp_total_size`); the value is irrelevant here. -/
def sizeOracle : Nat → Nat := fun _ => 4096

/-- Poll oracle for a quiescent CQ: `ibv_poll_cq` returns 0 completions. -/
def pollEmpty : Nat → PollRes := fun _ => PollRes.ok []

/-- A single-segment 64-byte packet with buffer id `i` from pool 7. -/
def pktSingle (i : Nat) : Pkt := [⟨i, 7, 64, 64⟩]

/-- A five-segment packet (ids 10..14, pool 7, 100 bytes per segment):
one segment more than `MLX4_PMD_SGE_WR_N = 4` allows. -/
def pktFive : Pkt :=
  [⟨10, 7, 100, 500⟩, ⟨11, 7, 100, 100⟩, ⟨12, 7, 100, 100⟩,
   ⟨13, 7, 100, 100⟩, ⟨14, 7, 100, 100⟩]

/-- Failing trace for C1/C9, step 1: on a fresh 2-slot TX ring (descriptor
count 8), send a burst of one good single-segment packet (id 1) followed
by `pktFive`, which exceeds the segment limit and is dropped (and freed)
mid-burst; the post succeeds. -/
def bugBurst : Nat × TxState :=
  mlx4_tx_burst (txq_alloc_elts 2) [pktSingle 1, pktFive] pollEmpty
    (fun _ => PostRes.ok) regOracle sizeOracle

/-- Failing trace for C1/C9, step 2: hardware delivers the (single,
legitimate) completion of the posted batch, whose signaled tail WR is
slot 1 — the dropped packet's slot, which is still linked into the
batch's `comp` chain. -/
def bugState : TxState :=
  (txq_complete bugBurst.2 (fun _ => PollRes.ok [⟨1, true⟩])).2

/-- State for the C2 counterexample: on a fresh 4-slot ring, a burst of
three single-segment packets (ids 21,22,23) whose hardware post accepts
exactly `k = 1` of the `m = 3` chained slots and rejects `bad_wr` =
slot 1. -/
def c2state : TxState :=
  (mlx4_tx_burst (txq_alloc_elts 4) [pktSingle 21, pktSingle 22, pktSingle 23]
    pollEmpty (fun _ => PostRes.fail 1) regOracle sizeOracle).2

/-- State for the C8 counterexample: a burst consisting of a single
over-long packet (`pktFive`), which is dropped; `dropped == max` takes
the early-return shortcut. -/
def c8state : TxState :=
  (mlx4_tx_burst (txq_alloc_elts 1) [pktFive] pollEmpty
    (fun _ => PostRes.ok) regOracle sizeOracle).2

/-- C4 trace, step 1: resolve eight distinct pools 1..8 on a fresh queue,
filling all `MLX4_PMD_TX_MP_CACHE = 8` entries of `mp2mr[]`. -/
def c4Cache8 : TxState :=
  (List.range 8).foldl (fun s p => (txq_mp2mr s (p + 1) regOracle sizeOracle).2)
    (txq_alloc_elts 1)

/-- C4 trace: re-resolving the already-cached pool 5 (a cache hit). -/
def c4Hit : Nat × TxState := txq_mp2mr c4Cache8 5 regOracle sizeOracle

/-- C4 trace, step 2: resolving a ninth distinct pool with the cache full,
which triggers the eviction path. -/
def c4Ninth : Nat × TxState := txq_mp2mr c4Cache8 9 regOracle sizeOracle

/-- C4 trace, step 3: re-resolving pool 1, the evicted first-inserted one. -/
def c4Re : Nat × TxState := txq_mp2mr c4Ninth.2 1 regOracle sizeOracle

/-- C1: the TX counter invariant `elts_used + elts_free == elts_n`,
`elts_comp <= elts_used` is NOT preserved by every call: on a fresh
2-slot ring, after `mlx4_tx_burst` processes one good packet plus one
over-long (dropped) packet and `txq_complete` then polls the batch's one
legitimate completion, the completion walk decrements `elts_used` once
per `comp`-chain element — including the dropped packet's slot, which
the burst never charged to `elts_used` — so `elts_used` underflows
(`0 - 1` as C `unsigned int`) to `2^32 - 1` and `elts_free` becomes 3 on
a 2-slot ring, violating the invariant (and the code's own
`assert(elts_used != 0)` / `assert(elts_free != elts_n)` in
`txq_complete`). -/
theorem c1_counter_invariant_violated :
    bugState.elts_n = 2 ∧
    bugState.elts_used = 4294967295 ∧
    bugState.elts_free = 3 ∧
    bugState.elts_used + bugState.elts_free ≠ bugState.elts_n ∧
    bugState.elts_n < bugState.elts_free := by
  decide

/-- C9: a buffer handle is freed twice by the ring: in the same trace as
C1, the dropped packet's segment buffers (ids 10..13) were freed by
`rte_pktmbuf_free(pkts[i])` on the drop path but left stored (non-NULL)
in the slot's `bufs[]` array; the subsequent completion walk frees them
a second time.  Buffer id 12 appears twice in the freed log, refuting
"every buffer handle stored in the queue's element array is freed
exactly once". -/
theorem c9_buffer_freed_twice :
    bugState.freed = [10, 11, 12, 13, 14, 10, 11, 12, 13, 1] ∧
    bugState.freed.count 12 = 2 := by
  decide

/-- C4: the region cache does evict the oldest entry (index 0) from the
table, shifting the rest down and inserting the new entry at the end, and
a cache hit registers nothing, and re-resolving the evicted pool requires
re-registration — but the `ibv_dereg_mr` call of the eviction path is
applied to `mp2mr[7]`, the NEWEST entry (the code does `--i;
ibv_dereg_mr(mp2mr[i].mr)` with `i == 8`), not to the evicted index-0
entry: MR 108 (pool 8's) is deregistered yet stays cached, while evicted
pool 1's MR 101 is never deregistered (it leaks), contradicting the
claim and the code's own "remove oldest entry" comment. -/
theorem c4_eviction_deregisters_newest :
    (c4Cache8.mp2mr.map MrEntry.mp = [1, 2, 3, 4, 5, 6, 7, 8]) ∧
    (c4Hit.1 = 205 ∧ c4Hit.2.regLog = c4Cache8.regLog) ∧
    (c4Ninth.2.mp2mr.map MrEntry.mp = [2, 3, 4, 5, 6, 7, 8, 9]) ∧
    (c4Ninth.2.deregLog = [108]) ∧
    (101 ∉ c4Ninth.2.deregLog) ∧
    ((c4Ninth.2.mp2mr.find? (fun e => e.mp = 8)).map MrEntry.mr = some 108) ∧
    (c4Re.1 = 201 ∧ c4Re.2.regLog = c4Ninth.2.regLog ++ [1]) := by
  decide

/-- C2 counterexample: with `m = 3` chained slots of which hardware
accepts exactly `k = 1`, the claim predicts `m - k = 2` buffers in the
Lost-Completion List; the code instead links the `k = 1` ACCEPTED
elements there (the unsent tail is only rolled back, its buffers staying
caller-owned), so the list holds exactly one buffer — the accepted
packet's (id 21), not the rejected ones. -/
theorem c2_lost_list_counterexample :
    lostChainBufs c2state = [21] ∧
    (lostChainBufs c2state).length = 1 ∧
    ¬ (lostChainBufs c2state).length = 3 - 1 := by
  decide

/-- C8 counterexample: a burst consisting only of an over-long packet is
freed (ids 10..14 in the freed log) but, because `dropped == max` takes
the early-return shortcut before `stats.odropped += dropped`, it is NOT
counted as dropped: `odropped` stays 0, refuting "it is freed and counted
as dropped" for this call. -/
theorem c8_alldropped_not_counted :
    c8state.freed = [10, 11, 12, 13, 14] ∧
    c8state.odropped = 0 ∧
    c8state.posted = [] := by
  decide

/- Characterization of `txq_complete` in terms of the element chains it
walks.  These are helper lemmas shared by several claim theorems. -/

/-- The Lost-Completion List as a list of slot indices. -/
def lostChain (s : TxState) : List Nat :=
  optChain s.comp s.elts_n s.lost_comp

/-- The concatenated batch chains of a list of completions, resolved
against a state's `comp` links. -/
def batchChains (s : TxState) (wcs : List Wc) : List Nat :=
  (wcs.map (fun wc => wc.wr_id :: optChain s.comp s.elts_n (s.comp wc.wr_id))).flatten

theorem freeEltStep_elts_n (s : TxState) (e : Nat) :
    (freeEltStep s e).elts_n = s.elts_n := by unfold freeEltStep; rfl

theorem freeEltStep_comp (s : TxState) (e : Nat) :
    (freeEltStep s e).comp = s.comp := by unfold freeEltStep; rfl

theorem freeEltStep_elts_comp (s : TxState) (e : Nat) :
    (freeEltStep s e).elts_comp = s.elts_comp := by unfold freeEltStep; rfl

theorem freeEltStep_lost (s : TxState) (e : Nat) :
    (freeEltStep s e).lost_comp = s.lost_comp := by unfold freeEltStep; rfl

theorem freeEltStep_odropped (s : TxState) (e : Nat) :
    (freeEltStep s e).odropped = s.odropped := by unfold freeEltStep; rfl

theorem freeEltStep_elts_free (s : TxState) (e : Nat) :
    (freeEltStep s e).elts_free = s.elts_free + 1 := by unfold freeEltStep; rfl

theorem freeEltStep_elts_used (s : TxState) (e : Nat) :
    (freeEltStep s e).elts_used = dec32 s.elts_used := by unfold freeEltStep; rfl

theorem freeEltStep_freed (s : TxState) (e : Nat) :
    (freeEltStep s e).freed = s.freed ++ bufIdsPrefix (s.bufs e) := by
  unfold freeEltStep; rfl

theorem freeEltStep_bufs (s : TxState) (e : Nat) :
    (freeEltStep s e).bufs = upd s.bufs e (clearPrefix (s.bufs e)) := by
  unfold freeEltStep; rfl

theorem freeEltStep_with_lost (s : TxState) (e : Nat) (v : Option Nat) :
    freeEltStep { s with lost_comp := v } e = { freeEltStep s e with lost_comp := v } := by
  unfold freeEltStep; rfl

theorem foldFree_with_lost (E : List Nat) (s : TxState) (v : Option Nat) :
    E.foldl freeEltStep { s with lost_comp := v } =
      { E.foldl freeEltStep s with lost_comp := v } := by
  induction E generalizing s with
  | nil => rfl
  | cons e E ih => simp only [List.foldl_cons, freeEltStep_with_lost, ih]

theorem foldFree_elts_n (E : List Nat) (s : TxState) :
    (E.foldl freeEltStep s).elts_n = s.elts_n := by
  induction E generalizing s with
  | nil => rfl
  | cons e E ih => simp only [List.foldl_cons, ih, freeEltStep_elts_n]

theorem foldFree_comp (E : List Nat) (s : TxState) :
    (E.foldl freeEltStep s).comp = s.comp := by
  induction E generalizing s with
  | nil => rfl
  | cons e E ih => simp only [List.foldl_cons, ih, freeEltStep_comp]

theorem foldFree_elts_comp (E : List Nat) (s : TxState) :
    (E.foldl freeEltStep s).elts_comp = s.elts_comp := by
  induction E generalizing s with
  | nil => rfl
  | cons e E ih => simp only [List.foldl_cons, ih, freeEltStep_elts_comp]

theorem foldFree_lost (E : List Nat) (s : TxState) :
    (E.foldl freeEltStep s).lost_comp = s.lost_comp := by
  induction E generalizing s with
  | nil => rfl
  | cons e E ih => simp only [List.foldl_cons, ih, freeEltStep_lost]

theorem foldFree_odropped (E : List Nat) (s : TxState) :
    (E.foldl freeEltStep s).odropped = s.odropped := by
  induction E generalizing s with
  | nil => rfl
  | cons e E ih => simp only [List.foldl_cons, ih, freeEltStep_odropped]

theorem foldFree_free (E : List Nat) (s : TxState) :
    (E.foldl freeEltStep s).elts_free = s.elts_free + E.length := by
  induction E generalizing s with
  | nil => rfl
  | cons e E ih =>
    simp only [List.foldl_cons, ih, freeEltStep_elts_free, List.length_cons]
    omega

theorem dec32_of_pos (x : Nat) (h0 : 0 < x) (h1 : x < two32) : dec32 x = x - 1 := by
  unfold dec32 two32 at *
  have hx : x + (4294967296 - 1) = (x - 1) + 4294967296 := by omega
  rw [hx, Nat.add_mod_right, Nat.mod_eq_of_lt (by omega)]

theorem foldFree_used (E : List Nat) (s : TxState)
    (hle : E.length ≤ s.elts_used) (hlt : s.elts_used < two32) :
    (E.foldl freeEltStep s).elts_used = s.elts_used - E.length := by
  induction E generalizing s with
  | nil => rfl
  | cons e E ih =>
    simp only [List.foldl_cons, List.length_cons] at *
    have h1 : (freeEltStep s e).elts_used = s.elts_used - 1 := by
      rw [freeEltStep_elts_used]
      exact dec32_of_pos _ (by omega) hlt
    rw [ih (freeEltStep s e) (by omega) (by omega), h1]
    omega

theorem foldFree_bufs_notmem (E : List Nat) (s : TxState) (e : Nat) (h : e ∉ E) :
    (E.foldl freeEltStep s).bufs e = s.bufs e := by
  induction E generalizing s with
  | nil => rfl
  | cons x E ih =>
    simp only [List.mem_cons, not_or] at h
    simp only [List.foldl_cons, ih _ h.2, freeEltStep_bufs]
    exact upd_other _ _ _ _ h.1

theorem foldFree_bufs_mem (E : List Nat) (s : TxState) (e : Nat)
    (hnd : E.Nodup) (h : e ∈ E) :
    (E.foldl freeEltStep s).bufs e = clearPrefix (s.bufs e) := by
  induction E generalizing s with
  | nil => simp at h
  | cons x E ih =>
    rcases List.nodup_cons.mp hnd with ⟨hx, hE⟩
    rcases List.mem_cons.mp h with h | h
    · subst h
      rw [List.foldl_cons, foldFree_bufs_notmem _ _ _ hx, freeEltStep_bufs]
      exact upd_same _ _ _
    · rw [List.foldl_cons, ih _ hE h, freeEltStep_bufs]
      rw [upd_other]
      intro he
      exact hx (he ▸ h)

theorem foldFree_freed (E : List Nat) (s : TxState) (hnd : E.Nodup) :
    (E.foldl freeEltStep s).freed =
      s.freed ++ (E.map (fun e => bufIdsPrefix (s.bufs e))).flatten := by
  induction E generalizing s with
  | nil => simp
  | cons e E ih =>
    rcases List.nodup_cons.mp hnd with ⟨he, hE⟩
    rw [List.foldl_cons, ih _ hE]
    have hb : ∀ x ∈ E, bufIdsPrefix ((freeEltStep s e).bufs x) = bufIdsPrefix (s.bufs x) := by
      intro x hx
      have hxe : x ≠ e := fun hc => he (hc ▸ hx)
      rw [freeEltStep_bufs, upd_other _ _ _ _ hxe]
    rw [List.map_congr_left hb]
    simp only [freeEltStep_freed, List.map_cons, List.flatten_cons, List.append_assoc]

theorem with_lost_self (s : TxState) (h : s.lost_comp = none) :
    ({ s with lost_comp := none } : TxState) = s := by
  cases s; simp_all

theorem with_lost_comp (s : TxState) (v : Option Nat) :
    ({ s with lost_comp := v } : TxState).comp = s.comp := rfl

theorem with_lost_lost (s : TxState) (v : Option Nat) :
    ({ s with lost_comp := v } : TxState).lost_comp = v := rfl

theorem with_lost_idem (s : TxState) (v w : Option Nat) :
    ({ ({ s with lost_comp := v } : TxState) with lost_comp := w } : TxState) =
      { s with lost_comp := w } := rfl

/-- The drain loop equals freeing the elements of the Lost-Completion
List in order and clearing the list head, provided the chain terminates
within the fuel. -/
theorem drainLost_spec (fuel : Nat) (s : TxState)
    (hend : chainEndsB s.comp fuel s.lost_comp = true) :
    drainLost fuel s =
      { (optChain s.comp fuel s.lost_comp).foldl freeEltStep s with lost_comp := none } := by
  induction fuel generalizing s with
  | zero =>
    cases h : s.lost_comp with
    | none =>
      simp only [optChain, List.foldl_nil]
      rw [show drainLost 0 s = s from rfl]
      exact (with_lost_self s h).symm
    | some e =>
      simp only [h, chainEndsB] at hend
      exact Bool.noConfusion hend
  | succ fuel ih =>
    cases h : s.lost_comp with
    | none =>
      have h1 : drainLost (fuel + 1) s = s := by simp only [drainLost, h]
      simp only [optChain, List.foldl_nil, h1]
      exact (with_lost_self s h).symm
    | some e =>
      have h1 : drainLost (fuel + 1) s =
          drainLost fuel { freeEltStep s e with lost_comp := s.comp e } := by
        simp only [drainLost, h]
      have hend2 : chainEndsB s.comp fuel (s.comp e) = true := by
        rw [h] at hend
        exact hend
      have htc : ({ freeEltStep s e with lost_comp := s.comp e } : TxState).comp = s.comp := by
        rw [with_lost_comp]
        exact freeEltStep_comp s e
      have hend3 : chainEndsB ({ freeEltStep s e with lost_comp := s.comp e } : TxState).comp fuel
          ({ freeEltStep s e with lost_comp := s.comp e } : TxState).lost_comp = true := by
        rw [htc, with_lost_lost]
        exact hend2
      rw [h1, ih _ hend3, htc, with_lost_lost]
      simp only [optChain, List.foldl_cons]
      rw [foldFree_with_lost, with_lost_idem]

/-- The per-completion batch walk equals freeing the elements of the
completion's `comp` chain in order, provided the chain terminates. -/
theorem freeBatch_spec (fuel : Nat) (s : TxState) (e : Nat)
    (hend : chainEndsB s.comp fuel (s.comp e) = true) :
    freeBatch fuel s e = (e :: optChain s.comp fuel (s.comp e)).foldl freeEltStep s := by
  induction fuel generalizing s e with
  | zero =>
    cases h : s.comp e with
    | none =>
      simp only [optChain, List.foldl_cons, List.foldl_nil]
      rfl
    | some e2 =>
      simp only [h, chainEndsB] at hend
      exact Bool.noConfusion hend
  | succ fuel ih =>
    cases h : s.comp e with
    | none =>
      have h1 : freeBatch (fuel + 1) s e = freeEltStep s e := by
        simp only [freeBatch, h]
      rw [h1]
      simp only [optChain, List.foldl_cons, List.foldl_nil]
    | some e2 =>
      have h1 : freeBatch (fuel + 1) s e = freeBatch fuel (freeEltStep s e) e2 := by
        simp only [freeBatch, h]
      have hend2 : chainEndsB (freeEltStep s e).comp fuel ((freeEltStep s e).comp e2) = true := by
        rw [freeEltStep_comp]
        rw [h] at hend
        exact hend
      rw [h1, ih (freeEltStep s e) e2 hend2, freeEltStep_comp]
      simp only [optChain, List.foldl_cons]

/- Projection lemmas through the small state adjustments of `wcStep`. -/

theorem ifb_comp (b : Bool) (s : TxState) :
    (if b then s else odropBump s).comp = s.comp := by cases b <;> rfl

theorem ifb_elts_n (b : Bool) (s : TxState) :
    (if b then s else odropBump s).elts_n = s.elts_n := by cases b <;> rfl

theorem ifb_elts_used (b : Bool) (s : TxState) :
    (if b then s else odropBump s).elts_used = s.elts_used := by cases b <;> rfl

theorem ifb_elts_free (b : Bool) (s : TxState) :
    (if b then s else odropBump s).elts_free = s.elts_free := by cases b <;> rfl

theorem ifb_elts_comp (b : Bool) (s : TxState) :
    (if b then s else odropBump s).elts_comp = s.elts_comp := by cases b <;> rfl

theorem ifb_bufs (b : Bool) (s : TxState) :
    (if b then s else odropBump s).bufs = s.bufs := by cases b <;> rfl

theorem ifb_freed (b : Bool) (s : TxState) :
    (if b then s else odropBump s).freed = s.freed := by cases b <;> rfl

theorem ifb_lost (b : Bool) (s : TxState) :
    (if b then s else odropBump s).lost_comp = s.lost_comp := by cases b <;> rfl

theorem with_ec_comp (s : TxState) (v : Nat) :
    ({ s with elts_comp := v } : TxState).comp = s.comp := rfl

theorem with_ec_elts_n (s : TxState) (v : Nat) :
    ({ s with elts_comp := v } : TxState).elts_n = s.elts_n := rfl

theorem with_ec_elts_used (s : TxState) (v : Nat) :
    ({ s with elts_comp := v } : TxState).elts_used = s.elts_used := rfl

theorem with_ec_elts_free (s : TxState) (v : Nat) :
    ({ s with elts_comp := v } : TxState).elts_free = s.elts_free := rfl

theorem with_ec_elts_comp (s : TxState) (v : Nat) :
    ({ s with elts_comp := v } : TxState).elts_comp = v := rfl

theorem with_ec_bufs (s : TxState) (v : Nat) :
    ({ s with elts_comp := v } : TxState).bufs = s.bufs := rfl

theorem with_ec_freed (s : TxState) (v : Nat) :
    ({ s with elts_comp := v } : TxState).freed = s.freed := rfl

theorem with_ec_lost (s : TxState) (v : Nat) :
    ({ s with elts_comp := v } : TxState).lost_comp = s.lost_comp := rfl

theorem batchChains_nil (s : TxState) : batchChains s [] = [] := rfl

theorem batchChains_cons (s : TxState) (wc : Wc) (wcs : List Wc) :
    batchChains s (wc :: wcs) =
      (wc.wr_id :: optChain s.comp s.elts_n (s.comp wc.wr_id)) ++ batchChains s wcs := by
  simp [batchChains]

theorem batchChains_congr (s t : TxState) (wcs : List Wc)
    (hc : t.comp = s.comp) (hn : t.elts_n = s.elts_n) :
    batchChains t wcs = batchChains s wcs := by
  simp [batchChains, hc, hn]

/-- Characterization of `txq_complete`'s completion-processing loop: with
terminating, pairwise-distinct batch chains that fit into `elts_used`,
folding `wcStep` over the completions frees exactly the chains' buffers
(clearing their slots), moves `elts_used`/`elts_free` by the total number
of chain elements, and decrements `elts_comp` once per completion. -/
theorem wcsFold_spec (wcs : List Wc) (r0 : Int) (s1 : TxState)
    (hend : ∀ wc ∈ wcs, chainEndsB s1.comp s1.elts_n (s1.comp wc.wr_id) = true)
    (hnd : (batchChains s1 wcs).Nodup)
    (hle : (batchChains s1 wcs).length ≤ s1.elts_used)
    (hlt : s1.elts_used < two32) :
    (wcs.foldl wcStep (r0, s1)).2.comp = s1.comp ∧
    (wcs.foldl wcStep (r0, s1)).2.elts_n = s1.elts_n ∧
    (wcs.foldl wcStep (r0, s1)).2.lost_comp = s1.lost_comp ∧
    (wcs.foldl wcStep (r0, s1)).2.elts_comp = s1.elts_comp - wcs.length ∧
    (wcs.foldl wcStep (r0, s1)).2.elts_used = s1.elts_used - (batchChains s1 wcs).length ∧
    (wcs.foldl wcStep (r0, s1)).2.elts_free = s1.elts_free + (batchChains s1 wcs).length ∧
    (wcs.foldl wcStep (r0, s1)).2.freed =
      s1.freed ++ ((batchChains s1 wcs).map (fun e => bufIdsPrefix (s1.bufs e))).flatten ∧
    (∀ e ∈ batchChains s1 wcs, (wcs.foldl wcStep (r0, s1)).2.bufs e = clearPrefix (s1.bufs e)) ∧
    (∀ e, e ∉ batchChains s1 wcs → (wcs.foldl wcStep (r0, s1)).2.bufs e = s1.bufs e) := by
  induction wcs generalizing r0 s1 with
  | nil =>
    simp [batchChains_nil]
  | cons wc rest ih =>
    have hc1 : chainEndsB s1.comp s1.elts_n (s1.comp wc.wr_id) = true :=
      hend wc (List.mem_cons_self _ _)
    have hchains := batchChains_cons s1 wc rest
    rw [hchains] at hnd hle
    rcases List.nodup_append.mp hnd with ⟨hndc1, hndB, hdisj⟩
    -- the head step
    have hp2 : (wcStep (r0, s1) wc).2 =
        { (wc.wr_id :: optChain s1.comp s1.elts_n (s1.comp wc.wr_id)).foldl freeEltStep
            (if wc.success then s1 else odropBump s1) with
          elts_comp :=
            ((wc.wr_id :: optChain s1.comp s1.elts_n (s1.comp wc.wr_id)).foldl freeEltStep
              (if wc.success then s1 else odropBump s1)).elts_comp - 1 } := by
      have hfb : freeBatch (if wc.success then s1 else odropBump s1).elts_n
          (if wc.success then s1 else odropBump s1) wc.wr_id =
          (wc.wr_id :: optChain s1.comp s1.elts_n (s1.comp wc.wr_id)).foldl freeEltStep
            (if wc.success then s1 else odropBump s1) := by
        rw [freeBatch_spec _ _ _ (by rw [ifb_comp, ifb_elts_n]; exact hc1)]
        rw [ifb_comp, ifb_elts_n]
      simp only [wcStep, hfb]
    set c1 := wc.wr_id :: optChain s1.comp s1.elts_n (s1.comp wc.wr_id) with hc1def
    have hlen1 : c1.length ≤ s1.elts_used := by
      rw [List.length_append] at hle; omega
    -- field facts about the state after the head step
    have hNcomp : (wcStep (r0, s1) wc).2.comp = s1.comp := by
      rw [hp2, with_ec_comp, foldFree_comp, ifb_comp]
    have hNn : (wcStep (r0, s1) wc).2.elts_n = s1.elts_n := by
      rw [hp2, with_ec_elts_n, foldFree_elts_n, ifb_elts_n]
    have hNlost : (wcStep (r0, s1) wc).2.lost_comp = s1.lost_comp := by
      rw [hp2, with_ec_lost, foldFree_lost, ifb_lost]
    have hNec : (wcStep (r0, s1) wc).2.elts_comp = s1.elts_comp - 1 := by
      rw [hp2, with_ec_elts_comp, foldFree_elts_comp, ifb_elts_comp]
    have hNused : (wcStep (r0, s1) wc).2.elts_used = s1.elts_used - c1.length := by
      rw [hp2, with_ec_elts_used,
        foldFree_used _ _ (by rw [ifb_elts_used]; exact hlen1) (by rw [ifb_elts_used]; exact hlt),
        ifb_elts_used]
    have hNfree : (wcStep (r0, s1) wc).2.elts_free = s1.elts_free + c1.length := by
      rw [hp2, with_ec_elts_free, foldFree_free, ifb_elts_free]
    have hNfreed : (wcStep (r0, s1) wc).2.freed =
        s1.freed ++ (c1.map (fun e => bufIdsPrefix (s1.bufs e))).flatten := by
      rw [hp2, with_ec_freed, foldFree_freed _ _ hndc1, ifb_freed, ifb_bufs]
    have hNbufs_mem : ∀ e ∈ c1, (wcStep (r0, s1) wc).2.bufs e = clearPrefix (s1.bufs e) := by
      intro e he
      rw [hp2, with_ec_bufs, foldFree_bufs_mem _ _ _ hndc1 he, ifb_bufs]
    have hNbufs_notmem : ∀ e, e ∉ c1 → (wcStep (r0, s1) wc).2.bufs e = s1.bufs e := by
      intro e he
      rw [hp2, with_ec_bufs, foldFree_bufs_notmem _ _ _ he, ifb_bufs]
    -- apply the induction hypothesis to the tail
    have hBeq : batchChains (wcStep (r0, s1) wc).2 rest = batchChains s1 rest :=
      batchChains_congr _ _ _ hNcomp hNn
    have hend' : ∀ wc' ∈ rest, chainEndsB (wcStep (r0, s1) wc).2.comp
        (wcStep (r0, s1) wc).2.elts_n ((wcStep (r0, s1) wc).2.comp wc'.wr_id) = true := by
      intro wc' hw
      rw [hNcomp, hNn]
      exact hend wc' (List.mem_cons_of_mem _ hw)
    have hnd' : (batchChains (wcStep (r0, s1) wc).2 rest).Nodup := by rw [hBeq]; exact hndB
    have hle' : (batchChains (wcStep (r0, s1) wc).2 rest).length ≤
        (wcStep (r0, s1) wc).2.elts_used := by
      rw [hBeq, hNused]
      rw [List.length_append] at hle
      omega
    have hlt' : (wcStep (r0, s1) wc).2.elts_used < two32 := by
      rw [hNused]; omega
    have hfold : (wc :: rest).foldl wcStep (r0, s1) =
        rest.foldl wcStep ((wcStep (r0, s1) wc).1, (wcStep (r0, s1) wc).2) := by
      rw [List.foldl_cons]
    obtain ⟨ic, inn, ilost, iec, iused, ifree, ifreed, ibm, ibn⟩ :=
      ih (wcStep (r0, s1) wc).1 (wcStep (r0, s1) wc).2 hend' hnd' hle' hlt'
    rw [hfold, hchains]
    refine ⟨?_, ?_, ?_, ?_, ?_, ?_, ?_, ?_, ?_⟩
    · rw [ic, hNcomp]
    · rw [inn, hNn]
    · rw [ilost, hNlost]
    · rw [iec, hNec, List.length_cons]
      omega
    · rw [iused, hBeq, hNused, List.length_append]
      rw [List.length_append] at hle
      omega
    · rw [ifree, hBeq, hNfree, List.length_append]
      omega
    · rw [ifreed, hBeq, hNfreed]
      have hcongr : (batchChains s1 rest).map
            (fun e => bufIdsPrefix ((wcStep (r0, s1) wc).2.bufs e)) =
          (batchChains s1 rest).map (fun e => bufIdsPrefix (s1.bufs e)) := by
        apply List.map_congr_left
        intro e he
        rw [hNbufs_notmem e (fun hc => hdisj hc he)]
      rw [hcongr, List.map_append, List.flatten_append, List.append_assoc]
    · intro e he
      rcases List.mem_append.mp he with he1 | he2
      · rw [ibn e (by rw [hBeq]; exact fun hc => hdisj he1 hc), hNbufs_mem e he1]
      · rw [hBeq] at ibm
        rw [ibm e he2, hNbufs_notmem e (fun hc => hdisj hc he2)]
    · intro e he
      rw [List.mem_append] at he
      push_neg at he
      rw [ibn e (by rw [hBeq]; exact he.2), hNbufs_notmem e he.1]

theorem with_lost_elts_n (s : TxState) (v : Option Nat) :
    ({ s with lost_comp := v } : TxState).elts_n = s.elts_n := rfl

theorem with_lost_elts_used (s : TxState) (v : Option Nat) :
    ({ s with lost_comp := v } : TxState).elts_used = s.elts_used := rfl

theorem with_lost_elts_free (s : TxState) (v : Option Nat) :
    ({ s with lost_comp := v } : TxState).elts_free = s.elts_free := rfl

theorem with_lost_elts_comp (s : TxState) (v : Option Nat) :
    ({ s with lost_comp := v } : TxState).elts_comp = s.elts_comp := rfl

theorem with_lost_bufs (s : TxState) (v : Option Nat) :
    ({ s with lost_comp := v } : TxState).bufs = s.bufs := rfl

theorem with_lost_freed (s : TxState) (v : Option Nat) :
    ({ s with lost_comp := v } : TxState).freed = s.freed := rfl

/-- Full characterization of a `txq_complete` call that actually receives
completions: the Lost-Completion List is drained first and entirely, then
each completion's batch chain is freed; `elts_used`/`elts_free` move by
the total number of processed elements, `elts_comp` drops by the number of
completion events, every processed slot's `bufs[]` prefix is NULLed, and
the freed log gains exactly the processed buffers (lost ones first). -/
theorem txq_complete_run (s : TxState) (poll : Nat → PollRes) (wcs : List Wc)
    (hcomp : s.elts_comp ≠ 0)
    (hpoll : poll s.elts_comp = PollRes.ok wcs)
    (hne : wcs ≠ [])
    (hlost : chainEndsB s.comp s.elts_n s.lost_comp = true)
    (hend : ∀ wc ∈ wcs, chainEndsB s.comp s.elts_n (s.comp wc.wr_id) = true)
    (hnd : (lostChain s ++ batchChains s wcs).Nodup)
    (hle : (lostChain s ++ batchChains s wcs).length ≤ s.elts_used)
    (hlt : s.elts_used < two32) :
    (txq_complete s poll).2.lost_comp = none ∧
    (txq_complete s poll).2.elts_comp = s.elts_comp - wcs.length ∧
    (txq_complete s poll).2.elts_used =
      s.elts_used - (lostChain s ++ batchChains s wcs).length ∧
    (txq_complete s poll).2.elts_free =
      s.elts_free + (lostChain s ++ batchChains s wcs).length ∧
    (txq_complete s poll).2.freed = s.freed ++
      ((lostChain s ++ batchChains s wcs).map (fun e => bufIdsPrefix (s.bufs e))).flatten ∧
    (∀ e ∈ lostChain s ++ batchChains s wcs,
      (txq_complete s poll).2.bufs e = clearPrefix (s.bufs e)) ∧
    (∀ e, e ∉ lostChain s ++ batchChains s wcs →
      (txq_complete s poll).2.bufs e = s.bufs e) ∧
    (txq_complete s poll).2.comp = s.comp ∧
    (txq_complete s poll).2.elts_n = s.elts_n := by
  rcases List.nodup_append.mp hnd with ⟨hndL, hndB, hdisj⟩
  rw [List.length_append] at hle
  have hrun : txq_complete s poll = wcs.foldl wcStep ((0 : Int), drainLost s.elts_n s) := by
    unfold txq_complete
    rw [if_neg hcomp, hpoll]
    show (if wcs = [] then ((0 : Int), s)
      else wcs.foldl wcStep ((0 : Int), drainLost s.elts_n s)) =
        wcs.foldl wcStep ((0 : Int), drainLost s.elts_n s)
    rw [if_neg hne]
  have hdrain : drainLost s.elts_n s =
      { (lostChain s).foldl freeEltStep s with lost_comp := none } :=
    drainLost_spec s.elts_n s hlost
  -- facts about the drained state
  have hDcomp : (drainLost s.elts_n s).comp = s.comp := by
    rw [hdrain, with_lost_comp, foldFree_comp]
  have hDn : (drainLost s.elts_n s).elts_n = s.elts_n := by
    rw [hdrain, with_lost_elts_n, foldFree_elts_n]
  have hDlost : (drainLost s.elts_n s).lost_comp = none := by
    rw [hdrain, with_lost_lost]
  have hDec : (drainLost s.elts_n s).elts_comp = s.elts_comp := by
    rw [hdrain, with_lost_elts_comp, foldFree_elts_comp]
  have hDused : (drainLost s.elts_n s).elts_used = s.elts_used - (lostChain s).length := by
    rw [hdrain, with_lost_elts_used, foldFree_used _ _ (by omega) hlt]
  have hDfree : (drainLost s.elts_n s).elts_free = s.elts_free + (lostChain s).length := by
    rw [hdrain, with_lost_elts_free, foldFree_free]
  have hDfreed : (drainLost s.elts_n s).freed =
      s.freed ++ ((lostChain s).map (fun e => bufIdsPrefix (s.bufs e))).flatten := by
    rw [hdrain, with_lost_freed, foldFree_freed _ _ hndL]
  have hDbufs_mem : ∀ e ∈ lostChain s, (drainLost s.elts_n s).bufs e = clearPrefix (s.bufs e) := by
    intro e he
    rw [hdrain, with_lost_bufs, foldFree_bufs_mem _ _ _ hndL he]
  have hDbufs_notmem : ∀ e, e ∉ lostChain s → (drainLost s.elts_n s).bufs e = s.bufs e := by
    intro e he
    rw [hdrain, with_lost_bufs, foldFree_bufs_notmem _ _ _ he]
  -- the completion-processing fold on the drained state
  have hBeq : batchChains (drainLost s.elts_n s) wcs = batchChains s wcs :=
    batchChains_congr _ _ _ hDcomp hDn
  obtain ⟨ic, inn, ilost, iec, iused, ifree, ifreed, ibm, ibn⟩ :=
    wcsFold_spec wcs 0 (drainLost s.elts_n s)
      (by intro wc hw; rw [hDcomp, hDn]; exact hend wc hw)
      (by rw [hBeq]; exact hndB)
      (by rw [hBeq, hDused]; omega)
      (by rw [hDused]; omega)
  rw [hrun, List.length_append]
  refine ⟨?_, ?_, ?_, ?_, ?_, ?_, ?_, ?_, ?_⟩
  · rw [ilost, hDlost]
  · rw [iec, hDec]
  · rw [iused, hBeq, hDused]
    omega
  · rw [ifree, hBeq, hDfree]
    omega
  · rw [ifreed, hBeq, hDfreed]
    have hcongr : (batchChains s wcs).map
          (fun e => bufIdsPrefix ((drainLost s.elts_n s).bufs e)) =
        (batchChains s wcs).map (fun e => bufIdsPrefix (s.bufs e)) := by
      apply List.map_congr_left
      intro e he
      rw [hDbufs_notmem e (fun hc => hdisj hc he)]
    rw [hcongr, List.map_append, List.flatten_append, List.append_assoc]
  · intro e he
    rcases List.mem_append.mp he with he1 | he2
    · rw [ibn e (by rw [hBeq]; exact fun hc => hdisj he1 hc), hDbufs_mem e he1]
    · rw [hBeq] at ibm
      rw [ibm e he2, hDbufs_notmem e (fun hc => hdisj hc he2)]
  · intro e he
    rw [List.mem_append] at he
    push_neg at he
    rw [ibn e (by rw [hBeq]; exact he.2), hDbufs_notmem e he.1]
  · rw [ic, hDcomp]
  · rw [inn, hDn]

/-- Concrete TX state for the C3 witness: a 2-slot ring with both slots
holding one buffer each (ids 31 and 32), slot 0 sitting in the
Lost-Completion List and slot 1 being an outstanding single-element
signaled batch (`elts_comp = 1`). -/
def c3wit : TxState where
  elts_n := 2
  elts_cur := 0
  elts_used := 2
  elts_free := 0
  elts_comp := 1
  bufs := fun i => if i = 0 then [some ⟨31, 7, 10, 10⟩, none, none, none]
                   else [some ⟨32, 7, 10, 10⟩, none, none, none]
  comp := fun _ => none
  next := fun _ => none
  sg := fun _ => 1
  sig := fun _ => true
  lost_comp := some 0
  mp2mr := []
  freed := []
  regLog := []
  deregLog := []
  posted := []
  opackets := 2
  obytes := 20
  odropped := 0

/-- Poll oracle for the C3 witness: one successful completion for WR 1. -/
def c3poll : Nat → PollRes := fun _ => PollRes.ok [⟨1, true⟩]

/-- C3: completion reclaim semantics of `txq_complete`.  (i) `elts_comp
== 0` is a no-op returning 0.  (ii) A poll error returns -1 without
touching the state, (iii) an empty poll returns 0 without touching the
state (the model itself shows the poll request size is `elts_comp`, so at
most `elts_comp` completions are polled).  (iv) When completions arrive
(under the hardware contract: at most `elts_comp` completions, chains
terminating, pairwise-distinct chain slots that fit in `elts_used`), the
Lost-Completion List is drained unconditionally and entirely
(`lost_comp` ends NULL, one `elts_used`/`elts_free` adjustment per lost
element) with its buffers freed BEFORE the regular completions' (they
come first in the freed log), every buffer in every slot of each
completion's batch chain is freed, and `elts_comp` drops by exactly the
number of completion events — `wcs.length` — not by the number of freed
slots. -/
theorem c3_completion_reclaim :
    (∀ (s : TxState) (poll : Nat → PollRes), s.elts_comp = 0 →
      txq_complete s poll = (0, s)) ∧
    (∀ (s : TxState) (poll : Nat → PollRes), s.elts_comp ≠ 0 →
      poll s.elts_comp = PollRes.err → txq_complete s poll = (-1, s)) ∧
    (∀ (s : TxState) (poll : Nat → PollRes), s.elts_comp ≠ 0 →
      poll s.elts_comp = PollRes.ok [] → txq_complete s poll = (0, s)) ∧
    (∀ (s : TxState) (poll : Nat → PollRes) (wcs : List Wc),
      s.elts_comp ≠ 0 →
      poll s.elts_comp = PollRes.ok wcs →
      wcs ≠ [] →
      wcs.length ≤ s.elts_comp →
      chainEndsB s.comp s.elts_n s.lost_comp = true →
      (∀ wc ∈ wcs, chainEndsB s.comp s.elts_n (s.comp wc.wr_id) = true) →
      (lostChain s ++ batchChains s wcs).Nodup →
      (lostChain s ++ batchChains s wcs).length ≤ s.elts_used →
      s.elts_used < two32 →
      (txq_complete s poll).2.lost_comp = none ∧
      (txq_complete s poll).2.elts_comp = s.elts_comp - wcs.length ∧
      (txq_complete s poll).2.elts_used =
        s.elts_used - (lostChain s ++ batchChains s wcs).length ∧
      (txq_complete s poll).2.elts_free =
        s.elts_free + (lostChain s ++ batchChains s wcs).length ∧
      (txq_complete s poll).2.freed = s.freed ++
        ((lostChain s).map (fun e => bufIdsPrefix (s.bufs e))).flatten ++
        ((batchChains s wcs).map (fun e => bufIdsPrefix (s.bufs e))).flatten ∧
      (∀ e ∈ lostChain s ++ batchChains s wcs,
        (txq_complete s poll).2.bufs e = clearPrefix (s.bufs e))) := by
  refine ⟨?_, ?_, ?_, ?_⟩
  · intro s poll h
    unfold txq_complete
    rw [if_pos h]
  · intro s poll h hpoll
    unfold txq_complete
    rw [if_neg h, hpoll]
  · intro s poll h hpoll
    unfold txq_complete
    rw [if_neg h, hpoll]
    show (if ([] : List Wc) = [] then ((0 : Int), s)
      else ([] : List Wc).foldl wcStep ((0 : Int), drainLost s.elts_n s)) = (0, s)
    rw [if_pos rfl]
  · intro s poll wcs hcomp hpoll hne _hreq hlost hend hnd hle hlt
    obtain ⟨h1, h2, h3, h4, h5, h6, _h7, _h8, _h9⟩ :=
      txq_complete_run s poll wcs hcomp hpoll hne hlost hend hnd hle hlt
    refine ⟨h1, h2, h3, h4, ?_, h6⟩
    rw [h5, List.map_append, List.flatten_append, List.append_assoc]

/-- C3 witness: instantiating clause (iv) on `c3wit` / `c3poll` frees the
lost buffer 31 first, then batch buffer 32, clears the list and leaves
`elts_comp = 0`. -/
theorem c3_completion_reclaim_witness :
    (txq_complete c3wit c3poll).2.lost_comp = none ∧
    (txq_complete c3wit c3poll).2.elts_comp = 0 ∧
    (txq_complete c3wit c3poll).2.elts_used = 0 ∧
    (txq_complete c3wit c3poll).2.elts_free = 2 ∧
    (txq_complete c3wit c3poll).2.freed = [31, 32] := by
  obtain ⟨h1, h2, h3, h4, h5, _h6⟩ :=
    c3_completion_reclaim.2.2.2 c3wit c3poll [⟨1, true⟩]
      (by decide) rfl (by decide) (by decide) (by decide)
      (by decide) (by decide) (by decide) (by decide)
  refine ⟨h1, ?_, ?_, ?_, ?_⟩
  · rw [h2]; decide
  · rw [h3]; decide
  · rw [h4]; decide
  · rw [h5]; decide

/- ====================  RX ring engine  ==================== -/

/-- `RTE_PKTMBUF_HEADROOM`. -/
def PKTMBUF_HEADROOM : Nat := 128

/-- `ENOMEM`. -/
def ENOMEM : Nat := 12

/-- An RX mbuf: buffer id, total buffer length and current data offset
(headroom).  Its tailroom is `buf_len - data_off`, which is what the
corresponding SGE exposes to hardware. -/
structure RxSeg where
  id : Nat
  buf_len : Nat
  data_off : Nat
deriving DecidableEq, Repr

/-- Tailroom of an RX mbuf (`seg->buf_len - seg->data_off`), the byte
capacity its SGE exposes. -/
def tailroom (b : RxSeg) : Nat := b.buf_len - b.data_off

/-- One `struct rxq_elt_sp`: the element's bound buffers (up to
`MLX4_PMD_SGE_WR_N = 4`). -/
structure RxEltSp where
  bufs : List RxSeg
deriving DecidableEq, Repr

/-- The first SGE keeps its headroom, subsequent SGEs donate theirs
(`buf->data_off = 0`), as in the per-segment setup loop of
`rxq_alloc_elts_sp`. -/
def adjustHeadroom (l : List RxSeg) : List RxSeg :=
  match l with
  | [] => []
  | b :: rest => b :: rest.map (fun r => { r with data_off := 0 })

/-- The segment-allocation loop of `rxq_alloc_elts_sp` for one element
(`for (j = 0; j != elemof(elt->bufs); ++j)`): take `k` buffers from the
allocator supply (each `Option` is one `rte_pktmbuf_alloc` outcome),
stopping at the first failure.  Returns the buffers stored so far, the
remaining supply, and whether all `k` allocations succeeded. -/
def buildSegs : Nat → List (Option RxSeg) → List RxSeg × List (Option RxSeg) × Bool
  | 0, sup => ([], sup, true)
  | _ + 1, [] => ([], [], false)
  | _ + 1, none :: sup => ([], sup, false)
  | k + 1, some b :: sup =>
    let r := buildSegs k sup
    (b :: r.1, r.2.1, r.2.2)

/-- The outer element loop of `rxq_alloc_elts_sp`: build each element's 4
segments; on a mid-loop failure the partially filled element (with its
already-stored buffers) remains in the array and construction stops. -/
def buildElts : Nat → List (Option RxSeg) → List RxEltSp × List (Option RxSeg) × Bool
  | 0, sup => ([], sup, true)
  | i + 1, sup =>
    let r := buildSegs 4 sup
    if r.2.2 then
      let rest := buildElts i r.2.1
      (⟨adjustHeadroom r.1⟩ :: rest.1, rest.2.1, rest.2.2)
    else
      ([⟨adjustHeadroom r.1⟩], r.2.1, false)

/-- `rxq_alloc_elts_sp`: on success returns the configured element array
(no buffer freed); on any allocation failure the error path walks the
whole element array freeing every non-NULL stored buffer and releases the
array, returning ENOMEM — the second component is the freed-id log. -/
def rxq_alloc_elts_sp (elts_n : Nat) (supply : List (Option RxSeg)) :
    Except Nat (List RxEltSp) × List Nat :=
  let r := buildElts elts_n supply
  if r.2.2 then (Except.ok r.1, [])
  else (Except.error ENOMEM, (r.1.map (fun e => e.bufs.map RxSeg.id)).flatten)

/-- The element loop of `rxq_alloc_elts` (the non-scattered variant): one
buffer per element, stored in `wr_id` right after a successful
allocation. -/
def buildEltsNoSp : Nat → List (Option RxSeg) → List RxSeg × List (Option RxSeg) × Bool
  | 0, sup => ([], sup, true)
  | _ + 1, [] => ([], [], false)
  | _ + 1, none :: sup => ([], sup, false)
  | i + 1, some b :: sup =>
    let rest := buildEltsNoSp i sup
    (b :: rest.1, rest.2.1, rest.2.2)

/-- `rxq_alloc_elts`: as `rxq_alloc_elts_sp` but single-segment; the
error path frees every element whose `wr_id` is non-NULL. -/
def rxq_alloc_elts (elts_n : Nat) (supply : List (Option RxSeg)) :
    Except Nat (List RxSeg) × List Nat :=
  let r := buildEltsNoSp elts_n supply
  if r.2.2 then (Except.ok r.1, [])
  else (Except.error ENOMEM, r.1.map RxSeg.id)

/-- The ids the allocator handed out in the first `k` attempts (stopping
at the first failed allocation) — the oracle-side view of "every buffer
already allocated for the batch". -/
def allocatedIds : Nat → List (Option RxSeg) → List Nat
  | 0, _ => []
  | _ + 1, [] => []
  | _ + 1, none :: _ => []
  | k + 1, some b :: sup => b.id :: allocatedIds k sup

/-- One RX completion (`struct ibv_wc` as used by the RX bursts). -/
structure RxWc where
  wr_id : Nat
  byte_len : Nat
  success : Bool
deriving DecidableEq, Repr

/-- Outcome of the RX `ibv_poll_cq`. -/
inductive RxPollRes where
  | err : RxPollRes
  | ok : List RxWc → RxPollRes
deriving DecidableEq, Repr

/-- A packet returned to the application: its segment list as
`(buffer id, data_len)` pairs plus the head mbuf's `pkt_len` and
`nb_segs` fields. -/
structure RxPkt where
  segs : List (Nat × Nat)
  pkt_len : Nat
  nb_segs : Nat
deriving DecidableEq, Repr

/-- Result of an RX burst: a `uint16_t` return value with the packets
written to the caller's array, or a process abort (the `abort()` on a
repost failure). -/
inductive RxOut where
  | ret : Nat → List RxPkt → RxOut
  | abort : RxOut
deriving DecidableEq, Repr

/-- The RX queue state (`struct rxq` plus ghost logs). -/
structure RxState where
  elts_n : Nat
  sp : Bool
  elts_sp_null : Bool
  elts_sp : Nat → List RxSeg
  elts_no_sp : Nat → Nat
  freed : List Nat
  ipackets : Nat
  ibytes : Nat
  idropped : Nat
  rx_nombuf : Nat

/-- Result of the scattered reassembly loop (`while (1)`) of
`mlx4_rx_burst_sp` for one completion. -/
inductive SpliceRes where
  | ok : List (Nat × Nat) → List RxSeg → List (Option RxSeg) → SpliceRes
  | nomem : List Nat → List RxSeg → List (Option RxSeg) → SpliceRes
  | oob : SpliceRes
deriving DecidableEq, Repr

/-- The reassembly loop of `mlx4_rx_burst_sp`: for each segment allocate
a replacement (`__rte_mbuf_raw_alloc`), install it in the ring slot with
the spent segment's headroom, splice the original segment into the packet
with `data_len = min(len, tailroom)` carrying the remainder over, and
stop at the segment that holds the last bytes.  An allocation failure
frees the partially assembled packet (`.nomem` carries the freed original
ids and the replacements already installed); running past the segment
array is the C out-of-bounds case (`.oob`), excluded by the hardware
contract `byte_len ≤` ring capacity. -/
def rxSpliceLoop : List RxSeg → Nat → List (Option RxSeg) → SpliceRes
  | [], _, _ => .oob
  | _ :: _, _, [] => .nomem [] [] []
  | _ :: _, _, none :: reps => .nomem [] [] reps
  | seg :: rest, len, some rep :: reps =>
    let rep2 : RxSeg := { rep with data_off := seg.data_off }
    if len ≤ tailroom seg then .ok [(seg.id, len)] [rep2] reps
    else
      match rxSpliceLoop rest (len - tailroom seg) reps with
      | .ok pkt ring reps2 => .ok ((seg.id, tailroom seg) :: pkt) (rep2 :: ring) reps2
      | .nomem fr ring reps2 => .nomem (seg.id :: fr) (rep2 :: ring) reps2
      | .oob => .oob

/-- Per-completion processing of `mlx4_rx_burst_sp`: repost-link the WR,
drop (count only) on a bad completion status, otherwise run the
reassembly loop; on success install the replacements, set the head's
`pkt_len = wc->byte_len` and `nb_segs`, emit the packet and count
`ibytes`; on allocation failure free the partial packet and count
`rx_nombuf`. -/
def rxSpWcStep (p : RxState × List RxPkt × List (Option RxSeg)) (wc : RxWc) :
    RxState × List RxPkt × List (Option RxSeg) :=
  let s := p.1
  if wc.success = false then
    ({ s with idropped := s.idropped + 1 }, p.2.1, p.2.2)
  else
    let elt := s.elts_sp wc.wr_id
    match rxSpliceLoop elt wc.byte_len p.2.2 with
    | .ok pkt ring reps2 =>
      ({ s with
          elts_sp := upd s.elts_sp wc.wr_id (ring ++ elt.drop ring.length)
          ibytes := s.ibytes + wc.byte_len },
       p.2.1 ++ [⟨pkt, wc.byte_len, pkt.length⟩], reps2)
    | .nomem fr ring reps2 =>
      ({ s with
          elts_sp := upd s.elts_sp wc.wr_id (ring ++ elt.drop ring.length)
          freed := s.freed ++ fr
          rx_nombuf := s.rx_nombuf + 1 },
       p.2.1, reps2)
    | .oob => (s, p.2.1, p.2.2)

/-- `mlx4_rx_burst_sp` after its dispatch checks: NULL element array
(MTU-rebuild window) returns 0; a poll error returns `(uint16_t)-1`,
i.e. 65535; an empty poll returns 0; otherwise every completion is
processed and the whole WR chain is reposted — a repost failure calls
`abort()`. -/
def mlx4_rx_burst_sp_core (s : RxState) (pkts_n : Nat) (poll : Nat → RxPollRes)
    (reps : List (Option RxSeg)) (postRecv : Bool) : RxOut × RxState :=
  if s.elts_sp_null then (.ret 0 [], s)
  else
    match poll pkts_n with
    | .err => (.ret (((-1 : Int).emod 65536).toNat) [], s)
    | .ok [] => (.ret 0 [], s)
    | .ok wcs =>
      let r := wcs.foldl rxSpWcStep (s, [], reps)
      if postRecv = false then (.abort, r.1)
      else (.ret r.2.1.length r.2.1,
            { r.1 with ipackets := r.1.ipackets + r.2.1.length })

/-- Per-completion processing of `mlx4_rx_burst` (non-scattered): the
element is indexed by the completion's position `i`, the spent buffer by
`wc->wr_id`; a replacement failure counts `rx_nombuf` and reposts without
returning a packet; otherwise the replacement is installed
(`wr->wr_id = rep`) and the spent buffer becomes a one-segment packet of
length `byte_len`. -/
def rxWcStep (p : RxState × List RxPkt × List (Option RxSeg) × Nat) (wc : RxWc) :
    RxState × List RxPkt × List (Option RxSeg) × Nat :=
  let s := p.1
  let i := p.2.2.2
  if wc.success = false then
    ({ s with idropped := s.idropped + 1 }, p.2.1, p.2.2.1, i + 1)
  else
    match p.2.2.1 with
    | [] => ({ s with rx_nombuf := s.rx_nombuf + 1 }, p.2.1, [], i + 1)
    | none :: reps2 => ({ s with rx_nombuf := s.rx_nombuf + 1 }, p.2.1, reps2, i + 1)
    | some rep :: reps2 =>
      ({ s with
          elts_no_sp := upd s.elts_no_sp i rep.id
          ibytes := s.ibytes + wc.byte_len },
       p.2.1 ++ [⟨[(wc.wr_id, wc.byte_len)], wc.byte_len, 1⟩], reps2, i + 1)

/-- `mlx4_rx_burst` after its dispatch check: a poll error returns
`(uint16_t)-1` = 65535 (indistinguishable from a packet count); an empty
poll returns 0; otherwise process completions and repost (abort on a
repost failure). -/
def mlx4_rx_burst_core (s : RxState) (pkts_n : Nat) (poll : Nat → RxPollRes)
    (reps : List (Option RxSeg)) (postRecv : Bool) : RxOut × RxState :=
  match poll pkts_n with
  | .err => (.ret (((-1 : Int).emod 65536).toNat) [], s)
  | .ok [] => (.ret 0 [], s)
  | .ok wcs =>
    let r := wcs.foldl rxWcStep (s, [], reps, 0)
    if postRecv = false then (.abort, r.1)
    else (.ret r.2.1.length r.2.1,
          { r.1 with ipackets := r.1.ipackets + r.2.1.length })

/-- `mlx4_rx_burst_sp` with its `if (unlikely(!rxq->sp))` fallback to the
non-scattered path. -/
def mlx4_rx_burst_sp (s : RxState) (pkts_n : Nat) (poll : Nat → RxPollRes)
    (reps : List (Option RxSeg)) (postRecv : Bool) : RxOut × RxState :=
  if s.sp = false then mlx4_rx_burst_core s pkts_n poll reps postRecv
  else mlx4_rx_burst_sp_core s pkts_n poll reps postRecv

/-- `mlx4_rx_burst` with its `if (unlikely(rxq->sp))` fallback to the
scattered path. -/
def mlx4_rx_burst (s : RxState) (pkts_n : Nat) (poll : Nat → RxPollRes)
    (reps : List (Option RxSeg)) (postRecv : Bool) : RxOut × RxState :=
  if s.sp = true then mlx4_rx_burst_sp_core s pkts_n poll reps postRecv
  else mlx4_rx_burst_core s pkts_n poll reps postRecv

/-- A concrete RX state for witnesses: a 2-element non-scattered ring. -/
def c10state : RxState where
  elts_n := 2
  sp := false
  elts_sp_null := false
  elts_sp := fun _ => []
  elts_no_sp := fun i => i
  freed := []
  ipackets := 0
  ibytes := 0
  idropped := 0
  rx_nombuf := 0

/-- C10: when `ibv_poll_cq` returns a negative value, both
`mlx4_rx_burst` and `mlx4_rx_burst_sp` execute `return -1` with a
`uint16_t` return type, so the caller sees the value
`(uint16_t)-1 = 65535` — a well-formed packet count a caller cannot
distinguish from 65535 received packets — and the state is untouched; the
result is a normal return (`RxOut.ret`), not the `abort()` reserved for
repost failures, so the process survives this path. -/
theorem c10_poll_error_returns_65535 :
    (∀ (s : RxState) (pkts_n : Nat) (poll : Nat → RxPollRes)
        (reps : List (Option RxSeg)) (postRecv : Bool),
      s.sp = false → poll pkts_n = RxPollRes.err →
      mlx4_rx_burst s pkts_n poll reps postRecv =
        (.ret (((-1 : Int).emod 65536).toNat) [], s)) ∧
    (∀ (s : RxState) (pkts_n : Nat) (poll : Nat → RxPollRes)
        (reps : List (Option RxSeg)) (postRecv : Bool),
      s.sp = true → s.elts_sp_null = false → poll pkts_n = RxPollRes.err →
      mlx4_rx_burst s pkts_n poll reps postRecv =
        (.ret (((-1 : Int).emod 65536).toNat) [], s)) ∧
    (∀ (s : RxState) (pkts_n : Nat) (poll : Nat → RxPollRes)
        (reps : List (Option RxSeg)) (postRecv : Bool),
      s.sp = true → s.elts_sp_null = false → poll pkts_n = RxPollRes.err →
      mlx4_rx_burst_sp s pkts_n poll reps postRecv =
        (.ret (((-1 : Int).emod 65536).toNat) [], s)) ∧
    (∀ (s : RxState) (pkts_n : Nat) (poll : Nat → RxPollRes)
        (reps : List (Option RxSeg)) (postRecv : Bool),
      s.sp = false → poll pkts_n = RxPollRes.err →
      mlx4_rx_burst_sp s pkts_n poll reps postRecv =
        (.ret (((-1 : Int).emod 65536).toNat) [], s)) ∧
    ((-1 : Int).emod 65536).toNat = 65535 ∧
    (∀ pkts : List RxPkt, RxOut.ret 65535 pkts ≠ RxOut.abort) := by
  refine ⟨?_, ?_, ?_, ?_, by decide, ?_⟩
  · intro s pkts_n poll reps postRecv hsp hpoll
    simp [mlx4_rx_burst, mlx4_rx_burst_core, hsp, hpoll]
  · intro s pkts_n poll reps postRecv hsp hnull hpoll
    simp [mlx4_rx_burst, mlx4_rx_burst_sp_core, hsp, hnull, hpoll]
  · intro s pkts_n poll reps postRecv hsp hnull hpoll
    simp [mlx4_rx_burst_sp, mlx4_rx_burst_sp_core, hsp, hnull, hpoll]
  · intro s pkts_n poll reps postRecv hsp hpoll
    simp [mlx4_rx_burst_sp, mlx4_rx_burst_core, hsp, hpoll]
  · intro pkts h
    exact RxOut.noConfusion h

/-- C10 witness: the non-scattered ring `c10state` with an erroring poll
returns exactly 65535 and an unchanged state. -/
theorem c10_poll_error_returns_65535_witness :
    (mlx4_rx_burst c10state 4 (fun _ => RxPollRes.err) [] true).1 = .ret 65535 [] ∧
    (mlx4_rx_burst c10state 4 (fun _ => RxPollRes.err) [] true).2 = c10state := by
  have h := c10_poll_error_returns_65535.1 c10state 4 (fun _ => RxPollRes.err) [] true rfl rfl
  constructor
  · rw [h]; decide
  · rw [h]

/- ==========  C7: atomic RX ring construction  ========== -/

theorem adjustHeadroom_ids (l : List RxSeg) :
    (adjustHeadroom l).map RxSeg.id = l.map RxSeg.id := by
  cases l with
  | nil => rfl
  | cons b rest => simp [adjustHeadroom]

theorem buildSegs_ids (k : Nat) (sup : List (Option RxSeg)) :
    (buildSegs k sup).1.map RxSeg.id = allocatedIds k sup := by
  induction k generalizing sup with
  | zero => rfl
  | succ k ih =>
    cases sup with
    | nil => rfl
    | cons o sup =>
      cases o with
      | none => rfl
      | some b => simp [buildSegs, allocatedIds, ih]

theorem buildSegs_ok_split (k m : Nat) (sup : List (Option RxSeg))
    (h : (buildSegs k sup).2.2 = true) :
    allocatedIds (k + m) sup = allocatedIds k sup ++ allocatedIds m (buildSegs k sup).2.1 := by
  induction k generalizing sup with
  | zero => simp [buildSegs, allocatedIds]
  | succ k ih =>
    cases sup with
    | nil => simp [buildSegs] at h
    | cons o sup =>
      cases o with
      | none => simp [buildSegs] at h
      | some b =>
        have hk : (buildSegs k sup).2.2 = true := by
          simpa [buildSegs] using h
        rw [show k + 1 + m = (k + m) + 1 from by omega]
        simp only [allocatedIds, buildSegs, List.cons_append]
        rw [ih sup hk]

theorem buildSegs_fail_split (k m : Nat) (sup : List (Option RxSeg))
    (h : (buildSegs k sup).2.2 = false) :
    allocatedIds (k + m) sup = allocatedIds k sup := by
  induction k generalizing sup with
  | zero => simp [buildSegs] at h
  | succ k ih =>
    cases sup with
    | nil =>
      cases m with
      | zero => rfl
      | succ m => rfl
    | cons o sup =>
      cases o with
      | none =>
        cases m with
        | zero => rfl
        | succ m => rfl
      | some b =>
        have hk : (buildSegs k sup).2.2 = false := by
          simpa [buildSegs] using h
        rw [show k + 1 + m = (k + m) + 1 from by omega]
        simp [allocatedIds, ih sup hk]

theorem buildElts_ids (n : Nat) (sup : List (Option RxSeg)) :
    ((buildElts n sup).1.map (fun e => e.bufs.map RxSeg.id)).flatten =
      allocatedIds (4 * n) sup := by
  induction n generalizing sup with
  | zero => rfl
  | succ n ih =>
    rw [show 4 * (n + 1) = 4 + 4 * n from by omega]
    by_cases h : (buildSegs 4 sup).2.2 = true
    · rw [buildSegs_ok_split 4 (4 * n) sup h]
      simp [buildElts, h, adjustHeadroom_ids, buildSegs_ids, ih]
    · rw [buildSegs_fail_split 4 (4 * n) sup (by simpa using h)]
      simp [buildElts, h, adjustHeadroom_ids, buildSegs_ids]

theorem buildEltsNoSp_ids (n : Nat) (sup : List (Option RxSeg)) :
    (buildEltsNoSp n sup).1.map RxSeg.id = allocatedIds n sup := by
  induction n generalizing sup with
  | zero => rfl
  | succ n ih =>
    cases sup with
    | nil => rfl
    | cons o sup =>
      cases o with
      | none => rfl
      | some b => simp [buildEltsNoSp, allocatedIds, ih]

/-- C7: RX ring construction is atomic.  For both `rxq_alloc_elts_sp`
and `rxq_alloc_elts`, if any buffer allocation fails mid-loop the call
returns ENOMEM and the error path — which scans the whole (partially
filled) element array freeing every non-NULL stored buffer and then
releases the array — frees exactly the buffers the allocator handed out
for this batch (`allocatedIds`), so nothing leaks; on success nothing is
freed.  The C caller installs `rxq->elts_n`/`rxq->elts` only on the
success path, so no partially constructed ring persists in the rxq. -/
theorem c7_rx_alloc_atomicity :
    (∀ (n : Nat) (sup : List (Option RxSeg)), (buildElts n sup).2.2 = false →
      (rxq_alloc_elts_sp n sup).1 = Except.error ENOMEM ∧
      (rxq_alloc_elts_sp n sup).2 = allocatedIds (4 * n) sup) ∧
    (∀ (n : Nat) (sup : List (Option RxSeg)), (buildElts n sup).2.2 = true →
      (rxq_alloc_elts_sp n sup).2 = []) ∧
    (∀ (n : Nat) (sup : List (Option RxSeg)), (buildEltsNoSp n sup).2.2 = false →
      (rxq_alloc_elts n sup).1 = Except.error ENOMEM ∧
      (rxq_alloc_elts n sup).2 = allocatedIds n sup) ∧
    (∀ (n : Nat) (sup : List (Option RxSeg)), (buildEltsNoSp n sup).2.2 = true →
      (rxq_alloc_elts n sup).2 = []) := by
  refine ⟨?_, ?_, ?_, ?_⟩
  · intro n sup h
    constructor
    · simp [rxq_alloc_elts_sp, h]
    · simp [rxq_alloc_elts_sp, h]
      exact buildElts_ids n sup
  · intro n sup h
    simp [rxq_alloc_elts_sp, h]
  · intro n sup h
    constructor
    · simp [rxq_alloc_elts, h]
    · simp [rxq_alloc_elts, h]
      exact buildEltsNoSp_ids n sup
  · intro n sup h
    simp [rxq_alloc_elts, h]

/-- C7 witness: a 2-element scattered ring needs 8 buffers; a supply of
three buffers (ids 1,2,3) and then an allocation failure yields ENOMEM
with exactly ids 1,2,3 freed, and the single-segment variant behaves the
same on a supply failing after id 1. -/
theorem c7_rx_alloc_atomicity_witness :
    (rxq_alloc_elts_sp 2 [some ⟨1, 10, 128⟩, some ⟨2, 10, 128⟩,
        some ⟨3, 10, 128⟩, none, some ⟨5, 10, 128⟩]).1 = Except.error ENOMEM ∧
    (rxq_alloc_elts_sp 2 [some ⟨1, 10, 128⟩, some ⟨2, 10, 128⟩,
        some ⟨3, 10, 128⟩, none, some ⟨5, 10, 128⟩]).2 = [1, 2, 3] ∧
    (rxq_alloc_elts 3 [some ⟨1, 10, 128⟩, none]).1 = Except.error ENOMEM ∧
    (rxq_alloc_elts 3 [some ⟨1, 10, 128⟩, none]).2 = [1] := by
  obtain ⟨h1, h2⟩ := c7_rx_alloc_atomicity.1 2
    [some ⟨1, 10, 128⟩, some ⟨2, 10, 128⟩, some ⟨3, 10, 128⟩, none, some ⟨5, 10, 128⟩]
    (by decide)
  obtain ⟨h3, h4⟩ := c7_rx_alloc_atomicity.2.2.1 3 [some ⟨1, 10, 128⟩, none] (by decide)
  refine ⟨h1, ?_, h3, ?_⟩
  · rw [h2]; decide
  · rw [h4]; decide

/- ==========  C6: scattered reassembly  ========== -/

/-- Modelled from the spec's wording "the number of segments needed to
cover L": the count of segments consumed when filling tailrooms
`ts` front to back with `L` bytes (at least one segment). -/
def segsNeeded (L : Nat) : List Nat → Nat
  | [] => 0
  | t :: ts => if L ≤ t then 1 else 1 + segsNeeded (L - t) ts

/-- The per-segment byte counts produced by splitting `L` bytes over
tailrooms `ts`: every segment except the last carries exactly its
tailroom, the last carries the remainder. -/
def splitLens (L : Nat) : List Nat → List Nat
  | [] => []
  | t :: ts => if L ≤ t then [L] else t :: splitLens (L - t) ts

theorem splitLens_length (L : Nat) (ts : List Nat) :
    (splitLens L ts).length = segsNeeded L ts := by
  induction ts generalizing L with
  | nil => rfl
  | cons t ts ih =>
    by_cases h : L ≤ t
    · simp [splitLens, segsNeeded, h]
    · simp [splitLens, segsNeeded, h, ih]
      omega

theorem segsNeeded_le (L : Nat) (ts : List Nat) : segsNeeded L ts ≤ ts.length := by
  induction ts generalizing L with
  | nil => simp [segsNeeded]
  | cons t ts ih =>
    by_cases h : L ≤ t
    · simp [segsNeeded, h]
    · simp [segsNeeded, h]
      have := ih (L - t)
      omega

theorem splitLens_sum (L : Nat) (ts : List Nat) (hcap : L ≤ ts.sum) :
    (splitLens L ts).sum = L := by
  induction ts generalizing L with
  | nil =>
    simp at hcap
    simp [splitLens, hcap]
  | cons t ts ih =>
    by_cases h : L ≤ t
    · simp [splitLens, h]
    · simp only [splitLens, if_neg h, List.sum_cons]
      rw [ih (L - t) (by simp at hcap; omega)]
      omega

theorem segsNeeded_cover (L : Nat) (ts : List Nat) (hcap : L ≤ ts.sum) :
    L ≤ (ts.take (segsNeeded L ts)).sum := by
  induction ts generalizing L with
  | nil => simpa using hcap
  | cons t ts ih =>
    by_cases h : L ≤ t
    · simp [segsNeeded, h]
    · simp only [segsNeeded, if_neg h]
      rw [show 1 + segsNeeded (L - t) ts = segsNeeded (L - t) ts + 1 from by omega]
      simp only [List.take_succ_cons, List.sum_cons]
      have := ih (L - t) (by simp at hcap; omega)
      omega

theorem segsNeeded_min (L : Nat) (ts : List Nat) (hL : 1 ≤ L) (hcap : L ≤ ts.sum) :
    (ts.take (segsNeeded L ts - 1)).sum < L := by
  induction ts generalizing L with
  | nil =>
    simp at hcap
    omega
  | cons t ts ih =>
    by_cases h : L ≤ t
    · simp [segsNeeded, h]
      omega
    · have hts : ts ≠ [] := by
        intro hnil
        subst hnil
        simp at hcap
        omega
      have hpos : 1 ≤ segsNeeded (L - t) ts := by
        cases ts with
        | nil => exact absurd rfl hts
        | cons u us =>
          by_cases hu : L - t ≤ u <;> simp [segsNeeded, hu]
      simp only [segsNeeded, if_neg h]
      rw [show 1 + segsNeeded (L - t) ts - 1 = (segsNeeded (L - t) ts - 1) + 1 from by omega]
      simp only [List.take_succ_cons, List.sum_cons]
      have := ih (L - t) (by omega) (by simp at hcap; omega)
      omega

theorem splitLens_init (L : Nat) (ts : List Nat) :
    ∀ i, i + 1 < segsNeeded L ts → (splitLens L ts).getD i 0 = ts.getD i 0 := by
  induction ts generalizing L with
  | nil => simp [segsNeeded]
  | cons t ts ih =>
    intro i hi
    by_cases h : L ≤ t
    · simp [segsNeeded, h] at hi
    · simp only [segsNeeded, if_neg h] at hi
      cases i with
      | zero => simp [splitLens, if_neg h]
      | succ i =>
        simp only [splitLens, if_neg h, List.getD_cons_succ]
        exact ih (L - t) i (by omega)

theorem splitLens_last (L : Nat) (ts : List Nat) (hL : 1 ≤ L) (hcap : L ≤ ts.sum) :
    (splitLens L ts).getD (segsNeeded L ts - 1) 0 =
      L - (ts.take (segsNeeded L ts - 1)).sum := by
  induction ts generalizing L with
  | nil =>
    simp at hcap
    omega
  | cons t ts ih =>
    by_cases h : L ≤ t
    · simp [splitLens, segsNeeded, h]
    · have hts : ts ≠ [] := by
        intro hnil
        subst hnil
        simp at hcap
        omega
      have hpos : 1 ≤ segsNeeded (L - t) ts := by
        cases ts with
        | nil => exact absurd rfl hts
        | cons u us =>
          by_cases hu : L - t ≤ u <;> simp [segsNeeded, hu]
      simp only [splitLens, segsNeeded, if_neg h]
      rw [show 1 + segsNeeded (L - t) ts - 1 = (segsNeeded (L - t) ts - 1) + 1 from by omega]
      simp only [List.take_succ_cons, List.sum_cons, List.getD_cons_succ]
      rw [ih (L - t) (by omega) (by simp at hcap; omega)]
      omega

/-- The replacements installed in the ring by the reassembly loop: the
first `j` allocator results, each taking over the spent segment's
`data_off` (headroom). -/
def installedReps (bufs : List RxSeg) (reps : List (Option RxSeg)) (j : Nat) : List RxSeg :=
  ((bufs.zip (reps.filterMap id)).take j).map
    (fun p => { p.2 with data_off := p.1.data_off })

/-- The reassembly loop of `mlx4_rx_burst_sp`, characterized: with a
positive byte count that fits the ring element's total tailroom and a
sufficient allocator supply, it succeeds, splicing out the first
`segsNeeded` original segments with `splitLens` data lengths and
installing the corresponding replacements. -/
theorem rxSpliceLoop_spec (bufs : List RxSeg) (L : Nat) (reps : List (Option RxSeg))
    (hL : 1 ≤ L) (hcap : L ≤ (bufs.map tailroom).sum)
    (hlen : bufs.length ≤ reps.length) (hsome : ∀ o ∈ reps, o.isSome = true) :
    rxSpliceLoop bufs L reps =
      .ok ((bufs.map RxSeg.id).zip (splitLens L (bufs.map tailroom)))
        (installedReps bufs reps (segsNeeded L (bufs.map tailroom)))
        (reps.drop (segsNeeded L (bufs.map tailroom))) := by
  induction bufs generalizing L reps with
  | nil =>
    simp at hcap
    omega
  | cons seg rest ih =>
    cases reps with
    | nil => simp at hlen
    | cons o reps =>
      have ho : o.isSome = true := hsome o (List.mem_cons_self _ _)
      cases o with
      | none => simp at ho
      | some rep =>
        by_cases h : L ≤ tailroom seg
        · simp only [rxSpliceLoop, if_pos h]
          simp only [List.map_cons, splitLens, segsNeeded, if_pos h, installedReps,
            List.filterMap_cons, List.zip_cons_cons, List.take_succ_cons, List.take_zero,
            List.zip_nil_right, List.drop_succ_cons, List.drop_zero, id]
          rfl
        · have hrec := ih (L - tailroom seg) reps
            (by omega)
            (by simp at hcap; omega)
            (by simpa using hlen)
            (fun o ho2 => hsome o (List.mem_cons_of_mem _ ho2))
          simp only [rxSpliceLoop, if_neg h, hrec]
          simp only [List.map_cons, splitLens, segsNeeded, if_neg h, installedReps,
            List.filterMap_cons, List.zip_cons_cons, id]
          rw [show 1 + segsNeeded (L - tailroom seg) (rest.map tailroom) =
            segsNeeded (L - tailroom seg) (rest.map tailroom) + 1 from by omega]
          simp only [List.take_succ_cons, List.map_cons, List.drop_succ_cons]

theorem zip_take_map_snd {α β : Type} :
    ∀ (j : Nat) (A : List α) (B : List β), j ≤ A.length →
      ((A.zip B).take j).map Prod.snd = B.take j
  | 0, _, _, _ => by simp
  | j + 1, [], _, h => by simp at h
  | j + 1, _ :: _, [], _ => by simp
  | j + 1, a :: A, b :: B, h => by
    simp only [List.zip_cons_cons, List.take_succ_cons, List.map_cons]
    rw [zip_take_map_snd j A B (by simpa using h)]

theorem zip_take_map_fst {α β : Type} :
    ∀ (j : Nat) (A : List α) (B : List β), j ≤ B.length →
      ((A.zip B).take j).map Prod.fst = A.take j
  | 0, _, _, _ => by simp
  | j + 1, _, [], h => by simp at h
  | j + 1, [], _ :: _, _ => by simp
  | j + 1, a :: A, b :: B, h => by
    simp only [List.zip_cons_cons, List.take_succ_cons, List.map_cons]
    rw [zip_take_map_fst j A B (by simpa using h)]

theorem filterMap_id_length {α : Type} :
    ∀ l : List (Option α), (∀ o ∈ l, o.isSome = true) →
      (l.filterMap id).length = l.length
  | [], _ => rfl
  | none :: l, h => by
    have := h none (List.mem_cons_self _ _)
    simp at this
  | some a :: l, h => by
    simp only [List.filterMap_cons, id, List.length_cons]
    rw [filterMap_id_length l (fun o ho => h o (List.mem_cons_of_mem _ ho))]

/-- C6: scattered reassembly.  For a successful scattered completion of
byte count `L` on element `w` (with `1 ≤ L` within the element's total
tailroom capacity and a sufficient allocator supply — the hardware and
allocator contract), `mlx4_rx_burst_sp` returns exactly one packet whose
head `pkt_len` is `L` and whose segment count is the number of segments
needed to cover `L` (it covers `L` and no shorter prefix does); every
segment except the last carries exactly its tailroom, the last carries
the remainder; the data lengths sum to `L`; the spliced-out segments are
the element's original leading buffers, and each is replaced in the ring
slot by a freshly allocated buffer (the consumed allocator results, with
the spent segment's headroom), the rest of the slot being untouched. -/
theorem c6_scattered_reassembly
    (s : RxState) (pkts_n : Nat) (poll : Nat → RxPollRes) (reps : List (Option RxSeg))
    (w L : Nat)
    (hsp : s.sp = true) (hnull : s.elts_sp_null = false)
    (hpoll : poll pkts_n = RxPollRes.ok [⟨w, L, true⟩])
    (hL : 1 ≤ L)
    (hcap : L ≤ ((s.elts_sp w).map tailroom).sum)
    (hlen : (s.elts_sp w).length ≤ reps.length)
    (hsome : ∀ o ∈ reps, o.isSome = true) :
    (mlx4_rx_burst_sp s pkts_n poll reps true).1 =
      .ret 1 [⟨((s.elts_sp w).map RxSeg.id).zip
                 (splitLens L ((s.elts_sp w).map tailroom)), L,
               segsNeeded L ((s.elts_sp w).map tailroom)⟩] ∧
    ((((s.elts_sp w).map RxSeg.id).zip
        (splitLens L ((s.elts_sp w).map tailroom))).map Prod.snd =
      splitLens L ((s.elts_sp w).map tailroom)) ∧
    ((((s.elts_sp w).map RxSeg.id).zip
        (splitLens L ((s.elts_sp w).map tailroom))).map Prod.fst =
      ((s.elts_sp w).map RxSeg.id).take (segsNeeded L ((s.elts_sp w).map tailroom))) ∧
    (splitLens L ((s.elts_sp w).map tailroom)).sum = L ∧
    L ≤ (((s.elts_sp w).map tailroom).take
          (segsNeeded L ((s.elts_sp w).map tailroom))).sum ∧
    (((s.elts_sp w).map tailroom).take
      (segsNeeded L ((s.elts_sp w).map tailroom) - 1)).sum < L ∧
    (∀ i, i + 1 < segsNeeded L ((s.elts_sp w).map tailroom) →
      (splitLens L ((s.elts_sp w).map tailroom)).getD i 0 =
        ((s.elts_sp w).map tailroom).getD i 0) ∧
    (splitLens L ((s.elts_sp w).map tailroom)).getD
        (segsNeeded L ((s.elts_sp w).map tailroom) - 1) 0 =
      L - (((s.elts_sp w).map tailroom).take
            (segsNeeded L ((s.elts_sp w).map tailroom) - 1)).sum ∧
    (mlx4_rx_burst_sp s pkts_n poll reps true).2.elts_sp w =
      installedReps (s.elts_sp w) reps (segsNeeded L ((s.elts_sp w).map tailroom)) ++
        (s.elts_sp w).drop (segsNeeded L ((s.elts_sp w).map tailroom)) ∧
    ((installedReps (s.elts_sp w) reps
        (segsNeeded L ((s.elts_sp w).map tailroom))).map RxSeg.id =
      ((reps.filterMap id).map RxSeg.id).take
        (segsNeeded L ((s.elts_sp w).map tailroom))) ∧
    (∀ e, e ≠ w → (mlx4_rx_burst_sp s pkts_n poll reps true).2.elts_sp e = s.elts_sp e) := by
  have hts : ((s.elts_sp w).map tailroom).length = (s.elts_sp w).length :=
    List.length_map _ _
  have hj : segsNeeded L ((s.elts_sp w).map tailroom) ≤ (s.elts_sp w).length := by
    have := segsNeeded_le L ((s.elts_sp w).map tailroom)
    omega
  have hsplice := rxSpliceLoop_spec (s.elts_sp w) L reps hL hcap hlen hsome
  have hslen : (splitLens L ((s.elts_sp w).map tailroom)).length =
      segsNeeded L ((s.elts_sp w).map tailroom) := splitLens_length _ _
  have hids : (((s.elts_sp w).map RxSeg.id).zip
      (splitLens L ((s.elts_sp w).map tailroom))).length =
      segsNeeded L ((s.elts_sp w).map tailroom) := by
    rw [List.length_zip, hslen, List.length_map]
    omega
  have hinstlen : (installedReps (s.elts_sp w) reps
      (segsNeeded L ((s.elts_sp w).map tailroom))).length =
      segsNeeded L ((s.elts_sp w).map tailroom) := by
    unfold installedReps
    rw [List.length_map, List.length_take, List.length_zip,
      filterMap_id_length reps hsome]
    omega
  have hrun : mlx4_rx_burst_sp s pkts_n poll reps true =
      (.ret 1 [⟨((s.elts_sp w).map RxSeg.id).zip
          (splitLens L ((s.elts_sp w).map tailroom)), L,
          segsNeeded L ((s.elts_sp w).map tailroom)⟩],
        { s with
          elts_sp := upd s.elts_sp w
            (installedReps (s.elts_sp w) reps (segsNeeded L ((s.elts_sp w).map tailroom)) ++
              (s.elts_sp w).drop (segsNeeded L ((s.elts_sp w).map tailroom)))
          ibytes := s.ibytes + L
          ipackets := s.ipackets + 1 }) := by
    simp only [mlx4_rx_burst_sp, mlx4_rx_burst_sp_core, hsp, hnull, hpoll,
      Bool.false_eq_true, Bool.true_eq_false, if_false, List.foldl_cons,
      List.foldl_nil, rxSpWcStep, hsplice, hinstlen, hids]
    simp only [List.nil_append, List.length_cons, List.length_nil, hids]
  refine ⟨?_, ?_, ?_, splitLens_sum L _ hcap, segsNeeded_cover L _ hcap,
    segsNeeded_min L _ hL hcap, splitLens_init L _, splitLens_last L _ hL hcap,
    ?_, ?_, ?_⟩
  · rw [hrun]
  · exact List.map_snd_zip _ _ (by rw [hslen, List.length_map]; omega)
  · rw [← List.take_of_length_le (le_of_eq hids)]
    exact zip_take_map_fst _ _ _ (by rw [hslen])
  · rw [hrun]
    exact upd_same _ _ _
  · unfold installedReps
    rw [← List.map_take, ← zip_take_map_snd (segsNeeded L ((s.elts_sp w).map tailroom))
      (s.elts_sp w) (reps.filterMap id)
      (by omega)]
    rw [List.map_map, List.map_map]
    rfl
  · intro e he
    rw [hrun]
    exact upd_other _ _ _ _ he

/-- A concrete scattered RX ring for the C6 witness: element 0 holds four
buffers with tailrooms 3,3,3,3 (ids 50..53; the first keeps its
headroom). -/
def c6state : RxState where
  elts_n := 2
  sp := true
  elts_sp_null := false
  elts_sp := fun i => if i = 0 then
    [⟨50, 131, 128⟩, ⟨51, 3, 0⟩, ⟨52, 3, 0⟩, ⟨53, 3, 0⟩] else []
  elts_no_sp := fun _ => 0
  freed := []
  ipackets := 0
  ibytes := 0
  idropped := 0
  rx_nombuf := 0

/-- Allocator supply for the C6 witness (fresh ids 60..63). -/
def c6reps : List (Option RxSeg) :=
  [some ⟨60, 131, 0⟩, some ⟨61, 3, 0⟩, some ⟨62, 3, 0⟩, some ⟨63, 3, 0⟩]

/-- C6 witness: a 7-byte scattered completion over tailrooms [3,3,3,3]
reassembles into one packet of segments (50,3),(51,3),(52,1) with
`pkt_len = 7` and `nb_segs = 3`, and the three spent ring buffers are
replaced by the fresh ones (60..62, the first regaining the headroom),
buffer 53 staying in place. -/
theorem c6_scattered_reassembly_witness :
    (mlx4_rx_burst_sp c6state 4 (fun _ => RxPollRes.ok [⟨0, 7, true⟩]) c6reps true).1 =
      .ret 1 [⟨[(50, 3), (51, 3), (52, 1)], 7, 3⟩] ∧
    (mlx4_rx_burst_sp c6state 4 (fun _ => RxPollRes.ok [⟨0, 7, true⟩]) c6reps true).2.elts_sp 0 =
      [⟨60, 131, 128⟩, ⟨61, 3, 0⟩, ⟨62, 3, 0⟩, ⟨53, 3, 0⟩] := by
  obtain ⟨h1, _, _, _, _, _, _, _, h9, _, _⟩ :=
    c6_scattered_reassembly c6state 4 (fun _ => RxPollRes.ok [⟨0, 7, true⟩]) c6reps 0 7
      rfl rfl rfl (by decide) (by decide) (by decide) (by decide)
  constructor
  · rw [h1]; decide
  · rw [h9]; decide

/- ==========  TX burst loop characterization  ========== -/

/-- Invariant of the `mp2mr[]` cache under a registration oracle: every
cached pool is registrable and carries a valid lkey (the code's
`assert(txq->mp2mr[i].lkey != (uint32_t)-1)`). -/
def CacheOk (reg : Nat → Option MrReg) (s : TxState) : Prop :=
  ∀ e ∈ s.mp2mr, (reg e.mp).isSome = true ∧ e.lkey ≠ lkeyInvalid

/-- Contract of `ibv_reg_mr`: a successful registration never returns the
sentinel key. -/
def RegOk (reg : Nat → Option MrReg) : Prop :=
  ∀ pool r, reg pool = some r → r.lkey ≠ lkeyInvalid

theorem txq_mp2mr_frame (s : TxState) (pool : Nat) (reg : Nat → Option MrReg)
    (size : Nat → Nat) :
    (txq_mp2mr s pool reg size).2.bufs = s.bufs ∧
    (txq_mp2mr s pool reg size).2.elts_n = s.elts_n ∧
    (txq_mp2mr s pool reg size).2.elts_cur = s.elts_cur ∧
    (txq_mp2mr s pool reg size).2.elts_used = s.elts_used ∧
    (txq_mp2mr s pool reg size).2.elts_free = s.elts_free ∧
    (txq_mp2mr s pool reg size).2.elts_comp = s.elts_comp ∧
    (txq_mp2mr s pool reg size).2.comp = s.comp ∧
    (txq_mp2mr s pool reg size).2.next = s.next ∧
    (txq_mp2mr s pool reg size).2.sg = s.sg ∧
    (txq_mp2mr s pool reg size).2.sig = s.sig ∧
    (txq_mp2mr s pool reg size).2.lost_comp = s.lost_comp ∧
    (txq_mp2mr s pool reg size).2.freed = s.freed ∧
    (txq_mp2mr s pool reg size).2.posted = s.posted ∧
    (txq_mp2mr s pool reg size).2.opackets = s.opackets ∧
    (txq_mp2mr s pool reg size).2.obytes = s.obytes ∧
    (txq_mp2mr s pool reg size).2.odropped = s.odropped := by
  unfold txq_mp2mr
  cases s.mp2mr.find? (fun e => e.mp = pool) with
  | some e => exact ⟨rfl, rfl, rfl, rfl, rfl, rfl, rfl, rfl, rfl, rfl, rfl, rfl, rfl, rfl, rfl, rfl⟩
  | none =>
    cases reg pool with
    | none => exact ⟨rfl, rfl, rfl, rfl, rfl, rfl, rfl, rfl, rfl, rfl, rfl, rfl, rfl, rfl, rfl, rfl⟩
    | some r =>
      dsimp only
      split
      · exact ⟨rfl, rfl, rfl, rfl, rfl, rfl, rfl, rfl, rfl, rfl, rfl, rfl, rfl, rfl, rfl, rfl⟩
      · exact ⟨rfl, rfl, rfl, rfl, rfl, rfl, rfl, rfl, rfl, rfl, rfl, rfl, rfl, rfl, rfl, rfl⟩

/-- A resolvable pool never yields the sentinel, and the cache invariant
is preserved. -/
theorem txq_mp2mr_resolves (s : TxState) (pool : Nat) (reg : Nat → Option MrReg)
    (size : Nat → Nat) (hrg : RegOk reg) (hco : CacheOk reg s)
    (hres : (reg pool).isSome = true) :
    (txq_mp2mr s pool reg size).1 ≠ lkeyInvalid ∧
    CacheOk reg (txq_mp2mr s pool reg size).2 := by
  unfold txq_mp2mr
  cases hf : s.mp2mr.find? (fun e => e.mp = pool) with
  | some e =>
    have hmem : e ∈ s.mp2mr := List.mem_of_find?_eq_some hf
    exact ⟨(hco e hmem).2, hco⟩
  | none =>
    cases hr : reg pool with
    | none => rw [hr] at hres; exact absurd hres (by simp)
    | some r =>
      have hlk : r.lkey ≠ lkeyInvalid := hrg pool r hr
      dsimp only
      split
      · refine ⟨hlk, ?_⟩
        intro e he
        simp only [List.mem_append, List.mem_singleton] at he
        rcases he with he | he
        · exact hco e (List.mem_of_mem_drop he)
        · subst he
          exact ⟨by rw [hr]; rfl, hlk⟩
      · refine ⟨hlk, ?_⟩
        intro e he
        simp only [List.mem_append, List.mem_singleton] at he
        rcases he with he | he
        · exact hco e he
        · subst he
          exact ⟨by rw [hr]; rfl, hlk⟩

/-- An unregistrable pool misses the cache (by `CacheOk`) and the failed
registration returns the sentinel, leaving the cache unchanged. -/
theorem txq_mp2mr_fails (s : TxState) (pool : Nat) (reg : Nat → Option MrReg)
    (size : Nat → Nat) (hco : CacheOk reg s) (hnone : reg pool = none) :
    (txq_mp2mr s pool reg size).1 = lkeyInvalid ∧
    (txq_mp2mr s pool reg size).2.mp2mr = s.mp2mr ∧
    CacheOk reg (txq_mp2mr s pool reg size).2 := by
  have hf : s.mp2mr.find? (fun e => e.mp = pool) = none := by
    rw [List.find?_eq_none]
    intro e he hmp
    have := (hco e he).1
    simp at hmp
    rw [hmp, hnone] at this
    simp at this
  unfold txq_mp2mr
  rw [hf, hnone]
  exact ⟨rfl, rfl, hco⟩

theorem upd_self {α : Type} (f : Nat → α) (i : Nat) : upd f i (f i) = f := by
  funext j
  unfold upd
  split
  · rename_i h; rw [h]
  · rfl

theorem upd_upd_same {α : Type} (f : Nat → α) (i : Nat) (v w : α) :
    upd (upd f i v) i w = upd f i w := by
  funext j
  unfold upd
  by_cases h : j = i
  · rw [if_pos h, if_pos h]
  · rw [if_neg h, if_neg h, if_neg h]

/-- Everything except `bufs[]` and the MR cache (`mp2mr`/`regLog`/`deregLog`)
is unchanged between two queue states. -/
def TxFrame (s t : TxState) : Prop :=
  t.elts_n = s.elts_n ∧ t.elts_cur = s.elts_cur ∧ t.elts_used = s.elts_used ∧
  t.elts_free = s.elts_free ∧ t.elts_comp = s.elts_comp ∧ t.comp = s.comp ∧
  t.next = s.next ∧ t.sg = s.sg ∧ t.sig = s.sig ∧ t.lost_comp = s.lost_comp ∧
  t.freed = s.freed ∧ t.posted = s.posted ∧ t.opackets = s.opackets ∧
  t.obytes = s.obytes ∧ t.odropped = s.odropped

theorem txFrame_refl (s : TxState) : TxFrame s s :=
  ⟨rfl, rfl, rfl, rfl, rfl, rfl, rfl, rfl, rfl, rfl, rfl, rfl, rfl, rfl, rfl⟩

theorem txFrame_trans {s t u : TxState} (h1 : TxFrame s t) (h2 : TxFrame t u) :
    TxFrame s u := by
  obtain ⟨a1, a2, a3, a4, a5, a6, a7, a8, a9, a10, a11, a12, a13, a14, a15⟩ := h1
  obtain ⟨b1, b2, b3, b4, b5, b6, b7, b8, b9, b10, b11, b12, b13, b14, b15⟩ := h2
  exact ⟨b1.trans a1, b2.trans a2, b3.trans a3, b4.trans a4, b5.trans a5,
    b6.trans a6, b7.trans a7, b8.trans a8, b9.trans a9, b10.trans a10,
    b11.trans a11, b12.trans a12, b13.trans a13, b14.trans a14, b15.trans a15⟩

theorem txq_mp2mr_txFrame (s : TxState) (pool : Nat) (reg : Nat → Option MrReg)
    (size : Nat → Nat) : TxFrame s (txq_mp2mr s pool reg size).2 := by
  obtain ⟨_, h1, h2, h3, h4, h5, h6, h7, h8, h9, h10, h11, h12, h13, h14, h15⟩ :=
    txq_mp2mr_frame s pool reg size
  exact ⟨h1, h2, h3, h4, h5, h6, h7, h8, h9, h10, h11, h12, h13, h14, h15⟩

theorem txq_mp2mr_cacheOk (s : TxState) (pool : Nat) (reg : Nat → Option MrReg)
    (size : Nat → Nat) (hrg : RegOk reg) (hco : CacheOk reg s) :
    CacheOk reg (txq_mp2mr s pool reg size).2 := by
  cases hr : reg pool with
  | none => exact (txq_mp2mr_fails s pool reg size hco hr).2.2
  | some r => exact (txq_mp2mr_resolves s pool reg size hrg hco (by rw [hr]; rfl)).2

/-- Store a packet's segments into consecutive positions of a `bufs[]`
array starting at position `k` — the cumulative effect of the
`elt_buf->bufs[seg_n] = buf` stores of the SGE loop. -/
def writeAt : List (Option Seg) → Nat → List Seg → List (Option Seg)
  | l, _, [] => l
  | l, k, b :: p => writeAt (l.set k (some b)) (k + 1) p

/-- The SGE loop on a fully registrable chain of at most `4 - k` non-empty
segments: stores every segment, accumulates `sent_size`, does not drop. -/
theorem segLoop_good (reg : Nat → Option MrReg) (size : Nat → Nat) (cur : Nat)
    (hrg : RegOk reg) (p : List Seg) :
    ∀ (k sent : Nat) (first : Bool) (s : TxState),
    CacheOk reg s →
    (∀ b ∈ p, 1 ≤ b.data_len ∧ (reg b.pool).isSome = true) →
    k + p.length ≤ 4 →
    (segLoop reg size cur p first k sent s).2.1 = k + p.length ∧
    (segLoop reg size cur p first k sent s).2.2.1 = sent + (p.map Seg.data_len).sum ∧
    (segLoop reg size cur p first k sent s).2.2.2 = false ∧
    (segLoop reg size cur p first k sent s).1.bufs
      = upd s.bufs cur (writeAt (s.bufs cur) k p) ∧
    CacheOk reg (segLoop reg size cur p first k sent s).1 ∧
    TxFrame s (segLoop reg size cur p first k sent s).1 := by
  induction p with
  | nil =>
    intro k sent first s hco _ _
    exact ⟨rfl, rfl, rfl, by rw [writeAt]; exact (upd_self s.bufs cur).symm,
      hco, txFrame_refl s⟩
  | cons b p ih =>
    intro k sent first s hco hwf hfit
    have hk4 : ¬(k = 4) := by
      simp only [List.length_cons] at hfit; omega
    have hb := hwf b (List.mem_cons_self b p)
    have hres := txq_mp2mr_resolves s b.pool reg size hrg hco hb.2
    have hd0 : ¬(b.data_len = 0 ∧ first = false) := fun h => by
      have := hb.1; omega
    simp only [segLoop]
    rw [if_neg hk4, if_neg hres.1, if_neg hd0]
    have hcur : (txq_mp2mr s b.pool reg size).2.bufs = s.bufs :=
      (txq_mp2mr_frame s b.pool reg size).1
    have hco2 : CacheOk reg
        ({ (txq_mp2mr s b.pool reg size).2 with
            bufs := upd (txq_mp2mr s b.pool reg size).2.bufs cur
              (((txq_mp2mr s b.pool reg size).2.bufs cur).set k (some b)) }) := by
      intro e he; exact hres.2 e he
    have hwf2 : ∀ c ∈ p, 1 ≤ c.data_len ∧ (reg c.pool).isSome = true :=
      fun c hc => hwf c (List.mem_cons_of_mem b hc)
    have hfit2 : (k + 1) + p.length ≤ 4 := by
      simp only [List.length_cons] at hfit; omega
    obtain ⟨i1, i2, i3, i4, i5, i6⟩ :=
      ih (k + 1) (sent + b.data_len) false _ hco2 hwf2 hfit2
    refine ⟨?_, ?_, i3, ?_, i5, ?_⟩
    · rw [i1, List.length_cons]; omega
    · rw [i2, List.map_cons, List.sum_cons]; omega
    · rw [i4]
      simp only [hcur, upd_same, upd_upd_same]
      rw [writeAt]
    · refine txFrame_trans ?_ i6
      exact txFrame_trans (txq_mp2mr_txFrame s b.pool reg size)
        ⟨rfl, rfl, rfl, rfl, rfl, rfl, rfl, rfl, rfl, rfl, rfl, rfl, rfl, rfl, rfl⟩

/-- Frame of the SGE loop on an arbitrary chain: only `bufs[cur]` and the
MR cache can change; `bufs[cur]` keeps its length; `CacheOk` is
preserved. -/
theorem segLoop_frame (reg : Nat → Option MrReg) (size : Nat → Nat) (cur : Nat)
    (hrg : RegOk reg) (p : List Seg) :
    ∀ (k sent : Nat) (first : Bool) (s : TxState),
    TxFrame s (segLoop reg size cur p first k sent s).1 ∧
    (∀ e, ¬(e = cur) → (segLoop reg size cur p first k sent s).1.bufs e = s.bufs e) ∧
    ((segLoop reg size cur p first k sent s).1.bufs cur).length = (s.bufs cur).length ∧
    (CacheOk reg s → CacheOk reg (segLoop reg size cur p first k sent s).1) := by
  induction p with
  | nil =>
    intro k sent first s
    exact ⟨txFrame_refl s, fun _ _ => rfl, rfl, fun h => h⟩
  | cons b p ih =>
    intro k sent first s
    simp only [segLoop]
    by_cases hk : k = 4
    · rw [if_pos hk]
      exact ⟨txFrame_refl s, fun _ _ => rfl, rfl, fun h => h⟩
    · rw [if_neg hk]
      by_cases hlk : (txq_mp2mr s b.pool reg size).1 = lkeyInvalid
      · rw [if_pos hlk]
        obtain ⟨hb, _⟩ := txq_mp2mr_frame s b.pool reg size
        exact ⟨txq_mp2mr_txFrame s b.pool reg size,
          fun e _ => by rw [hb],
          by rw [hb],
          fun h => txq_mp2mr_cacheOk s b.pool reg size hrg h⟩
      · rw [if_neg hlk]
        by_cases hsk : b.data_len = 0 ∧ first = false
        · rw [if_pos hsk]
          obtain ⟨f1, f2, f3, f4⟩ := ih k sent false (txq_mp2mr s b.pool reg size).2
          obtain ⟨hb, _⟩ := txq_mp2mr_frame s b.pool reg size
          exact ⟨txFrame_trans (txq_mp2mr_txFrame s b.pool reg size) f1,
            fun e he => by rw [f2 e he, hb],
            by rw [f3, hb],
            fun h => f4 (txq_mp2mr_cacheOk s b.pool reg size hrg h)⟩
        · rw [if_neg hsk]
          obtain ⟨f1, f2, f3, f4⟩ := ih (k + 1) (sent + b.data_len) false
            { (txq_mp2mr s b.pool reg size).2 with
              bufs := upd (txq_mp2mr s b.pool reg size).2.bufs cur
                (((txq_mp2mr s b.pool reg size).2.bufs cur).set k (some b)) }
          obtain ⟨hb, _⟩ := txq_mp2mr_frame s b.pool reg size
          refine ⟨?_, ?_, ?_, ?_⟩
          · exact txFrame_trans (txq_mp2mr_txFrame s b.pool reg size)
              (txFrame_trans
                ⟨rfl, rfl, rfl, rfl, rfl, rfl, rfl, rfl, rfl, rfl, rfl, rfl, rfl, rfl, rfl⟩
                f1)
          · intro e he
            rw [f2 e he]
            show upd (txq_mp2mr s b.pool reg size).2.bufs cur _ e = s.bufs e
            rw [upd_other _ _ _ _ he, hb]
          · rw [f3]
            show (upd (txq_mp2mr s b.pool reg size).2.bufs cur
              (((txq_mp2mr s b.pool reg size).2.bufs cur).set k (some b)) cur).length = _
            rw [upd_same, List.length_set, hb]
          · intro h
            exact f4 (fun e he => txq_mp2mr_cacheOk s b.pool reg size hrg h e he)

/-- The SGE loop drops any chain that is too long or holds an
unregistrable segment: the packet cannot fit `MLX4_PMD_SGE_WR_N = 4`
SGEs, or `txq_mp2mr` returns the sentinel. -/
theorem segLoop_drops (reg : Nat → Option MrReg) (size : Nat → Nat) (cur : Nat)
    (hrg : RegOk reg) (p : List Seg) :
    ∀ (k sent : Nat) (first : Bool) (s : TxState),
    CacheOk reg s →
    (∀ b ∈ p, 1 ≤ b.data_len) →
    k ≤ 4 →
    ¬(k + p.length ≤ 4 ∧ ∀ b ∈ p, (reg b.pool).isSome = true) →
    (segLoop reg size cur p first k sent s).2.2.2 = true := by
  induction p with
  | nil =>
    intro k sent first s _ _ hk4 hbad
    exact absurd ⟨by simpa using hk4, by simp⟩ hbad
  | cons b p ih =>
    intro k sent first s hco hwf hk4 hbad
    simp only [segLoop]
    by_cases hk : k = 4
    · rw [if_pos hk]
    · rw [if_neg hk]
      cases hr : reg b.pool with
      | none =>
        rw [if_pos (txq_mp2mr_fails s b.pool reg size hco hr).1]
      | some r =>
        have hres := txq_mp2mr_resolves s b.pool reg size hrg hco (by rw [hr]; rfl)
        rw [if_neg hres.1]
        have hd0 : ¬(b.data_len = 0 ∧ first = false) := fun h => by
          have := hwf b (List.mem_cons_self b p); omega
        rw [if_neg hd0]
        refine ih (k + 1) (sent + b.data_len) false _ ?_ (fun c hc => hwf c (List.mem_cons_of_mem b hc)) (by omega) ?_
        · intro e he; exact hres.2 e he
        · intro ⟨hl, hall⟩
          refine hbad ⟨by simp only [List.length_cons]; omega, ?_⟩
          intro c hc
          rcases List.mem_cons.mp hc with hc | hc
          · rw [hc, hr]; rfl
          · exact hall c hc

/-- A packet `mlx4_tx_burst` sends intact: a non-empty chain of at most
`MLX4_PMD_SGE_WR_N = 4` non-empty segments whose pools all register. -/
def goodPkt (reg : Nat → Option MrReg) (p : Pkt) : Prop :=
  p ≠ [] ∧ p.length ≤ 4 ∧ ∀ b ∈ p, 1 ≤ b.data_len ∧ (reg b.pool).isSome = true

/-- Total `data_len` of a packet (its `pkt_len` for a well-formed mbuf
chain). -/
def sumPkt (p : Pkt) : Nat := (p.map Seg.data_len).sum

/-- The packet loop of `mlx4_tx_burst`. -/
def txLoop (reg : Nat → Option MrReg) (size : Nat → Nat) (n : Nat)
    (pkts : List Pkt) (L : LoopSt) : LoopSt :=
  pkts.foldl (txStep reg size n) L

/-- One good packet through the packet loop: slot `L.cur` is filled and
linked, no drop, cursor advances. -/
theorem txStep_good (reg : Nat → Option MrReg) (size : Nat → Nat) (n : Nat)
    (L : LoopSt) (p : Pkt) (hrg : RegOk reg) (hco : CacheOk reg L.s)
    (hp : goodPkt reg p) :
    (txStep reg size n L p).cur = (if L.cur + 1 = n then 0 else L.cur + 1) ∧
    (L.wrNext = none → (txStep reg size n L p).headSlot = some L.cur) ∧
    (∀ t, L.wrNext = some t → (txStep reg size n L p).headSlot = L.headSlot) ∧
    (txStep reg size n L p).wrNext = some L.cur ∧
    (txStep reg size n L p).elt_prev = some L.cur ∧
    (txStep reg size n L p).dropped = L.dropped ∧
    (txStep reg size n L p).s.elts_n = L.s.elts_n ∧
    (txStep reg size n L p).s.elts_cur = L.s.elts_cur ∧
    (txStep reg size n L p).s.elts_used = L.s.elts_used ∧
    (txStep reg size n L p).s.elts_free = L.s.elts_free ∧
    (txStep reg size n L p).s.elts_comp = L.s.elts_comp ∧
    (txStep reg size n L p).s.lost_comp = L.s.lost_comp ∧
    (txStep reg size n L p).s.freed = L.s.freed ∧
    (txStep reg size n L p).s.posted = L.s.posted ∧
    (txStep reg size n L p).s.odropped = L.s.odropped ∧
    (txStep reg size n L p).s.opackets = L.s.opackets + 1 ∧
    (txStep reg size n L p).s.obytes = L.s.obytes + sumPkt p ∧
    (txStep reg size n L p).s.comp = upd L.s.comp L.cur L.elt_prev ∧
    (L.wrNext = none → (txStep reg size n L p).s.next = L.s.next) ∧
    (∀ t, L.wrNext = some t →
      (txStep reg size n L p).s.next = upd L.s.next t (some L.cur)) ∧
    (txStep reg size n L p).s.sg = upd L.s.sg L.cur p.length ∧
    (txStep reg size n L p).s.bufs
      = upd L.s.bufs L.cur (writeAt (L.s.bufs L.cur) 0 p) ∧
    CacheOk reg (txStep reg size n L p).s := by
  obtain ⟨hne, hlen, hsegs⟩ := hp
  unfold txStep
  cases hw : L.wrNext with
  | none =>
    dsimp only
    obtain ⟨i1, i2, i3, i4, i5, i6⟩ :=
      segLoop_good reg size L.cur hrg p 0 0 true
        { L.s with
          sig := upd L.s.sig L.cur false
          comp := upd L.s.comp L.cur L.elt_prev }
        (fun e he => hco e he) hsegs (by simpa using hlen)
    obtain ⟨f1, f2, f3, f4, f5, f6, f7, f8, f9, f10, f11, f12, f13, f14, f15⟩ := i6
    simp only [i3, Bool.false_eq_true, if_false]
    refine ⟨?_, ?_, ?_, ?_, ?_, ?_, ?_, ?_, ?_, ?_, ?_, ?_, ?_, ?_, ?_, ?_, ?_, ?_,
      ?_, ?_, ?_, ?_, ?_⟩
    · trivial
    · trivial
    · intro t h; cases h
    · trivial
    · trivial
    · trivial
    · exact f1
    · exact f2
    · exact f3
    · exact f4
    · exact f5
    · exact f10
    · exact f11
    · exact f12
    · exact f15
    · rw [f13]
    · simp only [f14, i2, sumPkt, Nat.zero_add]
    · rw [f6]
    · intro h; rw [f7]
    · intro t h; cases h
    · rw [f8, i1, Nat.zero_add]
    · rw [i4]
    · exact fun e he => i5 e he
  | some t0 =>
    dsimp only
    obtain ⟨i1, i2, i3, i4, i5, i6⟩ :=
      segLoop_good reg size L.cur hrg p 0 0 true
        { L.s with
          next := upd L.s.next t0 (some L.cur)
          sig := upd L.s.sig L.cur false
          comp := upd L.s.comp L.cur L.elt_prev }
        (fun e he => hco e he) hsegs (by simpa using hlen)
    obtain ⟨f1, f2, f3, f4, f5, f6, f7, f8, f9, f10, f11, f12, f13, f14, f15⟩ := i6
    simp only [i3, Bool.false_eq_true, if_false]
    refine ⟨?_, ?_, ?_, ?_, ?_, ?_, ?_, ?_, ?_, ?_, ?_, ?_, ?_, ?_, ?_, ?_, ?_, ?_,
      ?_, ?_, ?_, ?_, ?_⟩
    · trivial
    · intro h; cases h
    · intro t h; trivial
    · trivial
    · trivial
    · trivial
    · exact f1
    · exact f2
    · exact f3
    · exact f4
    · exact f5
    · exact f10
    · exact f11
    · exact f12
    · exact f15
    · rw [f13]
    · simp only [f14, i2, sumPkt, Nat.zero_add]
    · rw [f6]
    · intro h; cases h
    · intro t h; cases h; rw [f7]
    · rw [f8, i1, Nat.zero_add]
    · rw [i4]
    · exact fun e he => i5 e he

/-- The packet loop of `mlx4_tx_burst` over a list of good packets, no
ring wrap: packet `j` lands in slot `L.cur + j` with its segments, SGE
count and batch `comp` link; the WR chain links slot `i` to `i + 1`; no
drops, no frees, counters untouched. -/
theorem txLoopGood_run (reg : Nat → Option MrReg) (size : Nat → Nat) (n : Nat)
    (hrg : RegOk reg) (pkts : List Pkt) :
    ∀ L : LoopSt,
    CacheOk reg L.s →
    (∀ p ∈ pkts, goodPkt reg p) →
    L.cur + pkts.length < n →
    (∀ t, L.wrNext = some t → t < L.cur) →
    (txLoop reg size n pkts L).cur = L.cur + pkts.length ∧
    (txLoop reg size n pkts L).dropped = L.dropped ∧
    (L.wrNext = none → ¬(pkts = []) →
      (txLoop reg size n pkts L).headSlot = some L.cur) ∧
    (∀ t, L.wrNext = some t →
      (txLoop reg size n pkts L).headSlot = L.headSlot) ∧
    (¬(pkts = []) →
      (txLoop reg size n pkts L).wrNext = some (L.cur + (pkts.length - 1))) ∧
    (¬(pkts = []) →
      (txLoop reg size n pkts L).elt_prev = some (L.cur + (pkts.length - 1))) ∧
    (txLoop reg size n pkts L).s.elts_n = L.s.elts_n ∧
    (txLoop reg size n pkts L).s.elts_cur = L.s.elts_cur ∧
    (txLoop reg size n pkts L).s.elts_used = L.s.elts_used ∧
    (txLoop reg size n pkts L).s.elts_free = L.s.elts_free ∧
    (txLoop reg size n pkts L).s.elts_comp = L.s.elts_comp ∧
    (txLoop reg size n pkts L).s.lost_comp = L.s.lost_comp ∧
    (txLoop reg size n pkts L).s.freed = L.s.freed ∧
    (txLoop reg size n pkts L).s.posted = L.s.posted ∧
    (txLoop reg size n pkts L).s.odropped = L.s.odropped ∧
    (txLoop reg size n pkts L).s.opackets = L.s.opackets + pkts.length ∧
    (txLoop reg size n pkts L).s.obytes = L.s.obytes + (pkts.map sumPkt).sum ∧
    (∀ j, j < pkts.length →
      (txLoop reg size n pkts L).s.comp (L.cur + j)
        = if j = 0 then L.elt_prev else some (L.cur + j - 1)) ∧
    (∀ e, e < L.cur →
      (txLoop reg size n pkts L).s.comp e = L.s.comp e) ∧
    (∀ j, j + 1 < pkts.length →
      (txLoop reg size n pkts L).s.next (L.cur + j) = some (L.cur + j + 1)) ∧
    (∀ t, L.wrNext = some t → ¬(pkts = []) →
      (txLoop reg size n pkts L).s.next t = some L.cur) ∧
    (∀ e, e < L.cur → (∀ t, L.wrNext = some t → ¬(e = t)) →
      (txLoop reg size n pkts L).s.next e = L.s.next e) ∧
    (∀ j, j < pkts.length →
      (txLoop reg size n pkts L).s.sg (L.cur + j) = (pkts.getD j []).length) ∧
    (∀ e, e < L.cur →
      (txLoop reg size n pkts L).s.sg e = L.s.sg e) ∧
    (∀ j, j < pkts.length →
      (txLoop reg size n pkts L).s.bufs (L.cur + j)
        = writeAt (L.s.bufs (L.cur + j)) 0 (pkts.getD j [])) ∧
    (∀ e, e < L.cur →
      (txLoop reg size n pkts L).s.bufs e = L.s.bufs e) ∧
    CacheOk reg (txLoop reg size n pkts L).s := by
  induction pkts with
  | nil =>
    intro L hco _ _ _
    refine ⟨rfl, rfl, fun _ h => absurd rfl h, fun _ _ => rfl, fun h => absurd rfl h,
      fun h => absurd rfl h, rfl, rfl, rfl, rfl, rfl, rfl, rfl, rfl, rfl, rfl, rfl,
      ?_, fun _ _ => rfl, ?_, fun _ _ h => absurd rfl h, fun _ _ _ => rfl,
      ?_, fun _ _ => rfl, ?_, fun _ _ => rfl, hco⟩
    · intro j hj; simp only [List.length_nil] at hj; omega
    · intro j hj; simp only [List.length_nil] at hj; omega
    · intro j hj; simp only [List.length_nil] at hj; omega
    · intro j hj; simp only [List.length_nil] at hj; omega
  | cons p rest ih =>
    intro L hco hall hfit hwn
    obtain ⟨g1, g2, g3, g4, g5, g6, g7, g8, g9, g10, g11, g12, g13, g14, g15, g16,
      g17, g18, g19, g20, g21, g22, g23⟩ :=
      txStep_good reg size n L p hrg hco (hall p (List.mem_cons_self p rest))
    have hcur1 : (txStep reg size n L p).cur = L.cur + 1 := by
      rw [g1, if_neg]
      simp only [List.length_cons] at hfit; omega
    obtain ⟨j1, j2, j3, j4, j5, j6, j7, j8, j9, j10, j11, j12, j13, j14, j15, j16,
      j17, j18, j19, j20, j21, j22, j23, j24, j25, j26, j27⟩ :=
      ih (txStep reg size n L p) g23
        (fun q hq => hall q (List.mem_cons_of_mem p hq))
        (by rw [hcur1]; simp only [List.length_cons] at hfit; omega)
        (by intro t ht; rw [g4] at ht; cases ht; rw [hcur1]; omega)
    have hstep : txLoop reg size n (p :: rest) L
        = txLoop reg size n rest (txStep reg size n L p) := rfl
    simp only [hstep]
    refine ⟨?_, ?_, ?_, ?_, ?_, ?_, ?_, ?_, ?_, ?_, ?_, ?_, ?_, ?_, ?_, ?_, ?_,
      ?_, ?_, ?_, ?_, ?_, ?_, ?_, ?_, ?_, j27⟩
    · rw [j1, hcur1]; simp only [List.length_cons]; omega
    · rw [j2, g6]
    · intro hw _; rw [j4 L.cur g4, g2 hw]
    · intro t hw; rw [j4 L.cur g4, g3 t hw]
    · intro _
      by_cases hrr : rest = []
      · subst hrr
        simp only [txLoop, List.foldl_nil]
        rw [g4]
        exact congrArg some (by simp only [List.length_cons, List.length_nil]; omega)
      · rw [j5 hrr, hcur1]
        have h1 : 0 < rest.length := List.length_pos.mpr hrr
        exact congrArg some (by simp only [List.length_cons]; omega)
    · intro _
      by_cases hrr : rest = []
      · subst hrr
        simp only [txLoop, List.foldl_nil]
        rw [g5]
        exact congrArg some (by simp only [List.length_cons, List.length_nil]; omega)
      · rw [j6 hrr, hcur1]
        have h1 : 0 < rest.length := List.length_pos.mpr hrr
        exact congrArg some (by simp only [List.length_cons]; omega)
    · rw [j7, g7]
    · rw [j8, g8]
    · rw [j9, g9]
    · rw [j10, g10]
    · rw [j11, g11]
    · rw [j12, g12]
    · rw [j13, g13]
    · rw [j14, g14]
    · rw [j15, g15]
    · rw [j16, g16]; simp only [List.length_cons]; omega
    · rw [j17, g17]; simp only [List.map_cons, List.sum_cons]; omega
    · intro j hj
      cases j with
      | zero =>
        rw [if_pos rfl]
        simp only [Nat.add_zero]
        rw [j19 L.cur (by rw [hcur1]; omega), g18, upd_same]
      | succ j' =>
        have hj' : j' < rest.length := by simp only [List.length_cons] at hj; omega
        have hthis := j18 j' hj'
        rw [hcur1] at hthis
        rw [show L.cur + 1 + j' = L.cur + (j' + 1) from by omega] at hthis
        rw [if_neg (Nat.succ_ne_zero j'), hthis]
        by_cases hj0 : j' = 0
        · rw [if_pos hj0, g5, hj0]
          exact congrArg some (by omega)
        · rw [if_neg hj0]
    · intro e he
      rw [j19 e (by rw [hcur1]; omega), g18, upd_other _ _ _ _ (by omega)]
    · intro j hj
      cases j with
      | zero =>
        have hrr : ¬(rest = []) := by
          intro h; subst h; simp only [List.length_cons, List.length_nil] at hj; omega
        have hthis := j21 L.cur g4 hrr
        rw [hcur1] at hthis
        simp only [Nat.add_zero]
        exact hthis
      | succ j' =>
        have hj' : j' + 1 < rest.length := by simp only [List.length_cons] at hj; omega
        have hthis := j20 j' hj'
        rw [hcur1] at hthis
        rw [show L.cur + 1 + j' = L.cur + (j' + 1) from by omega] at hthis
        exact hthis
    · intro t hw hne'
      have htlt := hwn t hw
      rw [j22 t (by rw [hcur1]; omega)
        (fun t' ht' => by rw [g4] at ht'; cases ht'; omega)]
      rw [g20 t hw, upd_same]
    · intro e he het
      rw [j22 e (by rw [hcur1]; omega)
        (fun t' ht' => by rw [g4] at ht'; cases ht'; omega)]
      cases hw : L.wrNext with
      | none => rw [g19 hw]
      | some t => rw [g20 t hw, upd_other _ _ _ _ (het t hw)]
    · intro j hj
      cases j with
      | zero =>
        simp only [Nat.add_zero, List.getD_cons_zero]
        rw [j24 L.cur (by rw [hcur1]; omega), g21, upd_same]
      | succ j' =>
        have hj' : j' < rest.length := by simp only [List.length_cons] at hj; omega
        have hthis := j23 j' hj'
        rw [hcur1] at hthis
        rw [show L.cur + 1 + j' = L.cur + (j' + 1) from by omega] at hthis
        simp only [List.getD_cons_succ]
        exact hthis
    · intro e he
      rw [j24 e (by rw [hcur1]; omega), g21, upd_other _ _ _ _ (by omega)]
    · intro j hj
      cases j with
      | zero =>
        simp only [Nat.add_zero, List.getD_cons_zero]
        rw [j26 L.cur (by rw [hcur1]; omega), g22, upd_same]
      | succ j' =>
        have hj' : j' < rest.length := by simp only [List.length_cons] at hj; omega
        have hthis := j25 j' hj'
        rw [hcur1] at hthis
        rw [show L.cur + 1 + j' = L.cur + (j' + 1) from by omega] at hthis
        rw [g22] at hthis
        rw [upd_other _ _ _ _ (by omega : ¬(L.cur + (j' + 1) = L.cur))] at hthis
        simp only [List.getD_cons_succ]
        exact hthis
    · intro e he
      rw [j26 e (by rw [hcur1]; omega), g22, upd_other _ _ _ _ (by omega)]

/-- A forward `wr.next` walk over consecutively linked slots
`a, a+1, ..., a+len-1` ending in NULL. -/
theorem optChain_range (nx : Nat → Option Nat) :
    ∀ (len a fuel : Nat),
    (∀ i, a ≤ i → i + 1 < a + len → nx i = some (i + 1)) →
    nx (a + len - 1) = none →
    1 ≤ len → len ≤ fuel + 1 →
    optChain nx fuel (some a) = List.range' a len := by
  intro len
  induction len with
  | zero => intro a fuel _ _ h1 _; omega
  | succ l ihl =>
    intro a fuel hmid hend h1 hfuel
    cases l with
    | zero =>
      have hnone : nx a = none := by
        have : a + 1 - 1 = a := by omega
        rw [this] at hend; exact hend
      cases fuel with
      | zero => simp [optChain, List.range']
      | succ f => simp [optChain, hnone, List.range']
    | succ l' =>
      cases fuel with
      | zero => omega
      | succ f =>
        have hstep : nx a = some (a + 1) := hmid a (Nat.le_refl a) (by omega)
        have htail : optChain nx f (some (a + 1)) = List.range' (a + 1) (l' + 1) := by
          refine ihl (a + 1) f ?_ ?_ (by omega) (by omega)
          · intro i hi1 hi2; exact hmid i (by omega) (by omega)
          · have : a + 1 + (l' + 1) - 1 = a + (l' + 1 + 1) - 1 := by omega
            rw [this]; exact hend
        show a :: optChain nx f (nx a) = _
        rw [hstep, htail]
        conv_rhs => rw [List.range'_succ]

/-- A backward `comp` walk from slot `h` down to slot 0:
`[h, h-1, ..., 0]`, and the walk terminates. -/
theorem optChain_rev_range (cmp : Nat → Option Nat) :
    ∀ (h fuel : Nat),
    (∀ j, 1 ≤ j → j ≤ h → cmp j = some (j - 1)) →
    cmp 0 = none →
    h + 1 ≤ fuel →
    optChain cmp fuel (some h) = (List.range (h + 1)).reverse ∧
    chainEndsB cmp fuel (some h) = true := by
  intro h
  induction h with
  | zero =>
    intro fuel _ h0 hfuel
    cases fuel with
    | zero => omega
    | succ f => simp [optChain, chainEndsB, h0, List.range_succ]
  | succ h' ihh =>
    intro fuel hdown h0 hfuel
    cases fuel with
    | zero => omega
    | succ f =>
      have hstep : cmp (h' + 1) = some h' := by
        have := hdown (h' + 1) (by omega) (Nat.le_refl _)
        simpa using this
      obtain ⟨ih1, ih2⟩ := ihh f (fun j hj1 hj2 => hdown j hj1 (by omega)) h0 (by omega)
      constructor
      · show (h' + 1) :: optChain cmp f (cmp (h' + 1)) = _
        rw [hstep, ih1]
        simp [List.range_succ]
      · show chainEndsB cmp f (cmp (h' + 1)) = true
        rw [hstep]; exact ih2

/-- The rollback walk over a cleanly batch-chained prefix
`k → k-1 → ... → 0`: it counts exactly `k` accepted slots, none of them
dropped, and stops at slot 0. -/
theorem rewindWalk_range (cmp : Nat → Option Nat) (sg : Nat → Nat) :
    ∀ (k fuel : Nat),
    (∀ j, 1 ≤ j → j ≤ k → cmp j = some (j - 1)) →
    cmp 0 = none →
    (∀ j, j ≤ k → 1 ≤ sg j) →
    k ≤ fuel →
    rewindWalk cmp sg fuel k = (k, 0, 0) := by
  intro k
  induction k with
  | zero =>
    intro fuel _ h0 _ _
    cases fuel with
    | zero => rfl
    | succ f => simp [rewindWalk, h0]
  | succ k' ihk =>
    intro fuel hdown h0 hsg hfuel
    cases fuel with
    | zero => omega
    | succ f =>
      have hstep : cmp (k' + 1) = some k' := by
        have := hdown (k' + 1) (by omega) (Nat.le_refl _)
        simpa using this
      have hrec := ihk f (fun j hj1 hj2 => hdown j hj1 (by omega)) h0
        (fun j hj => hsg j (by omega)) (by omega)
      have hsg1 : ¬(sg (k' + 1) = 0) := by
        have := hsg (k' + 1) (Nat.le_refl _); omega
      show (match cmp (k' + 1) with
        | none => (0, 0, k' + 1)
        | some e2 =>
          let r := rewindWalk cmp sg f e2
          (r.1 + 1, r.2.1 + (if sg (k' + 1) = 0 then 1 else 0), r.2.2)) = _
      rw [hstep]
      simp only [hrec, if_neg hsg1]

theorem writeAt_length :
    ∀ (p : List Seg) (l : List (Option Seg)) (k : Nat),
    (writeAt l k p).length = l.length := by
  intro p
  induction p with
  | nil => intro l k; rfl
  | cons b p ih =>
    intro l k
    show (writeAt (l.set k (some b)) (k + 1) p).length = l.length
    rw [ih, List.length_set]

/-- Effect of the SGE stores on a `bufs[]` array: positions
`k .. k + p.length - 1` now hold the packet's segments. -/
theorem writeAt_spec :
    ∀ (p : List Seg) (l : List (Option Seg)) (k : Nat),
    k + p.length ≤ l.length →
    writeAt l k p = l.take k ++ p.map some ++ l.drop (k + p.length) := by
  intro p
  induction p with
  | nil =>
    intro l k hk
    show l = l.take k ++ [] ++ l.drop (k + 0)
    simp
  | cons b p ih =>
    intro l k hk
    have hklt : k < l.length := by simp only [List.length_cons] at hk; omega
    show writeAt (l.set k (some b)) (k + 1) p = _
    rw [ih (l.set k (some b)) (k + 1)
      (by rw [List.length_set]; simp only [List.length_cons] at hk; omega)]
    rw [List.set_eq_take_append_cons_drop, if_pos hklt]
    have hlen : (l.take k).length = k := List.length_take_of_le (le_of_lt hklt)
    rw [show k + 1 = (l.take k).length + 1 from by rw [hlen]]
    rw [List.take_append]
    rw [show (l.take k).length + 1 + p.length = (l.take k).length + (1 + p.length)
      from by omega]
    rw [List.drop_append]
    simp only [List.take_succ_cons, List.take_zero]
    rw [show (1 : Nat) + p.length = p.length + 1 from Nat.add_comm 1 p.length]
    rw [List.drop_succ_cons, List.drop_drop, hlen]
    simp only [List.map_cons, List.cons_append, List.append_assoc, List.nil_append,
      List.length_cons]
    rw [show k + 1 + p.length = k + (p.length + 1) from by omega]

/-- Ids of the stored prefix of a slot whose `bufs[]` holds a packet's
segments followed by NULLs. -/
theorem bufIdsPrefix_pad :
    ∀ (p : List Seg) (r : Nat),
    bufIdsPrefix (p.map some ++ List.replicate r none) = p.map Seg.id := by
  intro p
  induction p with
  | nil =>
    intro r
    cases r with
    | zero => rfl
    | succ r' => simp [bufIdsPrefix, List.replicate_succ, List.takeWhile]
  | cons b p ih =>
    intro r
    have := ih r
    simp only [bufIdsPrefix] at this ⊢
    simp only [List.map_cons, List.cons_append, List.takeWhile_cons, Option.isSome_some,
      if_true, List.filterMap_cons]
    rw [this]
    rfl

/-- Reading the first `k` elements of a list through `getD` over
`List.range k`. -/
theorem getD_map_range {α : Type} :
    ∀ (k : Nat) (l : List α) (d : α), k ≤ l.length →
    (List.range k).map (fun j => l.getD j d) = l.take k := by
  intro k
  induction k with
  | zero => intro l d _; simp
  | succ k' ih =>
    intro l d hk
    rw [List.range_succ, List.map_append, ih l d (by omega)]
    have hklt : k' < l.length := by omega
    rw [List.take_succ]
    simp only [List.map_cons, List.map_nil]
    congr 1
    rw [List.getD_eq_getElem l d hklt]
    rw [List.getElem?_eq_getElem hklt]
    rfl

theorem optChain_none (cmp : Nat → Option Nat) (fuel : Nat) :
    optChain cmp fuel none = [] := by
  cases fuel <;> rfl

theorem chainEndsB_none (cmp : Nat → Option Nat) (fuel : Nat) :
    chainEndsB cmp fuel none = true := by
  cases fuel <;> rfl

/-- Storing a packet into a fresh (all-NULL) `bufs[]` array. -/
theorem writeAt_empty (p : List Seg) (hp : p.length ≤ 4) :
    writeAt emptyElt 0 p = p.map some ++ List.replicate (4 - p.length) none := by
  rw [writeAt_spec p emptyElt 0 (by simpa [emptyElt] using hp)]
  simp only [List.take_zero, List.nil_append, Nat.zero_add]
  congr 1
  have h4 : p.length = 0 ∨ p.length = 1 ∨ p.length = 2 ∨ p.length = 3 ∨ p.length = 4 := by
    omega
  rcases h4 with h | h | h | h | h <;> rw [h] <;> rfl

/-- `mlx4_tx_burst` on a fresh ring of `n` slots with `1 ≤ m < n` good
packets: every packet is accepted into slots `0..m-1`, the chain
`[0, ..., m-1]` is posted, and the outcome is fully determined by the
post result.  On `post` success the call returns `m` and charges the
counters; on a post failure at slot `k < m` it returns `k`, charges only
the `k` accepted slots, rolls the cursor back to `k`, and merges exactly
those `k` elements (slots `k-1 .. 0`) into the Lost-Completion List. -/
theorem txBurstGood_run (n : Nat) (pkts : List Pkt) (poll : Nat → PollRes)
    (post : List Nat → PostRes) (reg : Nat → Option MrReg) (size : Nat → Nat)
    (hrg : RegOk reg) (hgood : ∀ p ∈ pkts, goodPkt reg p)
    (hm1 : 1 ≤ pkts.length) (hmn : pkts.length < n) (hn32 : n < two32) :
    (post (List.range pkts.length) = PostRes.ok →
      (mlx4_tx_burst (txq_alloc_elts n) pkts poll post reg size).1 = pkts.length ∧
      (mlx4_tx_burst (txq_alloc_elts n) pkts poll post reg size).2.elts_n = n ∧
      (mlx4_tx_burst (txq_alloc_elts n) pkts poll post reg size).2.elts_used = pkts.length ∧
      (mlx4_tx_burst (txq_alloc_elts n) pkts poll post reg size).2.elts_free = n - pkts.length ∧
      (mlx4_tx_burst (txq_alloc_elts n) pkts poll post reg size).2.elts_cur = pkts.length ∧
      (mlx4_tx_burst (txq_alloc_elts n) pkts poll post reg size).2.elts_comp = 1 ∧
      (mlx4_tx_burst (txq_alloc_elts n) pkts poll post reg size).2.lost_comp = none ∧
      (mlx4_tx_burst (txq_alloc_elts n) pkts poll post reg size).2.freed = [] ∧
      (mlx4_tx_burst (txq_alloc_elts n) pkts poll post reg size).2.odropped = 0 ∧
      (mlx4_tx_burst (txq_alloc_elts n) pkts poll post reg size).2.posted
        = [List.range pkts.length]) ∧
    (∀ k, post (List.range pkts.length) = PostRes.fail k → k < pkts.length →
      (mlx4_tx_burst (txq_alloc_elts n) pkts poll post reg size).1 = k ∧
      (mlx4_tx_burst (txq_alloc_elts n) pkts poll post reg size).2.elts_n = n ∧
      (mlx4_tx_burst (txq_alloc_elts n) pkts poll post reg size).2.elts_used = k ∧
      (mlx4_tx_burst (txq_alloc_elts n) pkts poll post reg size).2.elts_free = n - k ∧
      (mlx4_tx_burst (txq_alloc_elts n) pkts poll post reg size).2.elts_cur = k ∧
      (mlx4_tx_burst (txq_alloc_elts n) pkts poll post reg size).2.elts_comp = 0 ∧
      (mlx4_tx_burst (txq_alloc_elts n) pkts poll post reg size).2.freed = [] ∧
      (mlx4_tx_burst (txq_alloc_elts n) pkts poll post reg size).2.odropped = 0 ∧
      (mlx4_tx_burst (txq_alloc_elts n) pkts poll post reg size).2.posted
        = [List.range pkts.length] ∧
      optChain (mlx4_tx_burst (txq_alloc_elts n) pkts poll post reg size).2.comp
        (mlx4_tx_burst (txq_alloc_elts n) pkts poll post reg size).2.elts_n
        (mlx4_tx_burst (txq_alloc_elts n) pkts poll post reg size).2.lost_comp
        = (List.range k).reverse ∧
      chainEndsB (mlx4_tx_burst (txq_alloc_elts n) pkts poll post reg size).2.comp
        (mlx4_tx_burst (txq_alloc_elts n) pkts poll post reg size).2.elts_n
        (mlx4_tx_burst (txq_alloc_elts n) pkts poll post reg size).2.lost_comp = true ∧
      (∀ j, j < k →
        (mlx4_tx_burst (txq_alloc_elts n) pkts poll post reg size).2.bufs j
          = (pkts.getD j []).map some
            ++ List.replicate (4 - (pkts.getD j []).length) none)) := by
  have hne : ¬(pkts = []) := by
    intro h; rw [h] at hm1; simp at hm1
  have hcomp0 : txq_complete (txq_alloc_elts n) poll = (0, txq_alloc_elts n) := by
    unfold txq_complete
    rw [if_pos (show (txq_alloc_elts n).elts_comp = 0 from rfl)]
  obtain ⟨j1, j2, j3, j4, j5, j6, j7, j8, j9, j10, j11, j12, j13, j14, j15, j16, j17,
    j18, j19, j20, j21, j22, j23, j24, j25, j26, j27⟩ :=
    txLoopGood_run reg size n hrg pkts ⟨txq_alloc_elts n, 0, none, none, none, 0⟩
      (fun e he => absurd he (List.not_mem_nil e))
      hgood (by simpa using hmn) (fun t ht => by cases ht)
  have hLcur : (txLoop reg size n pkts ⟨txq_alloc_elts n, 0, none, none, none, 0⟩).cur
      = pkts.length := by
    rw [j1]; exact Nat.zero_add _
  have hdrop0 : (txLoop reg size n pkts ⟨txq_alloc_elts n, 0, none, none, none, 0⟩).dropped
      = 0 := j2
  have hhead : (txLoop reg size n pkts ⟨txq_alloc_elts n, 0, none, none, none, 0⟩).headSlot
      = some 0 := j3 rfl hne
  have hwrn : (txLoop reg size n pkts ⟨txq_alloc_elts n, 0, none, none, none, 0⟩).wrNext
      = some (pkts.length - 1) := by
    rw [j5 hne]; exact congrArg some (Nat.zero_add _)
  have hen : (txLoop reg size n pkts ⟨txq_alloc_elts n, 0, none, none, none, 0⟩).s.elts_n
      = n := j7
  have hused : (txLoop reg size n pkts ⟨txq_alloc_elts n, 0, none, none, none, 0⟩).s.elts_used
      = 0 := j9
  have hfree2 : (txLoop reg size n pkts ⟨txq_alloc_elts n, 0, none, none, none, 0⟩).s.elts_free
      = n := j10
  have hcompc : (txLoop reg size n pkts ⟨txq_alloc_elts n, 0, none, none, none, 0⟩).s.elts_comp
      = 0 := j11
  have hlost : (txLoop reg size n pkts ⟨txq_alloc_elts n, 0, none, none, none, 0⟩).s.lost_comp
      = none := j12
  have hfreed : (txLoop reg size n pkts ⟨txq_alloc_elts n, 0, none, none, none, 0⟩).s.freed
      = [] := j13
  have hposted : (txLoop reg size n pkts ⟨txq_alloc_elts n, 0, none, none, none, 0⟩).s.posted
      = [] := j14
  have hodr : (txLoop reg size n pkts ⟨txq_alloc_elts n, 0, none, none, none, 0⟩).s.odropped
      = 0 := j15
  have hcompF : ∀ j, j < pkts.length →
      (txLoop reg size n pkts ⟨txq_alloc_elts n, 0, none, none, none, 0⟩).s.comp j
        = if j = 0 then none else some (j - 1) := by
    intro j hj
    have hx := j18 j hj
    simp only [Nat.zero_add] at hx
    exact hx
  have hnextF : ∀ j, j + 1 < pkts.length →
      (txLoop reg size n pkts ⟨txq_alloc_elts n, 0, none, none, none, 0⟩).s.next j
        = some (j + 1) := by
    intro j hj
    have hx := j20 j hj
    simpa using hx
  have hsgF : ∀ j, j < pkts.length →
      (txLoop reg size n pkts ⟨txq_alloc_elts n, 0, none, none, none, 0⟩).s.sg j
        = (pkts.getD j []).length := by
    intro j hj
    have hx := j23 j hj
    simpa using hx
  have hmemD : ∀ j, j < pkts.length → pkts.getD j [] ∈ pkts := by
    intro j hj
    rw [List.getD_eq_getElem _ _ hj]
    exact List.getElem_mem hj
  have hbufF : ∀ j, j < pkts.length →
      (txLoop reg size n pkts ⟨txq_alloc_elts n, 0, none, none, none, 0⟩).s.bufs j
        = (pkts.getD j []).map some
          ++ List.replicate (4 - (pkts.getD j []).length) none := by
    intro j hj
    have hx := j25 j hj
    simp only [Nat.zero_add] at hx
    rw [hx]
    exact writeAt_empty _ (hgood _ (hmemD j hj)).2.1
  have hfree : (txq_alloc_elts n).elts_free = n := rfl
  have hn0 : ¬(n = 0) := by omega
  unfold mlx4_tx_burst
  rw [hcomp0]
  dsimp only
  rw [if_neg hne, hfree, if_neg hn0]
  rw [show min n pkts.length = pkts.length from Nat.min_eq_right (le_of_lt hmn)]
  rw [List.take_length]
  rw [show (txq_alloc_elts n).elts_n = n from rfl]
  rw [show (txq_alloc_elts n).elts_cur = 0 from rfl]
  rw [show pkts.foldl (txStep reg size n) ⟨txq_alloc_elts n, 0, none, none, none, 0⟩
      = txLoop reg size n pkts ⟨txq_alloc_elts n, 0, none, none, none, 0⟩ from rfl]
  rw [hdrop0]
  rw [if_neg (show ¬((0 : Nat) = pkts.length) from by omega)]
  rw [hwrn]
  dsimp only
  rw [hen, hhead]
  have hchain : optChain
      (upd (txLoop reg size n pkts ⟨txq_alloc_elts n, 0, none, none, none, 0⟩).s.next
        (pkts.length - 1) none) n (some 0)
      = List.range pkts.length := by
    rw [List.range_eq_range']
    refine optChain_range _ pkts.length 0 n ?_ ?_ hm1 (by omega)
    · intro i hi0 hi1
      rw [upd_other _ _ _ _ (by omega)]
      exact hnextF i (by omega)
    · rw [show 0 + pkts.length - 1 = pkts.length - 1 from by omega]
      exact upd_same _ _ _
  rw [hchain]
  refine ⟨?_, ?_⟩
  · intro hp
    rw [hp]
    dsimp only
    refine ⟨rfl, rfl, ?_, ?_, hLcur, ?_, hlost, hfreed, ?_, ?_⟩
    · rw [hused]; omega
    · rw [hfree2]; omega
    · rw [hcompc]
    · rw [hodr]
    · rw [hposted]; rfl
  · intro k hp hk
    rw [hp]
    dsimp only
    have hw : rewindWalk
        (txLoop reg size n pkts ⟨txq_alloc_elts n, 0, none, none, none, 0⟩).s.comp
        (txLoop reg size n pkts ⟨txq_alloc_elts n, 0, none, none, none, 0⟩).s.sg
        n k = (k, 0, 0) := by
      refine rewindWalk_range _ _ k n ?_ ?_ ?_ (by omega)
      · intro j hj1 hj2
        rw [hcompF j (by omega), if_neg (by omega)]
      · rw [hcompF 0 (by omega), if_pos rfl]
      · intro j hj
        rw [hsgF j (by omega)]
        exact List.length_pos.mpr (hgood _ (hmemD j (by omega))).1
    rw [hw]
    dsimp only
    have hcur2 : ((pkts.length + two32 - (pkts.length - k - 0)) % two32) % n = k := by
      rw [show pkts.length + two32 - (pkts.length - k - 0) = two32 + k from by omega]
      rw [Nat.add_mod_left]
      rw [Nat.mod_eq_of_lt (show k < two32 from by omega)]
      exact Nat.mod_eq_of_lt (by omega)
    rw [hLcur, hcur2]
    by_cases hk0 : k = 0
    · subst hk0
      have h0 : (txLoop reg size n pkts
          ⟨txq_alloc_elts n, 0, none, none, none, 0⟩).s.comp 0 = none := by
        rw [hcompF 0 (by omega)]; rfl
      rw [h0, if_neg (show ¬((none : Option Nat).isSome = true) from by simp)]
      refine ⟨rfl, rfl, ?_, ?_, rfl, hcompc, hfreed, ?_, ?_, ?_, ?_, fun j hj => by omega⟩
      · rw [hused]
      · rw [hfree2]
      · rw [hodr]
      · rw [hposted]; rfl
      · rw [hlost, optChain_none]; simp
      · rw [hlost, chainEndsB_none]
    · have hck : (txLoop reg size n pkts
          ⟨txq_alloc_elts n, 0, none, none, none, 0⟩).s.comp k = some (k - 1) := by
        rw [hcompF k (by omega), if_neg hk0]
      rw [hck, if_pos (show ((some (k - 1) : Option Nat).isSome = true) from rfl)]
      rw [hlost]
      have hlostv : upd (txLoop reg size n pkts
          ⟨txq_alloc_elts n, 0, none, none, none, 0⟩).s.comp 0 none k = some (k - 1) := by
        rw [upd_other _ _ _ _ hk0]; exact hck
      rw [hlostv]
      obtain ⟨hc1, hc2⟩ := optChain_rev_range
        (upd (txLoop reg size n pkts
          ⟨txq_alloc_elts n, 0, none, none, none, 0⟩).s.comp 0 none)
        (k - 1) n
        (fun j hj1 hj2 => by
          rw [upd_other _ _ _ _ (by omega), hcompF j (by omega), if_neg (by omega)])
        (upd_same _ _ _)
        (by omega)
      refine ⟨rfl, rfl, ?_, ?_, rfl, hcompc, hfreed, ?_, ?_, ?_, ?_, ?_⟩
      · rw [hused]; omega
      · rw [hfree2]; omega
      · rw [hodr]
      · rw [hposted]; rfl
      · rw [hc1, show k - 1 + 1 = k from by omega]
      · rw [hc2]
      · intro j hj
        exact hbufF j (by omega)

/-- C2 (amended).  Partial-post rollback on a fresh ring: when the post
accepts exactly `k` of the `m` chained slots and fails, the call returns
`k`, `elts_used` increases by exactly `k` (`elts_free` drops by `k`), the
cursor is rolled back to cover only the `k` accepted slots, and the
Lost-Completion List receives exactly the `k` accepted elements — slots
`k-1 .. 0` holding the accepted packets' buffers (not `m - k` elements,
as the spec claims; see the counterexample) — and the next
completion-processing pass drains that list in full, freeing every
buffer on it. -/
theorem c2_partial_post_rollback (n k : Nat) (pkts : List Pkt)
    (poll : Nat → PollRes) (post : List Nat → PostRes) (reg : Nat → Option MrReg)
    (size : Nat → Nat)
    (hrg : RegOk reg) (hgood : ∀ p ∈ pkts, goodPkt reg p)
    (hm1 : 1 ≤ pkts.length) (hmn : pkts.length < n) (hn32 : n < two32)
    (hpost : post (List.range pkts.length) = PostRes.fail k) (hk : k < pkts.length) :
    (mlx4_tx_burst (txq_alloc_elts n) pkts poll post reg size).1 = k ∧
    (mlx4_tx_burst (txq_alloc_elts n) pkts poll post reg size).2.elts_used = k ∧
    (mlx4_tx_burst (txq_alloc_elts n) pkts poll post reg size).2.elts_free = n - k ∧
    (mlx4_tx_burst (txq_alloc_elts n) pkts poll post reg size).2.elts_cur = k ∧
    (mlx4_tx_burst (txq_alloc_elts n) pkts poll post reg size).2.posted
      = [List.range pkts.length] ∧
    lostChain (mlx4_tx_burst (txq_alloc_elts n) pkts poll post reg size).2
      = (List.range k).reverse ∧
    lostChainBufs (mlx4_tx_burst (txq_alloc_elts n) pkts poll post reg size).2
      = ((pkts.take k).map (fun p => p.map Seg.id)).reverse.flatten ∧
    (drainLost (mlx4_tx_burst (txq_alloc_elts n) pkts poll post reg size).2.elts_n
      (mlx4_tx_burst (txq_alloc_elts n) pkts poll post reg size).2).lost_comp = none ∧
    (drainLost (mlx4_tx_burst (txq_alloc_elts n) pkts poll post reg size).2.elts_n
      (mlx4_tx_burst (txq_alloc_elts n) pkts poll post reg size).2).freed
      = (mlx4_tx_burst (txq_alloc_elts n) pkts poll post reg size).2.freed
        ++ lostChainBufs (mlx4_tx_burst (txq_alloc_elts n) pkts poll post reg size).2 := by
  obtain ⟨_, hfail⟩ :=
    txBurstGood_run n pkts poll post reg size hrg hgood hm1 hmn hn32
  obtain ⟨h1, h2, h3, h4, h5, h6, h7, h8, h9, h10, h11, h12⟩ := hfail k hpost hk
  have hchainC : lostChain (mlx4_tx_burst (txq_alloc_elts n) pkts poll post reg size).2
      = (List.range k).reverse := h10
  have hLCB : lostChainBufs (mlx4_tx_burst (txq_alloc_elts n) pkts poll post reg size).2
      = ((pkts.take k).map (fun p => p.map Seg.id)).reverse.flatten := by
    unfold lostChainBufs
    rw [h10, List.map_reverse]
    congr 1
    rw [← getD_map_range k pkts [] (le_of_lt hk), List.map_map]
    congr 1
    apply List.map_congr_left
    intro j hj
    have hjk : j < k := List.mem_range.mp hj
    show bufIdsPrefix
      ((mlx4_tx_burst (txq_alloc_elts n) pkts poll post reg size).2.bufs j) = _
    rw [h12 j hjk]
    exact bufIdsPrefix_pad _ _
  have hnd : ((List.range k).reverse : List Nat).Nodup := by
    rw [List.nodup_reverse]; exact List.nodup_range k
  have hds := drainLost_spec
    (mlx4_tx_burst (txq_alloc_elts n) pkts poll post reg size).2.elts_n
    (mlx4_tx_burst (txq_alloc_elts n) pkts poll post reg size).2 h11
  refine ⟨h1, h3, h4, h5, h9, hchainC, hLCB, ?_, ?_⟩
  · rw [hds, with_lost_lost]
  · rw [hds, with_lost_freed, h10, foldFree_freed _ _ hnd]
    congr 1
    unfold lostChainBufs
    rw [h10]

/-- Witness for the C2 rollback theorem: a fresh 4-slot ring, three good
single-segment packets, post failure at slot 1. -/
theorem c2_partial_post_rollback_witness :
    (mlx4_tx_burst (txq_alloc_elts 4)
      [[⟨31, 9, 5, 5⟩], [⟨32, 9, 5, 5⟩], [⟨33, 9, 5, 5⟩]]
      pollEmpty (fun _ => PostRes.fail 1)
      (fun _ => some ⟨700, 800⟩) (fun _ => 4096)).1 = 1 :=
  (c2_partial_post_rollback 4 1
    [[⟨31, 9, 5, 5⟩], [⟨32, 9, 5, 5⟩], [⟨33, 9, 5, 5⟩]]
    pollEmpty (fun _ => PostRes.fail 1) (fun _ => some ⟨700, 800⟩) (fun _ => 4096)
    (by intro pool r h; cases h; decide)
    (by simp only [goodPkt]; decide) (by decide) (by decide) (by decide) rfl
    (by decide)).1

/-- C5.  Capacity and return value of `mlx4_tx_burst`: an empty burst
returns 0 with nothing posted; a full ring (`elts_free == 0` after the
initial completion pass) returns 0 with nothing posted; on a fresh ring
with good packets the call processes `max = min(elts_free, pkts_n)`
packets and returns that count on post success, and after a post failure
it returns the recomputed accepted count `k` — never the requested
count. -/
theorem c5_capacity_and_return :
    (∀ (s : TxState) (poll : Nat → PollRes) (post : List Nat → PostRes)
      (reg : Nat → Option MrReg) (size : Nat → Nat),
      (mlx4_tx_burst s [] poll post reg size).1 = 0 ∧
      (mlx4_tx_burst s [] poll post reg size).2.posted
        = (txq_complete s poll).2.posted) ∧
    (∀ (s : TxState) (pkts : List Pkt) (poll : Nat → PollRes)
      (post : List Nat → PostRes) (reg : Nat → Option MrReg) (size : Nat → Nat),
      (txq_complete s poll).2.elts_free = 0 →
      (mlx4_tx_burst s pkts poll post reg size).1 = 0 ∧
      (mlx4_tx_burst s pkts poll post reg size).2.posted
        = (txq_complete s poll).2.posted) ∧
    (∀ (n : Nat) (pkts : List Pkt) (poll : Nat → PollRes)
      (post : List Nat → PostRes) (reg : Nat → Option MrReg) (size : Nat → Nat),
      RegOk reg → (∀ p ∈ pkts, goodPkt reg p) →
      1 ≤ pkts.length → pkts.length < n → n < two32 →
      post (List.range pkts.length) = PostRes.ok →
      (mlx4_tx_burst (txq_alloc_elts n) pkts poll post reg size).1
        = min (txq_alloc_elts n).elts_free pkts.length) ∧
    (∀ (n k : Nat) (pkts : List Pkt) (poll : Nat → PollRes)
      (post : List Nat → PostRes) (reg : Nat → Option MrReg) (size : Nat → Nat),
      RegOk reg → (∀ p ∈ pkts, goodPkt reg p) →
      1 ≤ pkts.length → pkts.length < n → n < two32 →
      post (List.range pkts.length) = PostRes.fail k → k < pkts.length →
      (mlx4_tx_burst (txq_alloc_elts n) pkts poll post reg size).1 = k ∧
      (mlx4_tx_burst (txq_alloc_elts n) pkts poll post reg size).1
        ≤ min (txq_alloc_elts n).elts_free pkts.length) := by
  refine ⟨?_, ?_, ?_, ?_⟩
  · intro s poll post reg size
    exact ⟨rfl, rfl⟩
  · intro s pkts poll post reg size hfree
    by_cases hp : pkts = []
    · subst hp; exact ⟨rfl, rfl⟩
    · unfold mlx4_tx_burst
      dsimp only
      rw [if_neg hp, if_pos hfree]
      exact ⟨rfl, rfl⟩
  · intro n pkts poll post reg size hrg hgood hm1 hmn hn32 hpost
    obtain ⟨hok, _⟩ :=
      txBurstGood_run n pkts poll post reg size hrg hgood hm1 hmn hn32
    rw [(hok hpost).1, show (txq_alloc_elts n).elts_free = n from rfl,
      Nat.min_eq_right (le_of_lt hmn)]
  · intro n k pkts poll post reg size hrg hgood hm1 hmn hn32 hpost hk
    obtain ⟨_, hfail⟩ :=
      txBurstGood_run n pkts poll post reg size hrg hgood hm1 hmn hn32
    obtain ⟨h1, _⟩ := hfail k hpost hk
    refine ⟨h1, ?_⟩
    rw [h1, show (txq_alloc_elts n).elts_free = n from rfl,
      Nat.min_eq_right (le_of_lt hmn)]
    omega

/-- Witness for the C5 capacity theorem: empty burst on a fresh 2-slot
ring returns 0; a 1-packet good burst on a fresh 3-slot ring with a
successful post returns `min(3, 1) = 1`. -/
theorem c5_capacity_and_return_witness :
    (mlx4_tx_burst (txq_alloc_elts 2) [] pollEmpty (fun _ => PostRes.ok)
      (fun _ => some ⟨700, 800⟩) (fun _ => 4096)).1 = 0 ∧
    (mlx4_tx_burst (txq_alloc_elts 3) [[⟨41, 9, 5, 5⟩]] pollEmpty
      (fun _ => PostRes.ok) (fun _ => some ⟨700, 800⟩) (fun _ => 4096)).1
      = min (txq_alloc_elts 3).elts_free 1 :=
  ⟨(c5_capacity_and_return.1 (txq_alloc_elts 2) pollEmpty (fun _ => PostRes.ok)
      (fun _ => some ⟨700, 800⟩) (fun _ => 4096)).1,
    c5_capacity_and_return.2.2.1 3 [[⟨41, 9, 5, 5⟩]] pollEmpty
      (fun _ => PostRes.ok) (fun _ => some ⟨700, 800⟩) (fun _ => 4096)
      (by intro pool r h; cases h; decide)
      (by simp only [goodPkt]; decide) (by decide) (by decide) (by decide) rfl⟩

/- ==========  Mixed bursts: per-packet drops  ========== -/

/-- A well-formed mbuf chain: non-empty, every segment non-empty. -/
def wfPkt (p : Pkt) : Prop := p ≠ [] ∧ ∀ b ∈ p, 1 ≤ b.data_len

/-- Decidable classification of a packet: fits the 4-SGE limit and every
segment's pool registers.  `goodB = false` is exactly the per-packet
drop condition of `mlx4_tx_burst`. -/
def goodB (reg : Nat → Option MrReg) (p : Pkt) : Bool :=
  decide (p.length ≤ 4) && p.all (fun b => (reg b.pool).isSome)

theorem goodB_goodPkt (reg : Nat → Option MrReg) (p : Pkt) (hwf : wfPkt p)
    (hg : goodB reg p = true) : goodPkt reg p := by
  simp only [goodB, Bool.and_eq_true, decide_eq_true_eq, List.all_eq_true] at hg
  exact ⟨hwf.1, hg.1, fun b hb => ⟨hwf.2 b hb, hg.2 b hb⟩⟩

/-- One dropped packet through the packet loop: the whole chain is freed,
`num_sge` is zeroed, the cursor does not advance, `dropped` is bumped. -/
theorem txStep_bad (reg : Nat → Option MrReg) (size : Nat → Nat) (n : Nat)
    (L : LoopSt) (p : Pkt) (hrg : RegOk reg) (hco : CacheOk reg L.s)
    (hwf : wfPkt p) (hbad : goodB reg p = false) :
    (txStep reg size n L p).cur = L.cur ∧
    (L.wrNext = none → (txStep reg size n L p).headSlot = some L.cur) ∧
    (∀ t, L.wrNext = some t → (txStep reg size n L p).headSlot = L.headSlot) ∧
    (txStep reg size n L p).wrNext = some L.cur ∧
    (txStep reg size n L p).elt_prev = some L.cur ∧
    (txStep reg size n L p).dropped = L.dropped + 1 ∧
    (txStep reg size n L p).s.elts_n = L.s.elts_n ∧
    (txStep reg size n L p).s.elts_cur = L.s.elts_cur ∧
    (txStep reg size n L p).s.elts_used = L.s.elts_used ∧
    (txStep reg size n L p).s.elts_free = L.s.elts_free ∧
    (txStep reg size n L p).s.elts_comp = L.s.elts_comp ∧
    (txStep reg size n L p).s.lost_comp = L.s.lost_comp ∧
    (txStep reg size n L p).s.posted = L.s.posted ∧
    (txStep reg size n L p).s.odropped = L.s.odropped ∧
    (txStep reg size n L p).s.freed = L.s.freed ++ p.map Seg.id ∧
    (txStep reg size n L p).s.opackets = L.s.opackets + 1 ∧
    (txStep reg size n L p).s.comp = upd L.s.comp L.cur L.elt_prev ∧
    (L.wrNext = none → (txStep reg size n L p).s.next = L.s.next) ∧
    (∀ t, L.wrNext = some t →
      (txStep reg size n L p).s.next = upd L.s.next t (some L.cur)) ∧
    (txStep reg size n L p).s.sg = upd L.s.sg L.cur 0 ∧
    (∀ e, ¬(e = L.cur) → (txStep reg size n L p).s.bufs e = L.s.bufs e) ∧
    ((txStep reg size n L p).s.bufs L.cur).length = (L.s.bufs L.cur).length ∧
    CacheOk reg (txStep reg size n L p).s := by
  have hnot : ¬(0 + p.length ≤ 4 ∧ ∀ b ∈ p, (reg b.pool).isSome = true) := by
    intro h
    obtain ⟨h1, h2⟩ := h
    have hgt : goodB reg p = true := by
      simp only [goodB, Bool.and_eq_true, decide_eq_true_eq, List.all_eq_true]
      exact ⟨by omega, fun b hb => h2 b hb⟩
    rw [hgt] at hbad
    exact Bool.noConfusion hbad
  unfold txStep
  cases hw : L.wrNext with
  | none =>
    dsimp only
    have hdropEq := segLoop_drops reg size L.cur hrg p 0 0 true
      { L.s with
        sig := upd L.s.sig L.cur false
        comp := upd L.s.comp L.cur L.elt_prev }
      (fun e he => hco e he) hwf.2 (by omega) hnot
    obtain ⟨f1, f2, f3, f4⟩ := segLoop_frame reg size L.cur hrg p 0 0 true
      { L.s with
        sig := upd L.s.sig L.cur false
        comp := upd L.s.comp L.cur L.elt_prev }
    obtain ⟨t1, t2, t3, t4, t5, t6, t7, t8, t9, t10, t11, t12, t13, t14, t15⟩ := f1
    rw [hdropEq, if_pos rfl]
    refine ⟨rfl, fun _ => rfl, ?_, rfl, rfl, rfl, t1, t2, t3, t4, t5, t10, t12, t15,
      ?_, ?_, ?_, fun _ => ?_, ?_, ?_, ?_, ?_, ?_⟩
    · intro t h; cases h
    · rw [t11]
    · rw [t13]
    · rw [t6]
    · rw [t7]
    · intro t h; cases h
    · rw [t8]
    · exact fun e he => f2 e he
    · exact f3
    · exact fun e he => f4 (fun x hx => hco x hx) e he
  | some t0 =>
    dsimp only
    have hdropEq := segLoop_drops reg size L.cur hrg p 0 0 true
      { L.s with
        next := upd L.s.next t0 (some L.cur)
        sig := upd L.s.sig L.cur false
        comp := upd L.s.comp L.cur L.elt_prev }
      (fun e he => hco e he) hwf.2 (by omega) hnot
    obtain ⟨f1, f2, f3, f4⟩ := segLoop_frame reg size L.cur hrg p 0 0 true
      { L.s with
        next := upd L.s.next t0 (some L.cur)
        sig := upd L.s.sig L.cur false
        comp := upd L.s.comp L.cur L.elt_prev }
    obtain ⟨t1, t2, t3, t4, t5, t6, t7, t8, t9, t10, t11, t12, t13, t14, t15⟩ := f1
    rw [hdropEq, if_pos rfl]
    refine ⟨rfl, ?_, fun _ _ => rfl, rfl, rfl, rfl, t1, t2, t3, t4, t5, t10, t12, t15,
      ?_, ?_, ?_, ?_, fun t h => ?_, ?_, ?_, ?_, ?_⟩
    · intro h; cases h
    · rw [t11]
    · rw [t13]
    · rw [t6]
    · intro h; cases h
    · cases h; rw [t7]
    · rw [t8]
    · exact fun e he => f2 e he
    · exact f3
    · exact fun e he => f4 (fun x hx => hco x hx) e he

/-- The packet loop over a mixed burst (good and bad packets), no ring
wrap: the `j`-th good packet lands in slot `L.cur + j`; each bad packet
is freed on the spot, bumps `dropped`, and does not consume a slot; the
WR chain links the good slots consecutively. -/
theorem txLoopMixed_run (reg : Nat → Option MrReg) (size : Nat → Nat) (n : Nat)
    (hrg : RegOk reg) (pkts : List Pkt) :
    ∀ L : LoopSt,
    CacheOk reg L.s →
    (∀ p ∈ pkts, wfPkt p) →
    L.cur + (pkts.filter (goodB reg)).length < n →
    (∀ t, L.wrNext = some t → t ≤ L.cur) →
    (∀ i, (L.s.bufs i).length = 4) →
    (txLoop reg size n pkts L).cur = L.cur + (pkts.filter (goodB reg)).length ∧
    (txLoop reg size n pkts L).dropped
      = L.dropped + (pkts.length - (pkts.filter (goodB reg)).length) ∧
    (L.wrNext = none → ¬(pkts = []) →
      (txLoop reg size n pkts L).headSlot = some L.cur) ∧
    (∀ t, L.wrNext = some t →
      (txLoop reg size n pkts L).headSlot = L.headSlot) ∧
    ((∀ q, pkts.getLast? = some q → goodB reg q = true) → ¬(pkts = []) →
      (txLoop reg size n pkts L).wrNext
        = some (L.cur + (pkts.filter (goodB reg)).length - 1)) ∧
    (txLoop reg size n pkts L).s.elts_n = L.s.elts_n ∧
    (txLoop reg size n pkts L).s.elts_cur = L.s.elts_cur ∧
    (txLoop reg size n pkts L).s.elts_used = L.s.elts_used ∧
    (txLoop reg size n pkts L).s.elts_free = L.s.elts_free ∧
    (txLoop reg size n pkts L).s.elts_comp = L.s.elts_comp ∧
    (txLoop reg size n pkts L).s.lost_comp = L.s.lost_comp ∧
    (txLoop reg size n pkts L).s.posted = L.s.posted ∧
    (txLoop reg size n pkts L).s.odropped = L.s.odropped ∧
    (txLoop reg size n pkts L).s.opackets = L.s.opackets + pkts.length ∧
    (txLoop reg size n pkts L).s.freed = L.s.freed
      ++ ((pkts.filter (fun q => !goodB reg q)).map (fun q => q.map Seg.id)).flatten ∧
    (∀ j, j + 1 < (pkts.filter (goodB reg)).length →
      (txLoop reg size n pkts L).s.next (L.cur + j) = some (L.cur + j + 1)) ∧
    (∀ t, L.wrNext = some t → t < L.cur → ¬(pkts = []) →
      (txLoop reg size n pkts L).s.next t = some L.cur) ∧
    (∀ e, e < L.cur → (∀ t, L.wrNext = some t → ¬(e = t)) →
      (txLoop reg size n pkts L).s.next e = L.s.next e) ∧
    (∀ j, j < (pkts.filter (goodB reg)).length →
      (txLoop reg size n pkts L).s.sg (L.cur + j)
        = ((pkts.filter (goodB reg)).getD j []).length) ∧
    (∀ e, e < L.cur → (txLoop reg size n pkts L).s.sg e = L.s.sg e) ∧
    (∀ j, j < (pkts.filter (goodB reg)).length →
      ((txLoop reg size n pkts L).s.bufs (L.cur + j)).take
          ((pkts.filter (goodB reg)).getD j []).length
        = ((pkts.filter (goodB reg)).getD j []).map some) ∧
    (∀ e, e < L.cur → (txLoop reg size n pkts L).s.bufs e = L.s.bufs e) ∧
    (∀ i, ((txLoop reg size n pkts L).s.bufs i).length = 4) ∧
    CacheOk reg (txLoop reg size n pkts L).s := by
  induction pkts with
  | nil =>
    intro L hco _ _ _ hbl
    refine ⟨rfl, rfl, fun _ h => absurd rfl h, fun _ _ => rfl, fun _ h => absurd rfl h,
      rfl, rfl, rfl, rfl, rfl, rfl, rfl, rfl, rfl, by simp [txLoop],
      ?_, fun _ _ _ h => absurd rfl h, fun _ _ _ => rfl,
      ?_, fun _ _ => rfl, ?_, fun _ _ => rfl, hbl, hco⟩
    · intro j hj; simp at hj
    · intro j hj; simp at hj
    · intro j hj; simp at hj
  | cons p rest ih =>
    intro L hco hwf hfit hwn hbl
    have hstep : txLoop reg size n (p :: rest) L
        = txLoop reg size n rest (txStep reg size n L p) := rfl
    simp only [hstep]
    by_cases hgb : goodB reg p = true
    · -- good head: consumes slot L.cur
      have hgp : goodPkt reg p := goodB_goodPkt reg p (hwf p (List.mem_cons_self p rest)) hgb
      obtain ⟨g1, g2, g3, g4, g5, g6, g7, g8, g9, g10, g11, g12, g13, g14, g15, g16,
        g17, g18, g19, g20, g21, g22, g23⟩ := txStep_good reg size n L p hrg hco hgp
      simp only [List.filter_cons, hgb, if_true, Bool.not_true, Bool.false_eq_true,
        if_false, List.length_cons] at hfit ⊢
      have hcur1 : (txStep reg size n L p).cur = L.cur + 1 := by
        rw [g1, if_neg]; omega
      have hbl1 : ∀ i, ((txStep reg size n L p).s.bufs i).length = 4 := by
        intro i
        rw [g22]
        by_cases hic : i = L.cur
        · subst hic; rw [upd_same, writeAt_length]; exact hbl L.cur
        · rw [upd_other _ _ _ _ hic]; exact hbl i
      obtain ⟨j1, j2, j3, j4, j5, j6, j7, j8, j9, j10, j11, j12, j13, j14, j15, j16,
        j17, j18, j19, j20, j21, j22, j23, j24⟩ :=
        ih (txStep reg size n L p) g23
          (fun q hq => hwf q (List.mem_cons_of_mem p hq))
          (by rw [hcur1]; omega)
          (by intro t ht; rw [g4] at ht; cases ht; rw [hcur1]; omega)
          hbl1
      refine ⟨?_, ?_, ?_, ?_, ?_, ?_, ?_, ?_, ?_, ?_, ?_, ?_, ?_, ?_, ?_, ?_, ?_,
        ?_, ?_, ?_, ?_, ?_, j23, j24⟩
      · rw [j1, hcur1]; omega
      · rw [j2, g6]
        have hle : (rest.filter (goodB reg)).length ≤ rest.length :=
          List.length_filter_le _ _
        omega
      · intro hw _; rw [j4 L.cur g4, g2 hw]
      · intro t hw; rw [j4 L.cur g4, g3 t hw]
      · intro hlast _
        by_cases hrr : rest = []
        · subst hrr
          simp only [txLoop, List.foldl_nil]
          rw [g4]
          exact congrArg some (by simp only [List.filter_nil, List.length_nil]; omega)
        · have hLtr : ∀ q, rest.getLast? = some q → goodB reg q = true := by
            intro q hq
            apply hlast
            cases rest with
            | nil => exact absurd rfl hrr
            | cons b l => rw [List.getLast?_cons_cons]; exact hq
          rw [j5 hLtr hrr, hcur1]
          exact congrArg some (by omega)
      · rw [j6, g7]
      · rw [j7, g8]
      · rw [j8, g9]
      · rw [j9, g10]
      · rw [j10, g11]
      · rw [j11, g12]
      · rw [j12, g14]
      · rw [j13, g15]
      · rw [j14, g16]; omega
      · rw [j15, g13]
      · intro j hj
        cases j with
        | zero =>
          have hrr : ¬(rest = []) := by
            intro h; subst h; simp at hj
          have hthis := j17 L.cur g4 (by rw [hcur1]; omega) hrr
          rw [hcur1] at hthis
          simpa using hthis
        | succ j' =>
          have hthis := j16 j' (by omega)
          rw [hcur1] at hthis
          rw [show L.cur + 1 + j' = L.cur + (j' + 1) from by omega] at hthis
          exact hthis
      · intro t hw htlt hne'
        by_cases hrr : rest = []
        · subst hrr
          simp only [txLoop, List.foldl_nil]
          rw [g20 t hw, upd_same]
        · rw [j18 t (by rw [hcur1]; omega)
            (fun t' ht' => by rw [g4] at ht'; cases ht'; omega)]
          rw [g20 t hw, upd_same]
      · intro e he het
        rw [j18 e (by rw [hcur1]; omega)
          (fun t' ht' => by rw [g4] at ht'; cases ht'; omega)]
        cases hw : L.wrNext with
        | none => rw [g19 hw]
        | some t => rw [g20 t hw, upd_other _ _ _ _ (het t hw)]
      · intro j hj
        cases j with
        | zero =>
          simp only [Nat.add_zero, List.getD_cons_zero]
          rw [j20 L.cur (by rw [hcur1]; omega), g21, upd_same]
        | succ j' =>
          have hthis := j19 j' (by omega)
          rw [hcur1] at hthis
          rw [show L.cur + 1 + j' = L.cur + (j' + 1) from by omega] at hthis
          simp only [List.getD_cons_succ]
          exact hthis
      · intro e he
        rw [j20 e (by rw [hcur1]; omega), g21, upd_other _ _ _ _ (by omega)]
      · intro j hj
        cases j with
        | zero =>
          simp only [Nat.add_zero, List.getD_cons_zero]
          rw [j22 L.cur (by rw [hcur1]; omega), g22, upd_same]
          rw [writeAt_spec p _ 0 (by rw [hbl L.cur]; have := hgp.2.1; omega)]
          simp only [List.take_zero, List.nil_append, Nat.zero_add]
          rw [show p.length = (p.map some).length from (List.length_map _ _).symm]
          exact List.take_left _ _
        | succ j' =>
          have hthis := j21 j' (by omega)
          rw [hcur1] at hthis
          rw [show L.cur + 1 + j' = L.cur + (j' + 1) from by omega] at hthis
          simp only [List.getD_cons_succ]
          exact hthis
      · intro e he
        rw [j22 e (by rw [hcur1]; omega), g22, upd_other _ _ _ _ (by omega)]
    · -- bad head: dropped in place, no slot consumed
      have hbad : goodB reg p = false := by
        revert hgb; cases goodB reg p <;> simp
      obtain ⟨b1, b2, b3, b4, b5, b6, b7, b8, b9, b10, b11, b12, b13, b14, b15, b16,
        b17, b18, b19, b20, b21, b22, b23⟩ :=
        txStep_bad reg size n L p hrg hco (hwf p (List.mem_cons_self p rest)) hbad
      simp only [List.filter_cons, hbad, Bool.false_eq_true, if_false, Bool.not_false,
        if_true, List.length_cons] at hfit ⊢
      have hbl1 : ∀ i, ((txStep reg size n L p).s.bufs i).length = 4 := by
        intro i
        by_cases hic : i = L.cur
        · subst hic; rw [b22]; exact hbl L.cur
        · rw [b21 i hic]; exact hbl i
      obtain ⟨j1, j2, j3, j4, j5, j6, j7, j8, j9, j10, j11, j12, j13, j14, j15, j16,
        j17, j18, j19, j20, j21, j22, j23, j24⟩ :=
        ih (txStep reg size n L p) b23
          (fun q hq => hwf q (List.mem_cons_of_mem p hq))
          (by rw [b1]; exact hfit)
          (by intro t ht; rw [b4] at ht; cases ht; exact le_of_eq b1.symm)
          hbl1
      refine ⟨?_, ?_, ?_, ?_, ?_, ?_, ?_, ?_, ?_, ?_, ?_, ?_, ?_, ?_, ?_, ?_, ?_,
        ?_, ?_, ?_, ?_, ?_, j23, j24⟩
      · rw [j1, b1]
      · rw [j2, b6]
        have hle : (rest.filter (goodB reg)).length ≤ rest.length :=
          List.length_filter_le _ _
        omega
      · intro hw _; rw [j4 L.cur b4, b2 hw]
      · intro t hw; rw [j4 L.cur b4, b3 t hw]
      · intro hlast _
        have hrr : ¬(rest = []) := by
          intro h; subst h
          have hgl := hlast p rfl
          rw [hgl] at hbad
          exact Bool.noConfusion hbad
        have hLtr : ∀ q, rest.getLast? = some q → goodB reg q = true := by
          intro q hq
          apply hlast
          cases rest with
          | nil => exact absurd rfl hrr
          | cons b l => rw [List.getLast?_cons_cons]; exact hq
        rw [j5 hLtr hrr, b1]
      · rw [j6, b7]
      · rw [j7, b8]
      · rw [j8, b9]
      · rw [j9, b10]
      · rw [j10, b11]
      · rw [j11, b12]
      · rw [j12, b13]
      · rw [j13, b14]
      · rw [j14, b16]; omega
      · rw [j15, b15]
        simp only [List.map_cons, List.flatten_cons, List.append_assoc]
      · intro j hj
        have hthis := j16 j hj
        rw [b1] at hthis
        exact hthis
      · intro t hw htlt hne'
        by_cases hrr : rest = []
        · subst hrr
          simp only [txLoop, List.foldl_nil]
          rw [b19 t hw, upd_same]
        · rw [j18 t (by rw [b1]; exact htlt)
            (fun t' ht' => by rw [b4] at ht'; cases ht'; omega)]
          rw [b19 t hw, upd_same]
      · intro e he het
        rw [j18 e (by rw [b1]; omega)
          (fun t' ht' => by rw [b4] at ht'; cases ht'; omega)]
        cases hw : L.wrNext with
        | none => rw [b18 hw]
        | some t => rw [b19 t hw, upd_other _ _ _ _ (het t hw)]
      · intro j hj
        have hthis := j19 j hj
        rw [b1] at hthis
        exact hthis
      · intro e he
        rw [j20 e (by rw [b1]; omega), b20, upd_other _ _ _ _ (by omega)]
      · intro j hj
        have hthis := j21 j hj
        rw [b1] at hthis
        exact hthis
      · intro e he
        rw [j22 e (by rw [b1]; omega)]
        exact b21 e (by omega)

/-- C8.  Per-item TX failures are non-fatal to the burst: on a fresh ring,
a burst mixing good packets with packets that exceed the 4-SGE limit or
whose pool fails to register drops exactly the bad packets — each is
freed on the spot and counted in `odropped` — while every good packet is
still stored (slot `j` holds the `j`-th good packet's segments and SGE
count) and the chain of the good slots is posted; the call reports the
whole burst consumed. -/
theorem c8_per_item_drops_nonfatal (n : Nat) (pkts : List Pkt)
    (poll : Nat → PollRes) (post : List Nat → PostRes) (reg : Nat → Option MrReg)
    (size : Nat → Nat)
    (hrg : RegOk reg) (hwf : ∀ p ∈ pkts, wfPkt p)
    (hlast : ∀ q, pkts.getLast? = some q → goodB reg q = true)
    (hg1 : 1 ≤ (pkts.filter (goodB reg)).length)
    (hmn : pkts.length < n)
    (hpost : post (List.range (pkts.filter (goodB reg)).length) = PostRes.ok) :
    (mlx4_tx_burst (txq_alloc_elts n) pkts poll post reg size).1 = pkts.length ∧
    (mlx4_tx_burst (txq_alloc_elts n) pkts poll post reg size).2.odropped
      = pkts.length - (pkts.filter (goodB reg)).length ∧
    (mlx4_tx_burst (txq_alloc_elts n) pkts poll post reg size).2.freed
      = ((pkts.filter (fun q => !goodB reg q)).map (fun q => q.map Seg.id)).flatten ∧
    (mlx4_tx_burst (txq_alloc_elts n) pkts poll post reg size).2.posted
      = [List.range (pkts.filter (goodB reg)).length] ∧
    (mlx4_tx_burst (txq_alloc_elts n) pkts poll post reg size).2.elts_used
      = (pkts.filter (goodB reg)).length ∧
    (mlx4_tx_burst (txq_alloc_elts n) pkts poll post reg size).2.elts_free
      = n - (pkts.filter (goodB reg)).length ∧
    (mlx4_tx_burst (txq_alloc_elts n) pkts poll post reg size).2.elts_comp = 1 ∧
    (∀ j, j < (pkts.filter (goodB reg)).length →
      (mlx4_tx_burst (txq_alloc_elts n) pkts poll post reg size).2.sg j
        = ((pkts.filter (goodB reg)).getD j []).length ∧
      ((mlx4_tx_burst (txq_alloc_elts n) pkts poll post reg size).2.bufs j).take
          ((pkts.filter (goodB reg)).getD j []).length
        = ((pkts.filter (goodB reg)).getD j []).map some) := by
  have hGle : (pkts.filter (goodB reg)).length ≤ pkts.length :=
    List.length_filter_le _ _
  have hne : ¬(pkts = []) := by
    intro h; subst h; simp at hg1
  have hlen1 : 1 ≤ pkts.length := List.length_pos.mpr hne
  have hcomp0 : txq_complete (txq_alloc_elts n) poll = (0, txq_alloc_elts n) := by
    unfold txq_complete
    rw [if_pos (show (txq_alloc_elts n).elts_comp = 0 from rfl)]
  obtain ⟨m1, m2, m3, m4, m5, m6, m7, m8, m9, m10, m11, m12, m13, m14, m15, m16,
    m17, m18, m19, m20, m21, m22, m23, m24⟩ :=
    txLoopMixed_run reg size n hrg pkts ⟨txq_alloc_elts n, 0, none, none, none, 0⟩
      (fun e he => absurd he (List.not_mem_nil e))
      hwf
      (by show 0 + (pkts.filter (goodB reg)).length < n; omega)
      (fun t ht => by cases ht)
      (fun i => rfl)
  have hLcur : (txLoop reg size n pkts ⟨txq_alloc_elts n, 0, none, none, none, 0⟩).cur
      = (pkts.filter (goodB reg)).length := by
    rw [m1]; exact Nat.zero_add _
  have hdropL : (txLoop reg size n pkts ⟨txq_alloc_elts n, 0, none, none, none, 0⟩).dropped
      = pkts.length - (pkts.filter (goodB reg)).length := by
    rw [m2]; exact Nat.zero_add _
  have hhead : (txLoop reg size n pkts ⟨txq_alloc_elts n, 0, none, none, none, 0⟩).headSlot
      = some 0 := m3 rfl hne
  have hwrn : (txLoop reg size n pkts ⟨txq_alloc_elts n, 0, none, none, none, 0⟩).wrNext
      = some ((pkts.filter (goodB reg)).length - 1) := by
    rw [m5 hlast hne]
    exact congrArg some
      (show 0 + (List.filter (goodB reg) pkts).length - 1
        = (List.filter (goodB reg) pkts).length - 1 from by omega)
  have hen : (txLoop reg size n pkts ⟨txq_alloc_elts n, 0, none, none, none, 0⟩).s.elts_n
      = n := m6
  have hused : (txLoop reg size n pkts ⟨txq_alloc_elts n, 0, none, none, none, 0⟩).s.elts_used
      = 0 := m8
  have hfree2 : (txLoop reg size n pkts ⟨txq_alloc_elts n, 0, none, none, none, 0⟩).s.elts_free
      = n := m9
  have hcompc : (txLoop reg size n pkts ⟨txq_alloc_elts n, 0, none, none, none, 0⟩).s.elts_comp
      = 0 := m10
  have hposted : (txLoop reg size n pkts ⟨txq_alloc_elts n, 0, none, none, none, 0⟩).s.posted
      = [] := m12
  have hodr : (txLoop reg size n pkts ⟨txq_alloc_elts n, 0, none, none, none, 0⟩).s.odropped
      = 0 := m13
  have hfreedL : (txLoop reg size n pkts ⟨txq_alloc_elts n, 0, none, none, none, 0⟩).s.freed
      = ((pkts.filter (fun q => !goodB reg q)).map (fun q => q.map Seg.id)).flatten := m15
  have hnextF : ∀ j, j + 1 < (pkts.filter (goodB reg)).length →
      (txLoop reg size n pkts ⟨txq_alloc_elts n, 0, none, none, none, 0⟩).s.next j
        = some (j + 1) := by
    intro j hj
    have hx := m16 j hj
    simpa using hx
  have hsgF : ∀ j, j < (pkts.filter (goodB reg)).length →
      (txLoop reg size n pkts ⟨txq_alloc_elts n, 0, none, none, none, 0⟩).s.sg j
        = ((pkts.filter (goodB reg)).getD j []).length := by
    intro j hj
    have hx := m19 j hj
    simpa using hx
  have hbufT : ∀ j, j < (pkts.filter (goodB reg)).length →
      ((txLoop reg size n pkts ⟨txq_alloc_elts n, 0, none, none, none, 0⟩).s.bufs j).take
          ((pkts.filter (goodB reg)).getD j []).length
        = ((pkts.filter (goodB reg)).getD j []).map some := by
    intro j hj
    have hx := m21 j hj
    simpa using hx
  have hn0 : ¬(n = 0) := by omega
  unfold mlx4_tx_burst
  rw [hcomp0]
  dsimp only
  rw [if_neg hne, show (txq_alloc_elts n).elts_free = n from rfl, if_neg hn0]
  rw [show min n pkts.length = pkts.length from Nat.min_eq_right (le_of_lt hmn)]
  rw [List.take_length]
  rw [show (txq_alloc_elts n).elts_n = n from rfl]
  rw [show (txq_alloc_elts n).elts_cur = 0 from rfl]
  rw [show pkts.foldl (txStep reg size n) ⟨txq_alloc_elts n, 0, none, none, none, 0⟩
      = txLoop reg size n pkts ⟨txq_alloc_elts n, 0, none, none, none, 0⟩ from rfl]
  rw [hdropL]
  rw [if_neg (show ¬(pkts.length - (pkts.filter (goodB reg)).length = pkts.length)
    from by omega)]
  rw [hwrn]
  dsimp only
  rw [hen, hhead]
  have hchain : optChain
      (upd (txLoop reg size n pkts ⟨txq_alloc_elts n, 0, none, none, none, 0⟩).s.next
        ((pkts.filter (goodB reg)).length - 1) none) n (some 0)
      = List.range (pkts.filter (goodB reg)).length := by
    rw [List.range_eq_range']
    refine optChain_range _ (pkts.filter (goodB reg)).length 0 n ?_ ?_ hg1 (by omega)
    · intro i hi0 hi1
      rw [upd_other _ _ _ _ (by omega)]
      exact hnextF i (by omega)
    · rw [show 0 + (pkts.filter (goodB reg)).length - 1
          = (pkts.filter (goodB reg)).length - 1 from by omega]
      exact upd_same _ _ _
  rw [hchain, hpost]
  dsimp only
  refine ⟨rfl, ?_, hfreedL, ?_, ?_, ?_, ?_, ?_⟩
  · rw [hodr]; exact Nat.zero_add _
  · rw [hposted]; rfl
  · rw [hused]; omega
  · rw [hfree2]; omega
  · rw [hcompc]
  · intro j hj
    exact ⟨hsgF j hj, hbufT j hj⟩

/-- Witness for the C8 theorem: a fresh 4-slot ring; burst of a good
single-segment packet, a 5-segment packet (dropped for exceeding
`MLX4_PMD_SGE_WR_N`), and another good packet; post succeeds. -/
theorem c8_per_item_drops_nonfatal_witness :
    (mlx4_tx_burst (txq_alloc_elts 4)
      [[⟨51, 9, 5, 5⟩],
        [⟨60, 9, 1, 5⟩, ⟨61, 9, 1, 5⟩, ⟨62, 9, 1, 5⟩, ⟨63, 9, 1, 5⟩, ⟨64, 9, 1, 5⟩],
        [⟨52, 9, 5, 5⟩]]
      pollEmpty (fun _ => PostRes.ok)
      (fun _ => some ⟨700, 800⟩) (fun _ => 4096)).1 = 3 :=
  (c8_per_item_drops_nonfatal 4
    [[⟨51, 9, 5, 5⟩],
      [⟨60, 9, 1, 5⟩, ⟨61, 9, 1, 5⟩, ⟨62, 9, 1, 5⟩, ⟨63, 9, 1, 5⟩, ⟨64, 9, 1, 5⟩],
      [⟨52, 9, 5, 5⟩]]
    pollEmpty (fun _ => PostRes.ok) (fun _ => some ⟨700, 800⟩) (fun _ => 4096)
    (by intro pool r h; cases h; decide)
    (by simp only [wfPkt]; decide)
    (by intro q hq; cases hq; decide)
    (by decide) (by decide) rfl).1

end Mlx4
